import Mathlib

/-!
# IntegrityWatchdog: snapshot, differ, collector and walker

A shallow embedding of the Go packages `monitor`, `storage`, `config`,
`scanner` and `daemon`, followed by the theorems that settle the claims of the
specification.

Conventions of the embedding.

* A Go `string` is a sequence of bytes: `GoString := List Nat`, every element
  a byte value.  `str "/a"` writes an ASCII literal.
* A Go pointer `*FileInfo` is an `Option FileInfo`; `none` is `nil`.
* A Go `map[string]*FileInfo` is an association list with pairwise distinct
  keys (`AList`); the order of its entries stands for the order in which a
  `range` loop visits the map, which Go leaves unspecified.
* `time.Now()` is an explicit argument of the operations that read the clock.
* The reader/writer lock of a `Baseline` is not part of the state: every
  operation is embedded as the function it computes when it runs alone.  The
  lock operations of each method are embedded separately, as its lock trace.
-/

namespace IntegrityWatchdog

/-! ## Basic types -/

/-- Go strings are byte sequences. -/
abbrev GoString := List Nat

/-- An ASCII literal as a Go string. -/
def str (s : String) : GoString := s.toList.map Char.toNat

/-- A wall-clock instant (`time.Time`), in nanoseconds since the Unix epoch. -/
abbrev Time := Int

/-! ## package monitor: `FileInfo`, `CompareFiles`, `Equals` -/

/-- The struct `monitor.FileInfo` (file.go, lines 14-25). -/
structure FileInfo where
  Path : GoString
  Size : Int
  Mode : Nat
  ModTime : Int
  Hash : GoString
  UID : Int
  GID : Int
  IsDir : Bool
  IsSymlink : Bool
  deriving DecidableEq, Repr

/-- The enumeration `monitor.ChangeType` (file.go, lines 27-36). -/
inductive ChangeType where
  | NoChange
  | NewFile
  | ModifiedFile
  | DeletedFile
  | PermissionChange
  deriving DecidableEq, Repr

/-- The function `monitor.CompareFiles` (file.go, lines 111-132). -/
def CompareFiles (oldInfo newInfo : Option FileInfo) : ChangeType :=
  match oldInfo, newInfo with
  | none, some _ => ChangeType.NewFile
  | some _, none => ChangeType.DeletedFile
  | none, none => ChangeType.NoChange
  | some o, some n =>
    if o.Hash ≠ n.Hash then ChangeType.ModifiedFile
    else if o.Mode ≠ n.Mode ∨ o.UID ≠ n.UID ∨ o.GID ≠ n.GID then ChangeType.PermissionChange
    else ChangeType.NoChange

/-- The method `(*FileInfo).Equals` (file.go, lines 134-158); both the receiver
and the argument may be `nil`. -/
def Equals (f other : Option FileInfo) : Bool :=
  match f, other with
  | some f, some other =>
    if f.Path ≠ other.Path ∨ f.Size ≠ other.Size ∨ f.Mode ≠ other.Mode ∨
        f.ModTime ≠ other.ModTime ∨ f.UID ≠ other.UID ∨ f.GID ≠ other.GID ∨
        f.IsDir ≠ other.IsDir ∨ f.IsSymlink ≠ other.IsSymlink then
      false
    else if !f.IsDir && !f.IsSymlink then
      decide (f.Hash = other.Hash)
    else
      true
  | _, _ => false

/-! ## package storage: `Baseline`, `Changes`, `Compare` -/

/-- The Go type `map[string]*monitor.FileInfo`.  A nil map reads like an empty map and
has the empty map as its content; whether the map of a snapshot is nil is recorded in
the snapshot (`Baseline.allocated`). -/
abbrev FileMap := AList (fun _ : GoString => Option FileInfo)

/-- The struct `storage.Baseline` (baseline.go, lines 13-19), without its lock.
`allocated` tells whether the map `Files` is allocated: it is for a snapshot made by
`NewBaseline`, it is not (the map is nil) for the zero value of the struct and for a
snapshot loaded from a document without a `files` object.  A nil map has no entries:
a value with `allocated = false` stands for a snapshot of the program when `Files` is
empty. -/
structure Baseline where
  Files : FileMap
  CreatedAt : Time
  UpdatedAt : Time
  allocated : Bool
  deriving DecidableEq

/-- The struct `storage.Changes` (baseline.go, lines 21-26). -/
structure Changes where
  Added : List (Option FileInfo)
  Modified : List (Option FileInfo)
  Deleted : List (Option FileInfo)
  deriving DecidableEq, Repr

/-- The function `storage.NewBaseline` (baseline.go, lines 28-35); `t₁` and `t₂` are
the two readings of the clock. -/
def NewBaseline (t₁ t₂ : Time) : Baseline :=
  { Files := ∅, CreatedAt := t₁, UpdatedAt := t₂, allocated := true }

/-- Whether the call `b.AddFile(info)` panics: the assignment `b.Files[info.Path] = info`
(baseline.go, line 42) panics on a nil map. -/
def AddFilePanics (b : Baseline) : Bool := !b.allocated

/-- The method `(*Baseline).AddFile` (baseline.go, lines 37-44): the snapshot that the
call leaves when it returns, which it does exactly when `AddFilePanics` is false (the
call with both outcomes is `AddFileCall`).  The argument is dereferenced (`info.Path`),
so it is a record and not a nullable pointer; `now` is the reading of the clock. -/
def AddFile (b : Baseline) (info : FileInfo) (now : Time) : Baseline :=
  { b with Files := b.Files.insert info.Path (some info), UpdatedAt := now }

/-- The call `b.AddFile(info)` with its two outcomes: `none` is the panic on a nil map,
`some` holds the snapshot after the call. -/
def AddFileCall (b : Baseline) (info : FileInfo) (now : Time) : Option Baseline :=
  if AddFilePanics b then none else some (AddFile b info now)

/-- The method `(*Baseline).GetFile` (baseline.go, lines 46-53): the stored pointer
and the presence flag of a map read `info, exists := b.Files[path]`. -/
def GetFile (b : Baseline) (path : GoString) : Option FileInfo × Bool :=
  match b.Files.lookup path with
  | some info => (info, true)
  | none => (none, false)

/-- The method `(*Baseline).RemoveFile` (baseline.go, lines 55-62). -/
def RemoveFile (b : Baseline) (path : GoString) (now : Time) : Baseline :=
  { b with Files := b.Files.erase path, UpdatedAt := now }

/-- First loop of `Compare` (baseline.go, lines 109-121): one step for the entry
`path, otherFile` of `other.Files`. -/
def compareStepOther (b : Baseline) (changes : Changes)
    (e : Sigma fun _ : GoString => Option FileInfo) : Changes :=
  match b.Files.lookup e.1 with
  | none => { changes with Added := changes.Added ++ [e.2] }
  | some baselineFile =>
    if !Equals baselineFile e.2 then
      { changes with Modified := changes.Modified ++ [e.2] }
    else changes

/-- Second loop of `Compare` (baseline.go, lines 123-129): one step for the entry
`path, baselineFile` of `b.Files`. -/
def compareStepBaseline (other : Baseline) (changes : Changes)
    (e : Sigma fun _ : GoString => Option FileInfo) : Changes :=
  match other.Files.lookup e.1 with
  | none => { changes with Deleted := changes.Deleted ++ [e.2] }
  | some _ => changes

/-- The method `(*Baseline).Compare` (baseline.go, lines 101-132): `b` is the
receiver (the baseline), `other` the current snapshot. -/
def Compare (b other : Baseline) : Changes :=
  let changes : Changes := { Added := [], Modified := [], Deleted := [] }
  let changes := other.Files.entries.foldl (compareStepOther b) changes
  b.Files.entries.foldl (compareStepBaseline other) changes

/-! ### The map entries behind the three sequences of a `Changes`

`Compare` appends records only.  To speak of the path (map key) under which a
reported record was found, the entries selected by each branch of the two loops
are named here; `Compare_eq` shows that the three sequences of `Compare` are
their record components. -/

/-- Entries of the current snapshot whose key is absent from the baseline. -/
def addedEntries (b other : Baseline) : List (Sigma fun _ : GoString => Option FileInfo) :=
  other.Files.entries.filter fun e => (b.Files.lookup e.1).isNone

/-- Entries of the current snapshot whose key the baseline holds with a record
that is not `Equals` to the current one. -/
def modifiedEntries (b other : Baseline) : List (Sigma fun _ : GoString => Option FileInfo) :=
  other.Files.entries.filter fun e =>
    match b.Files.lookup e.1 with
    | none => false
    | some baselineFile => !Equals baselineFile e.2

/-- Entries of the baseline whose key is absent from the current snapshot. -/
def deletedEntries (b other : Baseline) : List (Sigma fun _ : GoString => Option FileInfo) :=
  b.Files.entries.filter fun e => (other.Files.lookup e.1).isNone

/-- A path is unchanged when both snapshots hold it with records that are `Equals`. -/
def Unchanged (b other : Baseline) (k : GoString) : Prop :=
  ∃ x y, b.Files.lookup k = some x ∧ other.Files.lookup k = some y ∧ Equals x y = true

/-! ### Records and snapshots of the scenarios -/

/-- A regular file record with the given path and content hash. -/
def regularRecord (path hash : GoString) : FileInfo :=
  { Path := path, Size := 12, Mode := 0o644, ModTime := 1700000000, Hash := hash,
    UID := 1000, GID := 1000, IsDir := false, IsSymlink := false }

/-- A snapshot holding the given records, each under its own path. -/
def snapshotOf (rs : List FileInfo) : Baseline :=
  rs.foldl (fun b r => AddFile b r 0) (NewBaseline 0 0)


/-! ### Sequences of mutations of a snapshot -/

/-- One mutating call on a snapshot, with the reading of the clock it makes. -/
inductive Op where
  | add (info : FileInfo) (now : Time)
  | remove (path : GoString) (now : Time)
  deriving DecidableEq, Repr

/-- The effect of one call. -/
def applyOp (b : Baseline) : Op → Baseline
  | Op.add info now => AddFile b info now
  | Op.remove path now => RemoveFile b path now

/-- The effect of a sequence of calls, first call first. -/
def applyOps (b : Baseline) (ops : List Op) : Baseline :=
  ops.foldl applyOp b

/-! ## The file system

The operating system is embedded as a finite tree of entries.  A node holds
what the system calls used by the program report about it: the attributes of
`lstat`, the SHA-256 sum of a file's content (absent when the file cannot be
opened or read), the result of `filepath.EvalSymlinks` on a symlink (absent when
resolution fails), and the entries of a directory in the order in which
`filepath.Walk` visits them (sorted by name), with a flag telling whether the
directory can be listed. -/

/-- The result of `sha256.Sum`: 32 bytes. -/
structure Digest where
  bytes : List Nat
  size_eq : bytes.length = 32

/-- File types other than directory and symbolic link. -/
inductive FileType where
  | regular
  | namedPipe
  | socket
  | device
  | charDevice
  | irregular
  deriving DecidableEq, Repr

/-- Attributes of an entry as `lstat` reports them. -/
structure Attrs where
  size : Int
  perm : Nat
  setuid : Bool
  setgid : Bool
  sticky : Bool
  modTime : Int
  owner : Option (Nat × Nat)
  deriving DecidableEq, Repr

/-- An entry of the file system. -/
inductive Node where
  | file (a : Attrs) (typ : FileType) (sum : Option Digest)
  | symlink (a : Attrs) (target : Option GoString)
  | dir (a : Attrs) (readable : Bool) (children : List (GoString × Node))

/-- A file system: the tree `tree` located at path `top`. -/
structure FS where
  top : GoString
  tree : Node

/-- Bit `os.ModeDir` of `os.FileMode`. -/
def ModeDir : Nat := 2 ^ 31
/-- Bit `os.ModeSymlink`. -/
def ModeSymlink : Nat := 2 ^ 27
/-- Bit `os.ModeDevice`. -/
def ModeDevice : Nat := 2 ^ 26
/-- Bit `os.ModeNamedPipe`. -/
def ModeNamedPipe : Nat := 2 ^ 25
/-- Bit `os.ModeSocket`. -/
def ModeSocket : Nat := 2 ^ 24
/-- Bit `os.ModeSetuid`. -/
def ModeSetuid : Nat := 2 ^ 23
/-- Bit `os.ModeSetgid`. -/
def ModeSetgid : Nat := 2 ^ 22
/-- Bit `os.ModeCharDevice`. -/
def ModeCharDevice : Nat := 2 ^ 21
/-- Bit `os.ModeSticky`. -/
def ModeSticky : Nat := 2 ^ 20
/-- Bit `os.ModeIrregular`. -/
def ModeIrregular : Nat := 2 ^ 19

/-- The value `os.FileInfo` that `os.Lstat` returns: `Size()`, `Mode()`,
`ModTime().Unix()` and the owner found in `Sys()` when that is a `*syscall.Stat_t`. -/
structure OSFileInfo where
  Size : Int
  Mode : Nat
  ModTime : Int
  Sys : Option (Nat × Nat)
  deriving DecidableEq, Repr

/-- The method `IsDir()` of `os.FileInfo`: `Mode()&ModeDir != 0`. -/
def OSFileInfo.IsDir (info : OSFileInfo) : Bool := info.Mode &&& ModeDir != 0

/-- Type bits of a file that is neither a directory nor a symlink. -/
def FileType.bits : FileType → Nat
  | FileType.regular => 0
  | FileType.namedPipe => ModeNamedPipe
  | FileType.socket => ModeSocket
  | FileType.device => ModeDevice
  | FileType.charDevice => ModeDevice + ModeCharDevice
  | FileType.irregular => ModeIrregular

/-- Permission bits of a `FileMode`: the nine `rwx` bits and setuid, setgid, sticky. -/
def Attrs.permBits (a : Attrs) : Nat :=
  a.perm % 512 + (if a.setuid then ModeSetuid else 0) + (if a.setgid then ModeSetgid else 0) +
    (if a.sticky then ModeSticky else 0)

/-- Attributes of a node. -/
def Node.attrs : Node → Attrs
  | Node.file a _ _ => a
  | Node.symlink a _ => a
  | Node.dir a _ _ => a

/-- Type bits of a node: `lstat` reports one file type. -/
def Node.typeBits : Node → Nat
  | Node.file _ typ _ => typ.bits
  | Node.symlink _ _ => ModeSymlink
  | Node.dir _ _ _ => ModeDir

/-- What `os.Lstat` reports for a node. -/
def Node.stat (n : Node) : OSFileInfo :=
  { Size := n.attrs.size, Mode := n.typeBits + n.attrs.permBits,
    ModTime := n.attrs.modTime, Sys := n.attrs.owner }

/-- The function `filepath.Join` on a clean directory path and an entry name. -/
def Join (path name : GoString) : GoString := path ++ str "/" ++ name

mutual
/-- All entries at and below a node located at `path`, each with its path, in the order
of a walk. -/
def Node.entries (path : GoString) : Node → List (GoString × Node)
  | Node.dir a readable children =>
    (path, Node.dir a readable children) :: entriesOfChildren path children
  | Node.file a typ sum => [(path, Node.file a typ sum)]
  | Node.symlink a target => [(path, Node.symlink a target)]
/-- All entries below a directory located at `path`. -/
def entriesOfChildren (path : GoString) : List (GoString × Node) → List (GoString × Node)
  | [] => []
  | (name, child) :: rest =>
    child.entries (Join path name) ++ entriesOfChildren path rest
end

/-- First entry with the given path. -/
def lookupEntry (p : GoString) : List (GoString × Node) → Option Node
  | [] => none
  | (q, n) :: rest => if q = p then some n else lookupEntry p rest

/-- All entries of a file system. -/
def FS.entries (fs : FS) : List (GoString × Node) := fs.tree.entries fs.top

/-- The entry that a path denotes, if any. -/
def FS.find (fs : FS) (p : GoString) : Option Node := lookupEntry p fs.entries

/-- The function `os.Lstat`; `none` is an error. -/
def FS.Lstat (fs : FS) (p : GoString) : Option OSFileInfo := (fs.find p).map Node.stat

/-- The function `filepath.EvalSymlinks`; `none` is an error.  A path that is not a
symlink evaluates to itself. -/
def FS.EvalSymlinks (fs : FS) (p : GoString) : Option GoString :=
  match fs.find p with
  | some (Node.symlink _ target) => target
  | some _ => some p
  | none => none

/-- Go `error` values met by the walker. -/
inductive Error where
  | SkipDir
  | lstat (path : GoString)
  | readDir (path : GoString)
  | readFile (path : GoString)
  | evalSymlinks (path : GoString)
  | wrap (msg : String) (cause : Error)
  | marshal (msg : String)
  | unmarshal (msg : String)
  | errorf (msg : String) (arg : GoString)
  deriving DecidableEq, Repr

/-! ## package monitor: `GetFileInfo` -/

/-- One byte as two lower-case hexadecimal digits. -/
def hexByte (b : Nat) : GoString :=
  let digit := fun d : Nat => if d < 10 then 48 + d else 87 + d
  [digit (b / 16 % 16), digit (b % 16)]

/-- The function `hex.EncodeToString`. -/
def hexEncode (bs : List Nat) : GoString := bs.flatMap hexByte

/-- The function `calculateFileHash` (file.go, lines 95-109): open the file, stream it
through SHA-256, encode the sum in hexadecimal. -/
def calculateFileHash (fs : FS) (path : GoString) : Except Error GoString :=
  match fs.find path with
  | some (Node.file _ _ (some sum)) => Except.ok (hexEncode sum.bytes)
  | _ => Except.error (Error.wrap "failed to open or read file" (Error.readFile path))

/-- The function `monitor.GetFileInfo` (file.go, lines 47-93). -/
def GetFileInfo (fs : FS) (path : GoString) : Except Error FileInfo :=
  match fs.Lstat path with
  | none => Except.error (Error.wrap "failed to get file info" (Error.lstat path))
  | some info =>
    let fileInfo : FileInfo :=
      { Path := path, Size := info.Size, Mode := info.Mode % 2 ^ 32, ModTime := info.ModTime,
        Hash := [], UID := 0, GID := 0, IsDir := info.IsDir,
        IsSymlink := info.Mode &&& ModeSymlink != 0 }
    let fileInfo : FileInfo :=
      match info.Sys with
      | some (uid, gid) => { fileInfo with UID := uid, GID := gid }
      | none => { fileInfo with UID := -1, GID := -1 }
    let hashed : Except Error FileInfo :=
      if !info.IsDir && !fileInfo.IsSymlink then
        match calculateFileHash fs path with
        | Except.error err => Except.error (Error.wrap "failed to calculate file hash" err)
        | Except.ok hash => Except.ok { fileInfo with Hash := hash }
      else Except.ok fileInfo
    match hashed with
    | Except.error err => Except.error err
    | Except.ok fileInfo =>
      if fileInfo.IsSymlink then
        match fs.EvalSymlinks path with
        | some targetPath =>
          Except.ok { fileInfo with Path := path ++ str " -> " ++ targetPath }
        | none => Except.ok fileInfo
      else Except.ok fileInfo

/-! ## package config: `Config`, `IsExcluded` -/

/-- Section `monitor` of the struct `config.Config` (config.go, lines 13-24). -/
structure MonitorConfig where
  Paths : List GoString
  Exclude : List GoString
  deriving DecidableEq, Repr

/-- Section `logging` of `config.Config`. -/
structure LoggingConfig where
  LogFile : GoString
  deriving DecidableEq, Repr

/-- Section `output` of `config.Config`. -/
structure OutputConfig where
  Verbose : Bool
  deriving DecidableEq, Repr

/-- The struct `config.Config` (config.go, lines 13-24). -/
structure Config where
  Monitor : MonitorConfig
  Logging : LoggingConfig
  Output : OutputConfig
  deriving DecidableEq, Repr

/-- The method `(*Config).IsExcluded` (config.go, lines 125-133).  `Match pattern name`
is the boolean result of `filepath.Match`, a library function taken as a parameter
(its error result is discarded by the code). -/
def IsExcluded (Match : GoString → GoString → Bool) (c : Config) (path : GoString) : Bool :=
  c.Monitor.Exclude.any fun exclude => Match exclude path

/-- The function `filepath.Match` on patterns without the meta characters `*`, `?`, `[`
and the escape character: the name must be the pattern. -/
def literalMatch (pattern name : GoString) : Bool := decide (pattern = name)

/-! ## The library function `filepath.Walk` -/

/-- The type `filepath.WalkFunc` for a callback that updates a state of type `σ`:
arguments are the state, the path, the `os.FileInfo` (nil when `Lstat` failed) and the
error handed in by `Walk`; the result is the new state and the returned error. -/
abbrev WalkFunc (σ : Type) := σ → GoString → Option OSFileInfo → Option Error → σ × Option Error

mutual
/-- The function `walk` of package `filepath`: the callback is called on the entry; for a
directory the names are read first and a read error is handed to the callback; when
neither fails the children are walked in order. -/
def walk {σ : Type} (fn : WalkFunc σ) (path : GoString) : Node → σ → σ × Option Error
  | Node.dir a readable children, s =>
    let err : Option Error := if readable then none else some (Error.readDir path)
    let r := fn s path (some (Node.dir a readable children).stat) err
    if err.isSome || r.2.isSome then r
    else walkChildren fn path children r.1
  | Node.file a typ sum, s => fn s path (some (Node.file a typ sum).stat) none
  | Node.symlink a target, s => fn s path (some (Node.symlink a target).stat) none
/-- The loop of `walk` over the names of a directory: an error of a child ends the
walk, except `SkipDir` returned for a child that is a directory. -/
def walkChildren {σ : Type} (fn : WalkFunc σ) (path : GoString) :
    List (GoString × Node) → σ → σ × Option Error
  | [], s => (s, none)
  | (name, child) :: rest, s =>
    let r := walk fn (Join path name) child s
    match r.2 with
    | some err =>
      if !child.stat.IsDir || err ≠ Error.SkipDir then r
      else walkChildren fn path rest r.1
    | none => walkChildren fn path rest r.1
end

/-- The function `filepath.Walk`: `Lstat` the root, report a failure to the callback,
walk the tree otherwise; a final `SkipDir` is not an error. -/
def Walk {σ : Type} (fs : FS) (root : GoString) (fn : WalkFunc σ) (s : σ) : σ × Option Error :=
  let r := match fs.find root with
    | none => fn s root none (some (Error.lstat root))
    | some node => walk fn root node s
  if r.2 = some Error.SkipDir then (r.1, none) else r

/-! ## package scanner: `ScanPaths` -/

/-- State of a scan: the snapshot under construction and the number of readings of the
clock made so far. -/
abbrev ScanState := Baseline × Nat

/-- The callback that `ScanPaths` passes to `filepath.Walk` (scanner.go, lines 42-62).
`clock n` is the `n`-th reading of `time.Now()`.  `info` is nil only when `err` is not. -/
def scanWalkFunc (Match : GoString → GoString → Bool) (cfg : Config) (fs : FS)
    (clock : Nat → Time) : WalkFunc ScanState :=
  fun s path info err =>
    match err with
    | some e => (s, some e)
    | none =>
      if IsExcluded Match cfg path then
        if (info.map OSFileInfo.IsDir).getD false then (s, some Error.SkipDir)
        else (s, none)
      else
        match GetFileInfo fs path with
        | Except.error e => (s, some e)
        | Except.ok fileInfo => ((AddFile s.1 fileInfo (clock s.2), s.2 + 1), none)

/-- The path that `ScanPaths` walks for a configured path (scanner.go, lines 31-40): the
target when the path is a symlink, the path itself otherwise. -/
def resolveRoot (fs : FS) (path : GoString) : Except Error GoString :=
  match fs.Lstat path with
  | some info =>
    if info.Mode &&& ModeSymlink != 0 then
      match fs.EvalSymlinks path with
      | some realPath => Except.ok realPath
      | none => Except.error (Error.wrap "failed to resolve symlink" (Error.evalSymlinks path))
    else Except.ok path
  | none => Except.ok path

/-- The loop of `ScanPaths` over the configured paths (scanner.go, lines 29-66). -/
def scanRoots (Match : GoString → GoString → Bool) (cfg : Config) (fs : FS)
    (clock : Nat → Time) : List GoString → ScanState → Except Error ScanState
  | [], s => Except.ok s
  | path :: rest, s =>
    match resolveRoot fs path with
    | Except.error e => Except.error e
    | Except.ok realPath =>
      match Walk fs realPath (scanWalkFunc Match cfg fs clock) s with
      | (_, some e) => Except.error (Error.wrap "failed to scan path" e)
      | (s', none) => scanRoots Match cfg fs clock rest s'

/-- The method `(*Scanner).ScanPaths` (scanner.go, lines 25-69). -/
def ScanPaths (Match : GoString → GoString → Bool) (cfg : Config) (fs : FS)
    (clock : Nat → Time) : Except Error Baseline :=
  match scanRoots Match cfg fs clock cfg.Monitor.Paths (NewBaseline (clock 0) (clock 1), 2) with
  | Except.error e => Except.error e
  | Except.ok s => Except.ok s.1

/-! ### Entries kept and pruned by a walk -/

mutual
/-- Entries for which a walk of the node at `path` calls `GetFileInfo`: those that are
not excluded and have no excluded directory above them within the walk. -/
def keptEntries (Match : GoString → GoString → Bool) (cfg : Config) (path : GoString) :
    Node → List (GoString × Node)
  | Node.dir a readable children =>
    if IsExcluded Match cfg path then []
    else (path, Node.dir a readable children) :: keptChildren Match cfg path children
  | Node.file a typ sum =>
    if IsExcluded Match cfg path then [] else [(path, Node.file a typ sum)]
  | Node.symlink a target =>
    if IsExcluded Match cfg path then [] else [(path, Node.symlink a target)]
/-- Kept entries below a directory located at `path`. -/
def keptChildren (Match : GoString → GoString → Bool) (cfg : Config) (path : GoString) :
    List (GoString × Node) → List (GoString × Node)
  | [] => []
  | (name, child) :: rest =>
    keptEntries Match cfg (Join path name) child ++ keptChildren Match cfg path rest
end

mutual
/-- Entries that a walk of the node at `path` leaves out: the excluded entries it
reaches and everything below an excluded directory. -/
def prunedEntries (Match : GoString → GoString → Bool) (cfg : Config) (path : GoString) :
    Node → List (GoString × Node)
  | Node.dir a readable children =>
    if IsExcluded Match cfg path then (Node.dir a readable children).entries path
    else prunedChildren Match cfg path children
  | Node.file a typ sum =>
    if IsExcluded Match cfg path then [(path, Node.file a typ sum)] else []
  | Node.symlink a target =>
    if IsExcluded Match cfg path then [(path, Node.symlink a target)] else []
/-- Pruned entries below a directory located at `path`. -/
def prunedChildren (Match : GoString → GoString → Bool) (cfg : Config) (path : GoString) :
    List (GoString × Node) → List (GoString × Node)
  | [] => []
  | (name, child) :: rest =>
    prunedEntries Match cfg (Join path name) child ++ prunedChildren Match cfg path rest
end

/-- The key under which `GetFileInfo` files the record of an entry: its path, followed
by the arrow and the target for a symlink that resolves. -/
def recordKey (e : GoString × Node) : GoString :=
  match e.2 with
  | Node.symlink _ (some target) => e.1 ++ str " -> " ++ target
  | _ => e.1

/-- The entries kept by the walks of a list of walk roots. -/
def keptByRoots (Match : GoString → GoString → Bool) (cfg : Config) (fs : FS) :
    List GoString → List (GoString × Node)
  | [] => []
  | root :: rest =>
    (match fs.find root with
      | some node => keptEntries Match cfg root node
      | none => []) ++ keptByRoots Match cfg fs rest

/-- A well-formed tree: distinct entries have distinct paths and are filed under
distinct record keys. -/
def FS.WellFormed (fs : FS) : Prop :=
  (fs.entries.map (·.1)).Nodup ∧ (fs.entries.map recordKey).Nodup

/-! ### File systems of the examples -/

/-- Attributes of the example entries. -/
def exampleAttrs : Attrs :=
  { size := 12, perm := 0o644, setuid := false, setgid := false, sticky := false,
    modTime := 1700000000, owner := some (1000, 1000) }

/-- The SHA-256 sum of the example files. -/
def exampleSum : Digest := { bytes := List.replicate 32 0xab, size_eq := by decide }

/-- A regular example file. -/
def exampleFile : Node := Node.file exampleAttrs FileType.regular (some exampleSum)

/-- The tree `/a` with a file `/a/f`, a directory `/a/x` holding a file `/a/x/y`, a
symlink `/a/l` to `/a/f` and a dangling symlink `/a/m`. -/
def exampleFS : FS :=
  { top := str "/a",
    tree := Node.dir exampleAttrs true
      [(str "f", exampleFile),
       (str "l", Node.symlink exampleAttrs (some (str "/a/f"))),
       (str "m", Node.symlink exampleAttrs none),
       (str "x", Node.dir exampleAttrs true [(str "y", exampleFile)])] }

/-- A configuration with the given monitored paths and exclusion patterns. -/
def exampleConfig (paths exclude : List GoString) : Config :=
  { Monitor := { Paths := paths, Exclude := exclude },
    Logging := { LogFile := [] }, Output := { Verbose := true } }

/-- The snapshot invariant: every key of `Files` is the `Path` of the record stored
under it (which is therefore not nil). -/
def KeyIsPath (b : Baseline) : Prop :=
  ∀ k v, b.Files.lookup k = some v → ∃ r, v = some r ∧ r.Path = k

/-- The state of a scan after the records `rs` were added in order, each addition
reading the clock once. -/
def addRecords (clock : Nat → Time) (s : ScanState) (rs : List FileInfo) : ScanState :=
  rs.foldl (fun s r => (AddFile s.1 r (clock s.2), s.2 + 1)) s

/-- The walk roots of the configured paths that resolve. -/
def resolvedRoots (fs : FS) (paths : List GoString) : List GoString :=
  paths.filterMap fun path =>
    match resolveRoot fs path with
    | Except.ok realPath => some realPath
    | Except.error _ => none

/-- The entries that a walk of the node `rootNode` at `root` reaches, that is, on which
`filepath.Walk` calls the callback of `ScanPaths`: the root, and every child of a
reached directory that is not excluded. -/
inductive Reached (Match : GoString → GoString → Bool) (cfg : Config) (root : GoString)
    (rootNode : Node) : GoString → Node → Prop where
  | root : Reached Match cfg root rootNode root rootNode
  | child (path : GoString) (a : Attrs) (readable : Bool) (children : List (GoString × Node))
      (name : GoString) (node : Node) :
      Reached Match cfg root rootNode path (Node.dir a readable children) →
      IsExcluded Match cfg path = false →
      (name, node) ∈ children →
      Reached Match cfg root rootNode (Join path name) node

/-- The snapshot of a scan that succeeded (an empty snapshot stands for a failed scan). -/
def scanResult (r : Except Error Baseline) : Baseline :=
  match r with
  | Except.ok b => b
  | Except.error _ => NewBaseline 0 0

/-- The directory `/a/x` of the example tree. -/
def exampleDirX : Node := Node.dir exampleAttrs true [(str "y", exampleFile)]

/-! ## Persistence: `Save` and `Load` through `encoding/json`

`Save` hands the snapshot to `json.MarshalIndent` and writes the text to a file;
`Load` reads the file and hands the text to `json.Unmarshal`.  A document is embedded
as the JSON value that the text denotes: the lexical layer (indentation, escapes inside
string literals, digits of numbers) is not part of the model, a string value being the
bytes that the decoder returns for its literal.  The rules of the library that decide
what a document holds are embedded: struct tags and `omitempty`, `null` for a nil
pointer, object members in sorted key order, last member wins on decoding into a map
or struct, and string values coerced to valid UTF-8 with each invalid byte replaced
by U+FFFD.  The text form of a `time.Time` is a parameter of `Save` and `Load`; the
one of the library, RFC 3339 with nanoseconds, is `rfc3339` below. -/

/-- A JSON value. -/
inductive JSON where
  | null
  | bool (b : Bool)
  | number (n : Int)
  | string (s : GoString)
  | object (members : List (GoString × JSON))

/-- The methods `MarshalJSON` and `UnmarshalJSON` of `time.Time`: the text of an
instant, or a failure. -/
structure TimeCodec where
  format : Time → Option GoString
  parse : GoString → Option Time

/-- The zero value of `time.Time`: January 1 of year 1, in nanoseconds since the epoch. -/
def zeroTime : Time := -62135596800000000000

/-- Whether `b` is a UTF-8 continuation byte within `lo..hi`. -/
def inRange (lo hi b : Nat) : Bool := decide (lo ≤ b) && decide (b ≤ hi)

/-- Length of the well-formed UTF-8 encoding at the head of a byte string, by the table
of package `unicode/utf8`; 0 when the head is not the start of one (`DecodeRune` then
returns `RuneError` with size 1) or the string is empty. -/
def utf8Size : GoString → Nat
  | [] => 0
  | b₀ :: rest =>
    if b₀ < 0x80 then 1
    else if inRange 0xC2 0xDF b₀ then
      match rest with
      | b₁ :: _ => if inRange 0x80 0xBF b₁ then 2 else 0
      | _ => 0
    else if inRange 0xE0 0xEF b₀ then
      match rest with
      | b₁ :: b₂ :: _ =>
        if inRange (if b₀ = 0xE0 then 0xA0 else 0x80) (if b₀ = 0xED then 0x9F else 0xBF) b₁ &&
            inRange 0x80 0xBF b₂ then 3
        else 0
      | _ => 0
    else if inRange 0xF0 0xF4 b₀ then
      match rest with
      | b₁ :: b₂ :: b₃ :: _ =>
        if inRange (if b₀ = 0xF0 then 0x90 else 0x80) (if b₀ = 0xF4 then 0x8F else 0xBF) b₁ &&
            inRange 0x80 0xBF b₂ && inRange 0x80 0xBF b₃ then 4
        else 0
      | _ => 0
    else 0

/-- Coercion of a string to valid UTF-8 as the JSON encoder and decoder perform it:
well-formed sequences are copied, every other byte becomes U+FFFD (`EF BF BD`).
`pending` counts the remaining bytes of the sequence being copied. -/
def coerceFrom : Nat → GoString → GoString
  | _, [] => []
  | pending + 1, b :: rest => b :: coerceFrom pending rest
  | 0, b :: rest =>
    match utf8Size (b :: rest) with
    | 0 => 0xEF :: 0xBF :: 0xBD :: coerceFrom 0 rest
    | n + 1 => b :: coerceFrom n rest

/-- The string value that a Go string has after encoding and decoding. -/
def toValidUTF8 (s : GoString) : GoString := coerceFrom 0 s

/-- The function `utf8.Valid`, with `pending` as in `coerceFrom`. -/
def validFrom : Nat → GoString → Bool
  | _, [] => true
  | pending + 1, _ :: rest => validFrom pending rest
  | 0, b :: rest =>
    match utf8Size (b :: rest) with
    | 0 => false
    | n + 1 => validFrom n rest

/-- The function `utf8.ValidString`. -/
def utf8Valid (s : GoString) : Bool := validFrom 0 s

/-- Encoding of a `FileInfo` struct by its tags (file.go, lines 14-25); `hash` carries
`omitempty`. -/
def marshalFileInfo (f : FileInfo) : JSON :=
  JSON.object
    ([(str "path", JSON.string (toValidUTF8 f.Path)),
      (str "size", JSON.number f.Size),
      (str "mode", JSON.number f.Mode),
      (str "mod_time", JSON.number f.ModTime)] ++
     (if f.Hash = [] then [] else [(str "hash", JSON.string (toValidUTF8 f.Hash))]) ++
     [(str "uid", JSON.number f.UID),
      (str "gid", JSON.number f.GID),
      (str "is_dir", JSON.bool f.IsDir),
      (str "is_symlink", JSON.bool f.IsSymlink)])

/-- Encoding of a `*FileInfo`: `null` for nil. -/
def marshalFilePtr : Option FileInfo → JSON
  | none => JSON.null
  | some f => marshalFileInfo f

/-- Encoding of the map `Files`: one member per key, in sorted key order. -/
def marshalFiles (m : FileMap) : JSON :=
  JSON.object
    ((m.entries.insertionSort fun a b => a.1 ≤ b.1).map fun e =>
      (toValidUTF8 e.1, marshalFilePtr e.2))

/-- The function `json.MarshalIndent` on a `Baseline` (baseline.go, lines 13-19); a nil
map is written as `null`. -/
def Marshal (tc : TimeCodec) (b : Baseline) : Except Error JSON :=
  match tc.format b.CreatedAt, tc.format b.UpdatedAt with
  | some created, some updated =>
    Except.ok (JSON.object
      [(str "files", if b.allocated then marshalFiles b.Files else JSON.null),
       (str "created_at", JSON.string created),
       (str "updated_at", JSON.string updated)])
  | _, _ => Except.error (Error.marshal "Time.MarshalJSON")

/-- Decoding of one object member into a `FileInfo` struct: the member is matched to a
field by its tag, `null` leaves the field as it is, an unknown key is ignored. -/
def setFileInfoField (f : FileInfo) (key : GoString) (v : JSON) : Except Error FileInfo :=
  if key = str "path" then
    match v with
    | JSON.string s => Except.ok { f with Path := s }
    | JSON.null => Except.ok f
    | _ => Except.error (Error.unmarshal "path")
  else if key = str "size" then
    match v with
    | JSON.number n => Except.ok { f with Size := n }
    | JSON.null => Except.ok f
    | _ => Except.error (Error.unmarshal "size")
  else if key = str "mode" then
    match v with
    | JSON.number n =>
      if 0 ≤ n then Except.ok { f with Mode := n.toNat }
      else Except.error (Error.unmarshal "mode")
    | JSON.null => Except.ok f
    | _ => Except.error (Error.unmarshal "mode")
  else if key = str "mod_time" then
    match v with
    | JSON.number n => Except.ok { f with ModTime := n }
    | JSON.null => Except.ok f
    | _ => Except.error (Error.unmarshal "mod_time")
  else if key = str "hash" then
    match v with
    | JSON.string s => Except.ok { f with Hash := s }
    | JSON.null => Except.ok f
    | _ => Except.error (Error.unmarshal "hash")
  else if key = str "uid" then
    match v with
    | JSON.number n => Except.ok { f with UID := n }
    | JSON.null => Except.ok f
    | _ => Except.error (Error.unmarshal "uid")
  else if key = str "gid" then
    match v with
    | JSON.number n => Except.ok { f with GID := n }
    | JSON.null => Except.ok f
    | _ => Except.error (Error.unmarshal "gid")
  else if key = str "is_dir" then
    match v with
    | JSON.bool b => Except.ok { f with IsDir := b }
    | JSON.null => Except.ok f
    | _ => Except.error (Error.unmarshal "is_dir")
  else if key = str "is_symlink" then
    match v with
    | JSON.bool b => Except.ok { f with IsSymlink := b }
    | JSON.null => Except.ok f
    | _ => Except.error (Error.unmarshal "is_symlink")
  else Except.ok f

/-- Decoding of the members of an object into a `FileInfo` struct, in order. -/
def setFileInfoFields (f : FileInfo) : List (GoString × JSON) → Except Error FileInfo
  | [] => Except.ok f
  | (key, v) :: rest =>
    match setFileInfoField f key v with
    | Except.error e => Except.error e
    | Except.ok f' => setFileInfoFields f' rest

/-- The zero value of the struct `FileInfo`. -/
def zeroFileInfo : FileInfo :=
  { Path := [], Size := 0, Mode := 0, ModTime := 0, Hash := [], UID := 0, GID := 0,
    IsDir := false, IsSymlink := false }

/-- Decoding of a map value of type `*FileInfo`: `null` gives nil, an object a fresh
struct with the members set. -/
def unmarshalFilePtr : JSON → Except Error (Option FileInfo)
  | JSON.null => Except.ok none
  | JSON.object members =>
    match setFileInfoFields zeroFileInfo members with
    | Except.error e => Except.error e
    | Except.ok f => Except.ok (some f)
  | _ => Except.error (Error.unmarshal "FileInfo")

/-- Decoding of the members of an object into the map `Files`, in order: a later member
with the same key replaces an earlier one. -/
def unmarshalFiles (m : FileMap) : List (GoString × JSON) → Except Error FileMap
  | [] => Except.ok m
  | (key, v) :: rest =>
    match unmarshalFilePtr v with
    | Except.error e => Except.error e
    | Except.ok ptr => unmarshalFiles (m.insert key ptr) rest

/-- The zero value of the struct `Baseline`: a nil map and two zero instants. -/
def zeroBaseline : Baseline :=
  { Files := ∅, CreatedAt := zeroTime, UpdatedAt := zeroTime, allocated := false }

/-- Decoding of one object member into a `Baseline` struct: an object is decoded into
the map `Files`, which is allocated if it was nil, and `null` sets the map to nil. -/
def setBaselineField (tc : TimeCodec) (b : Baseline) (key : GoString) (v : JSON) :
    Except Error Baseline :=
  if key = str "files" then
    match v with
    | JSON.object members =>
      match unmarshalFiles b.Files members with
      | Except.error e => Except.error e
      | Except.ok m => Except.ok { b with Files := m, allocated := true }
    | JSON.null => Except.ok { b with Files := ∅, allocated := false }
    | _ => Except.error (Error.unmarshal "files")
  else if key = str "created_at" then
    match v with
    | JSON.string s =>
      match tc.parse s with
      | some t => Except.ok { b with CreatedAt := t }
      | none => Except.error (Error.unmarshal "created_at")
    | JSON.null => Except.ok b
    | _ => Except.error (Error.unmarshal "created_at")
  else if key = str "updated_at" then
    match v with
    | JSON.string s =>
      match tc.parse s with
      | some t => Except.ok { b with UpdatedAt := t }
      | none => Except.error (Error.unmarshal "updated_at")
    | JSON.null => Except.ok b
    | _ => Except.error (Error.unmarshal "updated_at")
  else Except.ok b

/-- Decoding of the members of an object into a `Baseline` struct, in order. -/
def setBaselineFields (tc : TimeCodec) (b : Baseline) :
    List (GoString × JSON) → Except Error Baseline
  | [] => Except.ok b
  | (key, v) :: rest =>
    match setBaselineField tc b key v with
    | Except.error e => Except.error e
    | Except.ok b' => setBaselineFields tc b' rest

/-- The function `json.Unmarshal` into a fresh `Baseline` (baseline.go, lines 84-87). -/
def Unmarshal (tc : TimeCodec) : JSON → Except Error Baseline
  | JSON.object members =>
    setBaselineFields tc zeroBaseline members
  | JSON.null => Except.ok zeroBaseline
  | _ => Except.error (Error.unmarshal "Baseline")

/-- The method `(*Baseline).Save` (baseline.go, lines 64-75): the document written to
the file, or the error of the encoder. -/
def Save (tc : TimeCodec) (b : Baseline) : Except Error JSON := Marshal tc b

/-- The function `storage.Load` (baseline.go, lines 77-90) on the document read from
the file. -/
def Load (tc : TimeCodec) (data : JSON) : Except Error Baseline := Unmarshal tc data

/-- The function `Load` applied to what `Save` wrote. -/
def loadAfterSave (tc : TimeCodec) (b : Baseline) : Except Error Baseline :=
  match Save tc b with
  | Except.error e => Except.error e
  | Except.ok data => Load tc data

/-- A file name that is not valid UTF-8: `/a/` followed by the byte `0xFF`. -/
def latin1Path : GoString := str "/a/" ++ [0xFF]

/-- A record as it comes back from a document: `Path` and `Hash` coerced to valid UTF-8. -/
def coerceRecord (f : FileInfo) : FileInfo :=
  { f with Path := toValidUTF8 f.Path, Hash := toValidUTF8 f.Hash }

/-- Whether the strings of a stored record are valid UTF-8; a nil record has none. -/
def validRecord : Option FileInfo → Bool
  | none => true
  | some r => utf8Valid r.Path && utf8Valid r.Hash

/-! ## The text form of an instant: RFC 3339 with nanoseconds

`encoding/json` writes a `time.Time` through `Time.MarshalJSON` and reads it through
`Time.UnmarshalJSON`, both of package `time`.  They are embedded for instants whose
location is UTC: the calendar arithmetic of `absDate`, `date` and `Date`, the layout
`2006-01-02T15:04:05.999999999Z07:00` with trailing zeros of the fraction removed, and
the strict reader of that layout.  An instant is a count of nanoseconds, so that no
monotonic reading or location takes part in equality. -/

/-- The function `isLeap` of package `time`. -/
def isLeap (year : Nat) : Bool :=
  year % 4 == 0 && (year % 100 != 0 || year % 400 == 0)

/-- The table `daysBefore` of package `time`: days of a non-leap year before the start
of month `m + 1`. -/
def daysBefore (m : Nat) : Nat :=
  [0, 31, 59, 90, 120, 151, 181, 212, 243, 273, 304, 334, 365].getD m 0

/-- The function `daysIn` of package `time`. -/
def daysIn (month year : Nat) : Nat :=
  if month = 2 ∧ isLeap year = true then 29
  else daysBefore month - daysBefore (month - 1)

/-- The function `absDate` of package `time`: year and zero-based day of the year of
the day that lies `n` days after January 1 of year 0.  The cycles of 400, 100, 4 and 1
years are counted from January 1 of year -399, which is 145731 days earlier and starts
a cycle of 400 years as the absolute zero year of the library does. -/
def absDate (n : Nat) : Nat × Nat :=
  let d := n + 145731
  let n400 := d / 146097
  let d := d - 146097 * n400
  let n100 := d / 36524
  let n100 := n100 - n100 / 4
  let d := d - 36524 * n100
  let n4 := d / 1461
  let d := d - 1461 * n4
  let n1 := d / 365
  let n1 := n1 - n1 / 4
  let d := d - 365 * n1
  (400 * n400 + 100 * n100 + 4 * n4 + n1 + 1 - 400, d)

/-- Month and day of the month from the day of the year, as the function `date` of
package `time` computes them. -/
def monthDay (year yday : Nat) : Nat × Nat :=
  if isLeap year = true ∧ yday = 59 then (2, 29)
  else
    let day := if isLeap year = true ∧ 59 < yday then yday - 1 else yday
    let month := day / 31
    let e := daysBefore (month + 1)
    if e ≤ day then (month + 2, day - e + 1)
    else (month + 1, day - daysBefore month + 1)

/-- Days from January 1 of year 0 to January 1 of `year`: 365 a year and one more for
every leap year before `year`. -/
def daysSinceEpoch (year : Nat) : Nat :=
  365 * year + (year + 3) / 4 - (year + 99) / 100 + (year + 399) / 400

/-- The function `Date` of package `time` for a valid date in UTC: seconds since the
Unix epoch, January 1 of 1970 being day 719528 after January 1 of year 0. -/
def Date (year month day hour min sec : Nat) : Int :=
  let d := daysSinceEpoch year + daysBefore (month - 1) +
    (if isLeap year = true ∧ 3 ≤ month then 1 else 0) + (day - 1)
  ((d : Int) - 719528) * 86400 + (hour * 3600 + min * 60 + sec : Nat)

/-- The function `appendInt` of package `time` for `x` below `10 ^ width`: the decimal
digits of `x`, padded with zeros to `width` digits. -/
def appendInt (x : Nat) : Nat → GoString
  | 0 => []
  | w + 1 => (48 + x / 10 ^ w % 10) :: appendInt x w

/-- The function `appendNano` of package `time` for the layout `.999999999`: nothing
for zero, else a period and nine digits with the trailing zeros removed. -/
def appendNano (nanosec : Nat) : GoString :=
  if nanosec = 0 then []
  else 46 :: (appendInt nanosec 9).rdropWhile (fun c => c == 48)

/-- The method `Time.MarshalJSON` without the quotes: the text of the instant in the
layout `RFC3339Nano`, or a failure when the year is outside 0..9999. -/
def formatRFC3339 (t : Int) : Option GoString :=
  let sec := t / 1000000000
  let nsec := (t % 1000000000).toNat
  let day := sec / 86400 + 719528
  let sod := (sec % 86400).toNat
  if day < 0 then none
  else
    let yd := absDate day.toNat
    if 10000 ≤ yd.1 then none
    else
      let md := monthDay yd.1 yd.2
      some (appendInt yd.1 4 ++ 45 :: appendInt md.1 2 ++ 45 :: appendInt md.2 2 ++
        84 :: appendInt (sod / 3600) 2 ++ 58 :: appendInt (sod % 3600 / 60) 2 ++
        58 :: appendInt (sod % 60) 2 ++ appendNano nsec ++ [90])

/-- Whether a byte is an ASCII digit. -/
def isDigit (c : Nat) : Bool := decide (48 ≤ c) && decide (c ≤ 57)

/-- The loop of the closure `parseUint` in `parseRFC3339`: the decimal value of a run
of digits, continued from `x`; a byte that is not a digit makes it fail. -/
def parseUintFrom (x : Nat) : GoString → Option Nat
  | [] => some x
  | c :: rest => if isDigit c then parseUintFrom (x * 10 + c - 48) rest else none

/-- The closure `parseUint` in `parseRFC3339`: the value of a run of digits, which
has to lie within `min..max`. -/
def parseUint (s : GoString) (min max : Nat) : Option Nat :=
  match parseUintFrom 0 s with
  | none => none
  | some x => if x < min ∨ max < x then none else some x

/-- The fraction of a second in `parseRFC3339`: a period followed by at least one
digit is read up to the last digit of the run; the first nine digits count, scaled to
nanoseconds (`parseNanoseconds`).  The result is the nanoseconds and the rest of the
text. -/
def parseFraction (s : GoString) : Nat × GoString :=
  match s with
  | 46 :: c :: rest =>
    if isDigit c then
      let run := (c :: rest).takeWhile isDigit
      (((parseUintFrom 0 (run.take 9)).getD 0) * 10 ^ (9 - (run.take 9).length),
        (c :: rest).dropWhile isDigit)
    else (0, s)
  | _ => (0, s)

/-- The time zone in `parseRFC3339`: `Z`, or a sign, two digits of hours up to 23, a
colon and two digits of minutes up to 59.  The result is the offset in seconds. -/
def parseZone (s : GoString) : Option Int :=
  if s = [90] then some 0
  else if s.length ≠ 6 then none
  else
    match parseUint ((s.drop 1).take 2) 0 23, parseUint ((s.drop 4).take 2) 0 59 with
    | some hr, some mm =>
      if (s.get? 0 = some 45 ∨ s.get? 0 = some 43) ∧ s.get? 3 = some 58 then
        some (if s.get? 0 = some 45 then -(((hr * 60 + mm) * 60 : Nat) : Int)
          else (((hr * 60 + mm) * 60 : Nat) : Int))
      else none
    | _, _ => none

/-- The function `parseRFC3339` of package `time`, by which `Time.UnmarshalJSON` reads
the text between the quotes.  Texts that it rejects are rejected here, the few lenient
forms that the library reads by its general parser included. -/
def parseRFC3339 (s : GoString) : Option Int :=
  if s.length < 19 then none
  else
    match parseUint (s.take 4) 0 9999 with
    | none => none
    | some year =>
      match parseUint ((s.drop 5).take 2) 1 12 with
      | none => none
      | some month =>
        match parseUint ((s.drop 8).take 2) 1 (daysIn month year),
          parseUint ((s.drop 11).take 2) 0 23, parseUint ((s.drop 14).take 2) 0 59,
          parseUint ((s.drop 17).take 2) 0 59 with
        | some day, some hour, some min, some sec =>
          if s.get? 4 = some 45 ∧ s.get? 7 = some 45 ∧ s.get? 10 = some 84 ∧
              s.get? 13 = some 58 ∧ s.get? 16 = some 58 then
            match parseZone (parseFraction (s.drop 19)).2 with
            | none => none
            | some offset =>
              some ((Date year month day hour min sec - offset) * 1000000000 +
                ((parseFraction (s.drop 19)).1 : Nat))
          else none
        | _, _, _, _ => none

/-- The text form of `time.Time` in a JSON document. -/
def rfc3339 : TimeCodec :=
  { format := formatRFC3339, parse := parseRFC3339 }

/-- Whether the year of an instant is within 0..9999: from the start of January 1 of
year 0 to the last nanosecond of December 31 of year 9999. -/
def inYearRange (t : Int) : Bool :=
  decide (-62167219200000000000 ≤ t) && decide (t < 253402300800000000000)

/-- A snapshot with the ASCII paths `/a` and `/b`, the second record with an empty
`Hash`, created at `t₁` and last updated at `t₂`. -/
def stampedSnapshot (t₁ t₂ : Time) : Baseline :=
  { snapshotOf [regularRecord (str "/a") (str "H1"), regularRecord (str "/b") []] with
    CreatedAt := t₁, UpdatedAt := t₂ }

/-! ## package config: `ValidateConfig` -/

/-- Error numbers of a failed `stat` that the program tells apart. -/
inductive Errno where
  | ENOENT
  | ENOTDIR
  deriving DecidableEq, Repr

/-- The function `os.IsNotExist` on the error of a system call (`none` is a nil error). -/
def IsNotExist : Option Errno → Bool
  | some Errno.ENOENT => true
  | _ => false

/-- The error of `os.Stat`, `none` when the call succeeds.  The empty path denotes
nothing, the root `/` and the working directory `.` always exist, every other path is
looked up as written among the entries of the tree: an entry exists unless it is a
symlink that does not resolve (taken to be dangling), and a path that is no entry
fails with `ENOTDIR` when it leads through an entry that is not a directory and with
`ENOENT` otherwise. -/
def FS.Stat (fs : FS) (p : GoString) : Option Errno :=
  if p = [] then some Errno.ENOENT
  else if p = str "/" ∨ p = str "." then none
  else
    match fs.find p with
    | some (Node.symlink _ none) => some Errno.ENOENT
    | some _ => none
    | none =>
      if fs.entries.any fun e => !e.2.stat.IsDir && (e.1 ++ str "/").isPrefixOf p then
        some Errno.ENOTDIR
      else some Errno.ENOENT

/-- The function `strings.TrimRight` for a cutset of ASCII characters: the trailing
bytes that occur in `cutset` are removed. -/
def TrimRight (s cutset : GoString) : GoString :=
  (s.reverse.dropWhile fun b => cutset.contains b).reverse

/-- The elements of a path between its slashes; `cur` holds the bytes of the element
being read, last byte first. -/
def splitSlash (cur : GoString) : GoString → List GoString
  | [] => [cur.reverse]
  | b :: rest => if b = 47 then cur.reverse :: splitSlash [] rest else splitSlash (b :: cur) rest

/-- The elements that `filepath.Clean` keeps: empty elements and `.` are dropped, `..`
removes the element before it, or is dropped at the root, or is kept at the start of a
relative path.  `stack` holds the kept elements, last one first. -/
def cleanElems (rooted : Bool) : List GoString → List GoString → List GoString
  | stack, [] => stack.reverse
  | stack, e :: rest =>
    if e = [] ∨ e = str "." then cleanElems rooted stack rest
    else if e = str ".." then
      match stack with
      | top :: below =>
        if top = str ".." then cleanElems rooted (e :: stack) rest
        else cleanElems rooted below rest
      | [] => if rooted then cleanElems rooted [] rest else cleanElems rooted [e] rest
    else cleanElems rooted (e :: stack) rest

/-- The function `filepath.Clean`. -/
def Clean (p : GoString) : GoString :=
  if p = [] then str "."
  else
    let rooted := p.head? = some 47
    let out := (if rooted then str "/" else []) ++
      (str "/").intercalate (cleanElems rooted [] (splitSlash [] p))
    if out = [] then str "." else out

/-- The function `filepath.Dir`: the path up to its last slash, cleaned. -/
def Dir (p : GoString) : GoString :=
  Clean (p.reverse.dropWhile fun b => b ≠ 47).reverse

/-- The loop of `ValidateConfig` over the monitored paths (config.go, lines 65-73):
each path is replaced by its trimmed form, and the loop returns at the first trimmed
path that `os.Stat` reports as not existing.  The result is the slice as the loop
leaves it and the error. -/
def validatePaths (fs : FS) : List GoString → List GoString × Option Error
  | [] => ([], none)
  | path :: rest =>
    let trimmed := TrimRight path (str "/")
    if IsNotExist (fs.Stat trimmed) then
      (trimmed :: rest, some (Error.errorf "monitor path does not exist" path))
    else
      let r := validatePaths fs rest
      (trimmed :: r.1, r.2)

/-- The method `(*Config).ValidateConfig` (config.go, lines 57-85): the configuration
as the call leaves it and the returned error. -/
def ValidateConfig (fs : FS) (c : Config) : Config × Option Error :=
  if c.Monitor.Paths.length = 0 then
    (c, some (Error.errorf "no monitor paths specified in fim.conf" []))
  else
    let r := validatePaths fs c.Monitor.Paths
    let c' : Config := { c with Monitor := { c.Monitor with Paths := r.1 } }
    match r.2 with
    | some e => (c', some e)
    | none =>
      if c'.Logging.LogFile ≠ [] then
        let logDir := Dir c'.Logging.LogFile
        if IsNotExist (fs.Stat logDir) then
          (c', some (Error.errorf "log directory does not exist" logDir))
        else (c', none)
      else (c', none)

/-! ## package daemon: `Daemon`, `Start`

The files that `Start` touches live outside the monitored tree and are embedded as a
disk of their own: a partial map from paths to contents.  The goroutine that `Start`
launches on success (`go d.monitorLoop()`) is not part of the embedding. -/

/-- What a file on the disk holds: plain text, or the text of a JSON document. -/
inductive Content where
  | text (s : GoString)
  | document (j : JSON)

/-- How a call of `os.WriteFile` ends.  The function opens the file with
`O_WRONLY|O_CREATE|O_TRUNC`, writes the data and closes the file: it can fail before
the file is created or truncated (`openFails`), or after that, with the first `written`
bytes of the data in the file (`writeFails`: a short write, or with all bytes written a
failure of `Close`). -/
inductive WriteOutcome where
  | succeeds
  | openFails
  | writeFails (written : Nat)
  deriving DecidableEq

/-- The environment of the daemon process: its process id, the result of
`os.UserHomeDir` (`none` is an error), the files on disk (`none` is a path at which
`os.Stat` and `os.ReadFile` fail) and how `os.WriteFile` ends at each path. -/
structure World where
  pid : Nat
  homeDir : Option GoString
  disk : GoString → Option Content
  writes : GoString → WriteOutcome

/-- The struct `daemon.Daemon` (daemon.go, lines 16-24), without its logger; `baseline`
is a pointer, nil until `Start` loads it. -/
structure Daemon where
  config : Config
  baseline : Option Baseline
  pidFile : GoString
  running : Bool
  interval : Int

/-- The text `fmt.Sprintf("%d", n)` of a process id. -/
def decimal (n : Nat) : GoString := (Nat.toDigits 10 n).map Char.toNat

/-- The path `filepath.Join(homeDir, ".fim", "baseline.json")`. -/
def baselinePathOf (homeDir : GoString) : GoString :=
  Join (Join homeDir (str ".fim")) (str "baseline.json")

/-- The function `storage.Load` (baseline.go, lines 77-90) on a path of the disk: the
file is read and its text handed to `json.Unmarshal`. -/
def LoadFile (tc : TimeCodec) (w : World) (filepath : GoString) : Except Error Baseline :=
  match w.disk filepath with
  | none => Except.error (Error.errorf "open" filepath)
  | some (Content.text _) => Except.error (Error.unmarshal "invalid character")
  | some (Content.document data) => Load tc data

/-- The disk after the file at `path` has been created or truncated and `data` written
to it: the file holds `data`, every other file is as before. -/
def writeFile (w : World) (path data : GoString) : World :=
  { w with disk := fun p => if p = path then some (Content.text data) else w.disk p }

/-- The call `os.WriteFile(path, data, 0644)`: the environment that it leaves and
whether it returns an error.  A failure to open leaves the disk as it was; a failure
after that leaves the file with the bytes written so far. -/
def WriteFile (w : World) (path data : GoString) : World × Bool :=
  match w.writes path with
  | WriteOutcome.succeeds => (writeFile w path data, false)
  | WriteOutcome.openFails => (w, true)
  | WriteOutcome.writeFails written => (writeFile w path (data.take written), true)

/-- The result of `Start`: the daemon and the environment as the call leaves them, and
the returned error. -/
structure StartResult where
  daemon : Daemon
  world : World
  err : Option Error

/-- The method `(*Daemon).Start` (daemon.go, lines 61-98). -/
def Start (tc : TimeCodec) (d : Daemon) (w : World) : StartResult :=
  if d.running then
    { daemon := d, world := w, err := some (Error.errorf "daemon is already running" []) }
  else if (w.disk d.pidFile).isSome then
    { daemon := d, world := w,
      err := some (Error.errorf "daemon is already running (PID file exists)" []) }
  else if (WriteFile w d.pidFile (decimal w.pid)).2 then
    { daemon := d, world := (WriteFile w d.pidFile (decimal w.pid)).1,
      err := some (Error.errorf "failed to write PID file" d.pidFile) }
  else
    let w' : World := (WriteFile w d.pidFile (decimal w.pid)).1
    match w'.homeDir with
    | none =>
      { daemon := d, world := w', err := some (Error.errorf "failed to get home directory" []) }
    | some homeDir =>
      match LoadFile tc w' (baselinePathOf homeDir) with
      | Except.error e =>
        { daemon := d, world := w', err := some (Error.wrap "failed to load baseline" e) }
      | Except.ok baseline =>
        { daemon := { d with baseline := some baseline, running := true }, world := w',
          err := none }

/-- The PID file path of the examples. -/
def examplePidFile : GoString := str "/home/u/.fim/fim.pid"

/-- A daemon as `NewDaemon` returns it, with the given running flag. -/
def exampleDaemon (running : Bool) : Daemon :=
  { config := exampleConfig [str "/a"] [], baseline := none, pidFile := examplePidFile,
    running := running, interval := 300000000000 }

/-- An environment with process id 4242 and home `/home/u` whose disk holds the given
content at the baseline path and nothing else, every write succeeding. -/
def exampleWorld (baselineFile : Option Content) : World :=
  { pid := 4242, homeDir := some (str "/home/u"),
    disk := fun p => if p = baselinePathOf (str "/home/u") then baselineFile else none,
    writes := fun _ => WriteOutcome.succeeds }

/-- The environment `exampleWorld` on a disk where every write fails after the file is
created and two bytes are written. -/
def fullDiskWorld (baselineFile : Option Content) : World :=
  { exampleWorld baselineFile with writes := fun _ => WriteOutcome.writeFails 2 }

/-- Whether a file of the disk holds the given text. -/
def holdsText (c : Option Content) (s : GoString) : Bool :=
  match c with
  | some (Content.text t) => decide (t = s)
  | _ => false

/-- The document that `Save` writes for a snapshot holding the file `/a/f`. -/
def exampleDocument : JSON :=
  match Save rfc3339 (snapshotOf [regularRecord (str "/a/f") (str "H1")]) with
  | Except.ok data => data
  | Except.error _ => JSON.null

/-! ## package daemon: `scan` -/

/-- A line that `scan` hands to the logger. -/
inductive LogLine where
  | newFile (path : GoString)
  | modifiedFile (path : GoString)
  | deletedFile (path : GoString)
  deriving DecidableEq, Repr

/-- The callback that `scan` passes to `filepath.Walk` (daemon.go, lines 172-204); the
state is the log written so far, `baseline` is `d.baseline`. -/
def daemonWalkFunc (Match : GoString → GoString → Bool) (cfg : Config) (fs : FS)
    (baseline : Baseline) : WalkFunc (List LogLine) :=
  fun log path info err =>
    match err with
    | some e => (log, some e)
    | none =>
      if IsExcluded Match cfg path then
        if (info.map OSFileInfo.IsDir).getD false then (log, some Error.SkipDir)
        else (log, none)
      else
        match GetFileInfo fs path with
        | Except.error e => (log, some e)
        | Except.ok currentInfo =>
          match GetFile baseline path with
          | (_, false) => (log ++ [LogLine.newFile path], none)
          | (baselineInfo, true) =>
            if !Equals baselineInfo (some currentInfo) then
              (log ++ [LogLine.modifiedFile path], none)
            else (log, none)

/-- The loop of `scan` over the monitored paths (daemon.go, lines 171-207). -/
def daemonScanRoots (Match : GoString → GoString → Bool) (cfg : Config) (fs : FS)
    (baseline : Baseline) : List GoString → List LogLine → List LogLine × Option Error
  | [], log => (log, none)
  | path :: rest, log =>
    match Walk fs path (daemonWalkFunc Match cfg fs baseline) log with
    | (log', some e) => (log', some (Error.wrap "failed to scan path" e))
    | (log', none) => daemonScanRoots Match cfg fs baseline rest log'

/-- The loop of `scan` over the baseline (daemon.go, lines 209-214): a key is logged
as deleted when `os.Stat` reports that it does not exist. -/
def daemonDeletedLoop (fs : FS) (baseline : Baseline) (log : List LogLine) : List LogLine :=
  baseline.Files.entries.foldl
    (fun log e => if IsNotExist (fs.Stat e.1) then log ++ [LogLine.deletedFile e.1] else log)
    log

/-- The method `(*Daemon).scan` (daemon.go, lines 168-217) for the configuration `cfg`
and the working baseline `baseline` of the daemon: the lines logged and the returned
error. -/
def scan (Match : GoString → GoString → Bool) (cfg : Config) (fs : FS)
    (baseline : Baseline) : List LogLine × Option Error :=
  match daemonScanRoots Match cfg fs baseline cfg.Monitor.Paths [] with
  | (log, some e) => (log, some e)
  | (log, none) => (daemonDeletedLoop fs baseline log, none)

/-- The shape shared by the callbacks of `ScanPaths` and of `scan`: an incoming error is
returned, an excluded entry is skipped (with `SkipDir` for a directory), a failure of
`GetFileInfo` is returned, and otherwise the state is updated with the path and the
record. -/
def visitFunc {σ : Type} (Match : GoString → GoString → Bool) (cfg : Config) (fs : FS)
    (step : σ → GoString → FileInfo → σ) : WalkFunc σ :=
  fun s path info err =>
    match err with
    | some e => (s, some e)
    | none =>
      if IsExcluded Match cfg path then
        if (info.map OSFileInfo.IsDir).getD false then (s, some Error.SkipDir)
        else (s, none)
      else
        match GetFileInfo fs path with
        | Except.error e => (s, some e)
        | Except.ok fileInfo => (step s path fileInfo, none)

/-- The update of the log by the callback of `scan` for a visited path and its record. -/
def logStep (baseline : Baseline) (log : List LogLine) (path : GoString)
    (currentInfo : FileInfo) : List LogLine :=
  match baseline.Files.lookup path with
  | none => log ++ [LogLine.newFile path]
  | some baselineInfo =>
    if !Equals baselineInfo (some currentInfo) then log ++ [LogLine.modifiedFile path]
    else log

/-- Whether no entry of the tree is a symlink. -/
def FS.plain (fs : FS) : Bool :=
  fs.entries.all fun e =>
    match e.2 with
    | Node.symlink _ _ => false
    | _ => true

/-- The relation between the state of `ScanPaths` and the log of `scan` after the same
visits: every stored record is the one `GetFileInfo` returns for its key; a path is
logged as new exactly when it is stored and absent from the baseline, as modified
exactly when the baseline holds a record for it that is not `Equals` to the stored one;
no path is logged as deleted. -/
def ScanSim (fs : FS) (baseline : Baseline) (s : ScanState) (log : List LogLine) : Prop :=
  (∀ p y, s.1.Files.lookup p = some y → ∃ fi, y = some fi ∧ GetFileInfo fs p = Except.ok fi) ∧
  (∀ p, LogLine.newFile p ∈ log ↔ p ∈ s.1.Files ∧ baseline.Files.lookup p = none) ∧
  (∀ p, LogLine.modifiedFile p ∈ log ↔
    ∃ x y, baseline.Files.lookup p = some x ∧ s.1.Files.lookup p = some y ∧
      Equals x y = false) ∧
  (∀ p, LogLine.deletedFile p ∉ log)

/-- The tree `/a` with a file `/a/f` and a directory `/a/x` holding a file `/a/x/y`. -/
def plainFS : FS :=
  { top := str "/a",
    tree := Node.dir exampleAttrs true
      [(str "f", exampleFile),
       (str "x", Node.dir exampleAttrs true [(str "y", exampleFile)])] }

/-- The clock of the examples: the `n`-th reading is `n` nanoseconds. -/
def exampleClock : Nat → Time := fun n => (n : Int)

/-- The snapshot that `ScanPaths` takes of the example tree (with its two symlinks),
monitoring `/a` without exclusions. -/
def symlinkBaseline : Baseline :=
  scanResult (ScanPaths literalMatch (exampleConfig [str "/a"] []) exampleFS exampleClock)

/-- The snapshot that `ScanPaths` takes of the tree without symlinks, monitoring `/a`
without exclusions. -/
def plainBaseline : Baseline :=
  scanResult (ScanPaths literalMatch (exampleConfig [str "/a"] []) plainFS exampleClock)

/-- The snapshot that `ScanPaths` takes of the tree without symlinks, monitoring `/a`
with `/a/x` excluded. -/
def plainFreshExcluding : Baseline :=
  scanResult (ScanPaths literalMatch (exampleConfig [str "/a"] [str "/a/x"]) plainFS
    exampleClock)

/-- A baseline in which `/a/f` had another content and a file `/a/gone` existed. -/
def staleBaseline : Baseline :=
  snapshotOf [regularRecord (str "/a/f") (str "H0"), regularRecord (str "/a/gone") (str "H1")]

/-- The snapshot that `ScanPaths` takes of the example tree when the monitored path is
the symlink `/a/l`, which resolves to the file `/a/f`. -/
def rootLinkBaseline : Baseline :=
  scanResult (ScanPaths literalMatch (exampleConfig [str "/a/l"] []) exampleFS exampleClock)

/-! ## The locking of a snapshot

Each method of `Baseline` is a straight line of lock operations and accesses to the map
`Files`.  The sequence of these events, read off the source, is the lock trace of the
method; snapshots are told apart by a number (0 for the receiver, 1 for the argument
of `Compare`).  A trace is guarded when every access to the map of a snapshot happens
while the lock of that snapshot is held: a read under the read or the write lock, a
write under the write lock. -/

/-- An event of a lock trace. -/
inductive LockEvent where
  | Lock (snapshot : Nat)
  | Unlock (snapshot : Nat)
  | RLock (snapshot : Nat)
  | RUnlock (snapshot : Nat)
  | readFiles (snapshot : Nat)
  | writeFiles (snapshot : Nat)
  deriving DecidableEq, Repr

/-- Lock trace of `AddFile` (baseline.go, lines 38-44): `b.mu.Lock()`, the deferred
`Unlock`, and the assignment `b.Files[info.Path] = info` in between. -/
def addFileTrace : List LockEvent :=
  [LockEvent.Lock 0, LockEvent.writeFiles 0, LockEvent.Unlock 0]

/-- Lock trace of `GetFile` (baseline.go, lines 47-53). -/
def getFileTrace : List LockEvent :=
  [LockEvent.RLock 0, LockEvent.readFiles 0, LockEvent.RUnlock 0]

/-- Lock trace of `RemoveFile` (baseline.go, lines 56-62). -/
def removeFileTrace : List LockEvent :=
  [LockEvent.Lock 0, LockEvent.writeFiles 0, LockEvent.Unlock 0]

/-- Lock trace of `Save` (baseline.go, lines 65-75): the map is read by the encoder
under the read lock. -/
def saveTrace : List LockEvent :=
  [LockEvent.RLock 0, LockEvent.readFiles 0, LockEvent.RUnlock 0]

/-- Lock trace of `Compare` (baseline.go, lines 102-132): the first loop ranges over
`other.Files` and looks each key up in `b.Files`, the second ranges over `b.Files` and
looks each key up in `other.Files`; the method contains no lock operation. -/
def compareTrace (b other : Baseline) : List LockEvent :=
  (LockEvent.readFiles 1 ::
      other.Files.entries.flatMap fun _ => [LockEvent.readFiles 1, LockEvent.readFiles 0]) ++
    (LockEvent.readFiles 0 ::
      b.Files.entries.flatMap fun _ => [LockEvent.readFiles 0, LockEvent.readFiles 1])

/-- Lock trace of the last loop of `scan` (daemon.go, lines 209-214), which ranges over
`d.baseline.Files` directly. -/
def scanDeletedLoopTrace (baseline : Baseline) : List LockEvent :=
  LockEvent.readFiles 0 :: baseline.Files.entries.flatMap fun _ => [LockEvent.readFiles 0]

/-- Whether a trace is guarded, given the read locks and the write locks held at its
start. -/
def guardedFrom : List Nat → List Nat → List LockEvent → Bool
  | _, _, [] => true
  | rd, wr, LockEvent.Lock x :: rest => guardedFrom rd (x :: wr) rest
  | rd, wr, LockEvent.Unlock x :: rest => guardedFrom rd (wr.erase x) rest
  | rd, wr, LockEvent.RLock x :: rest => guardedFrom (x :: rd) wr rest
  | rd, wr, LockEvent.RUnlock x :: rest => guardedFrom (rd.erase x) wr rest
  | rd, wr, LockEvent.readFiles x :: rest =>
    (rd.contains x || wr.contains x) && guardedFrom rd wr rest
  | rd, wr, LockEvent.writeFiles x :: rest => wr.contains x && guardedFrom rd wr rest

/-- Whether a trace that starts with no lock held is guarded. -/
def guarded (trace : List LockEvent) : Bool := guardedFrom [] [] trace

/-- Whether an event is a lock operation. -/
def LockEvent.isLockOp : LockEvent → Bool
  | LockEvent.readFiles _ => false
  | LockEvent.writeFiles _ => false
  | _ => true

/-! ## Theorems -/

/-! ### `Compare` as three filters -/

theorem foldl_compareStepOther (b : Baseline)
    (l : List (Sigma fun _ : GoString => Option FileInfo)) (acc : Changes) :
    l.foldl (compareStepOther b) acc =
      { Added := acc.Added ++
          (l.filter fun e => (b.Files.lookup e.1).isNone).map (·.2),
        Modified := acc.Modified ++
          (l.filter fun e =>
            match b.Files.lookup e.1 with
            | none => false
            | some baselineFile => !Equals baselineFile e.2).map (·.2),
        Deleted := acc.Deleted } := by
  induction l generalizing acc with
  | nil => simp
  | cons e l ih =>
    rw [List.foldl_cons, ih]
    unfold compareStepOther
    cases hb : b.Files.lookup e.1 with
    | none => simp [List.filter_cons, hb]
    | some x =>
      cases hx : Equals x e.2 <;> simp [List.filter_cons, hb, hx]

theorem foldl_compareStepBaseline (other : Baseline)
    (l : List (Sigma fun _ : GoString => Option FileInfo)) (acc : Changes) :
    l.foldl (compareStepBaseline other) acc =
      { Added := acc.Added,
        Modified := acc.Modified,
        Deleted := acc.Deleted ++
          (l.filter fun e => (other.Files.lookup e.1).isNone).map (·.2) } := by
  induction l generalizing acc with
  | nil => simp
  | cons e l ih =>
    rw [List.foldl_cons, ih]
    unfold compareStepBaseline
    cases ho : other.Files.lookup e.1 <;> simp [List.filter_cons, ho]

/-- The three sequences of `Compare` are the record components of the selected entries. -/
theorem Compare_eq (b other : Baseline) :
    Compare b other =
      { Added := (addedEntries b other).map (·.2),
        Modified := (modifiedEntries b other).map (·.2),
        Deleted := (deletedEntries b other).map (·.2) } := by
  simp [Compare, foldl_compareStepOther, foldl_compareStepBaseline, addedEntries,
    modifiedEntries, deletedEntries]

theorem mem_entries_iff_lookup (m : FileMap) (k : GoString) (r : Option FileInfo) :
    (⟨k, r⟩ : Sigma fun _ : GoString => Option FileInfo) ∈ m.entries ↔ m.lookup k = some r := by
  rw [← AList.mem_lookup_iff]; simp [Option.mem_def]

theorem mem_addedEntries (b other : Baseline) (k : GoString) (r : Option FileInfo) :
    (⟨k, r⟩ : Sigma fun _ : GoString => Option FileInfo) ∈ addedEntries b other ↔
      other.Files.lookup k = some r ∧ b.Files.lookup k = none := by
  simp [addedEntries, List.mem_filter, mem_entries_iff_lookup]

theorem mem_modifiedEntries (b other : Baseline) (k : GoString) (r : Option FileInfo) :
    (⟨k, r⟩ : Sigma fun _ : GoString => Option FileInfo) ∈ modifiedEntries b other ↔
      other.Files.lookup k = some r ∧
        ∃ x, b.Files.lookup k = some x ∧ Equals x r = false := by
  simp only [modifiedEntries, List.mem_filter, mem_entries_iff_lookup]
  cases hb : b.Files.lookup k <;> simp

theorem mem_deletedEntries (b other : Baseline) (k : GoString) (r : Option FileInfo) :
    (⟨k, r⟩ : Sigma fun _ : GoString => Option FileInfo) ∈ deletedEntries b other ↔
      b.Files.lookup k = some r ∧ other.Files.lookup k = none := by
  simp [deletedEntries, List.mem_filter, mem_entries_iff_lookup]

theorem mem_map_snd_iff (l : List (Sigma fun _ : GoString => Option FileInfo))
    (r : Option FileInfo) :
    r ∈ l.map (·.2) ↔ ∃ k, (⟨k, r⟩ : Sigma fun _ : GoString => Option FileInfo) ∈ l := by
  constructor
  · intro h
    obtain ⟨⟨k, v⟩, he, rfl⟩ := List.mem_map.1 h
    exact ⟨k, he⟩
  · rintro ⟨k, he⟩
    exact List.mem_map.2 ⟨⟨k, r⟩, he, rfl⟩

theorem mem_map_fst_iff (l : List (Sigma fun _ : GoString => Option FileInfo))
    (k : GoString) :
    k ∈ l.map (·.1) ↔ ∃ r, (⟨k, r⟩ : Sigma fun _ : GoString => Option FileInfo) ∈ l := by
  constructor
  · intro h
    obtain ⟨⟨k', v⟩, he, rfl⟩ := List.mem_map.1 h
    exact ⟨v, he⟩
  · rintro ⟨r, he⟩
    exact List.mem_map.2 ⟨⟨k, r⟩, he, rfl⟩

/-- C1. `A.Compare(B)` returns as Added exactly the records of `B` whose key is absent
from `A`, as Modified exactly the records of `B` (the current ones) whose key is in
both and whose baseline record is not `Equals` to them, and as Deleted exactly the
records of `A` whose key is absent from `B`: each sequence is the corresponding filter
of the map entries in iteration order, and membership is characterised by the two
lookups.  The two scenarios of the specification evaluate as stated. -/
theorem C1_compare_classifies (A B : Baseline) :
    ((Compare A B).Added =
        (B.Files.entries.filter fun e => (A.Files.lookup e.1).isNone).map (·.2)) ∧
    ((Compare A B).Deleted =
        (A.Files.entries.filter fun e => (B.Files.lookup e.1).isNone).map (·.2)) ∧
    ((Compare A B).Modified =
        (B.Files.entries.filter fun e =>
          match A.Files.lookup e.1 with
          | none => false
          | some baselineFile => !Equals baselineFile e.2).map (·.2)) ∧
    (∀ r, r ∈ (Compare A B).Added ↔
        ∃ k, B.Files.lookup k = some r ∧ A.Files.lookup k = none) ∧
    (∀ r, r ∈ (Compare A B).Modified ↔
        ∃ k x, B.Files.lookup k = some r ∧ A.Files.lookup k = some x ∧ Equals x r = false) ∧
    (∀ r, r ∈ (Compare A B).Deleted ↔
        ∃ k, A.Files.lookup k = some r ∧ B.Files.lookup k = none) ∧
    Compare (snapshotOf [regularRecord (str "/a") (str "H1")])
        (snapshotOf [regularRecord (str "/a") (str "H2"), regularRecord (str "/b") (str "H3")]) =
      { Added := [some (regularRecord (str "/b") (str "H3"))],
        Modified := [some (regularRecord (str "/a") (str "H2"))],
        Deleted := [] } ∧
    Compare (snapshotOf [regularRecord (str "/a") (str "H1"), regularRecord (str "/b") (str "H3")])
        (snapshotOf [regularRecord (str "/a") (str "H1")]) =
      { Added := [], Modified := [],
        Deleted := [some (regularRecord (str "/b") (str "H3"))] } := by
  refine ⟨?_, ?_, ?_, ?_, ?_, ?_, by decide, by decide⟩
  · rw [Compare_eq]; rfl
  · rw [Compare_eq]; rfl
  · rw [Compare_eq]; rfl
  · intro r
    rw [Compare_eq]
    simp only [mem_map_snd_iff, mem_addedEntries]
  · intro r
    rw [Compare_eq]
    simp only [mem_map_snd_iff, mem_modifiedEntries]
    constructor
    · rintro ⟨k, h1, x, h2, h3⟩; exact ⟨k, x, h1, h2, h3⟩
    · rintro ⟨k, x, h1, h2, h3⟩; exact ⟨k, h1, x, h2, h3⟩
  · intro r
    rw [Compare_eq]
    simp only [mem_map_snd_iff, mem_deletedEntries]


/-! ### Keys of the selected entries -/

theorem mem_iff_lookup (m : FileMap) (k : GoString) :
    k ∈ m ↔ ∃ r, m.lookup k = some r := by
  rw [← AList.lookup_isSome, Option.isSome_iff_exists]

theorem not_mem_iff_lookup (m : FileMap) (k : GoString) :
    k ∉ m ↔ m.lookup k = none := AList.lookup_eq_none.symm

theorem mem_addedKeys (b other : Baseline) (k : GoString) :
    k ∈ (addedEntries b other).map (·.1) ↔ k ∈ other.Files ∧ k ∉ b.Files := by
  rw [not_mem_iff_lookup, mem_iff_lookup]
  simp only [mem_map_fst_iff, mem_addedEntries]
  constructor
  · rintro ⟨r, h1, h2⟩; exact ⟨⟨r, h1⟩, h2⟩
  · rintro ⟨⟨r, h1⟩, h2⟩; exact ⟨r, h1, h2⟩

theorem mem_deletedKeys (b other : Baseline) (k : GoString) :
    k ∈ (deletedEntries b other).map (·.1) ↔ k ∈ b.Files ∧ k ∉ other.Files := by
  rw [not_mem_iff_lookup, mem_iff_lookup]
  simp only [mem_map_fst_iff, mem_deletedEntries]
  constructor
  · rintro ⟨r, h1, h2⟩; exact ⟨⟨r, h1⟩, h2⟩
  · rintro ⟨⟨r, h1⟩, h2⟩; exact ⟨r, h1, h2⟩

theorem mem_modifiedKeys (b other : Baseline) (k : GoString) :
    k ∈ (modifiedEntries b other).map (·.1) ↔
      ∃ x y, b.Files.lookup k = some x ∧ other.Files.lookup k = some y ∧ Equals x y = false := by
  simp only [mem_map_fst_iff, mem_modifiedEntries]
  constructor
  · rintro ⟨r, h1, x, h2, h3⟩; exact ⟨x, r, h2, h1, h3⟩
  · rintro ⟨x, r, h2, h1, h3⟩; exact ⟨r, h1, x, h2, h3⟩

theorem nodup_keys_filter (m : FileMap)
    (p : (Sigma fun _ : GoString => Option FileInfo) → Bool) :
    ((m.entries.filter p).map (·.1)).Nodup :=
  List.Nodup.sublist (List.Sublist.map _ (List.filter_sublist _)) m.keys_nodup

/-- C2. For snapshots `A` (baseline) and `B` (current), with the key of a reported
record being the map key under which `Compare` found it: the three sequences of
`Compare` are the record components of three entry lists whose key lists have no
repetition and are pairwise disjoint; Added holds exactly the keys only in `B`,
Deleted exactly the keys only in `A`, Modified exactly the keys in both whose records
are not `Equals`; so every key of the symmetric difference is in Added or Deleted,
every key of `A` or `B` lies in exactly one of added, modified, deleted, unchanged,
and a key that is not reported is in both snapshots with `Equals` records. -/
theorem C2_compare_partitions (A B : Baseline) :
    (Compare A B =
      { Added := (addedEntries A B).map (·.2),
        Modified := (modifiedEntries A B).map (·.2),
        Deleted := (deletedEntries A B).map (·.2) }) ∧
    ((addedEntries A B).map (·.1)).Nodup ∧
    ((modifiedEntries A B).map (·.1)).Nodup ∧
    ((deletedEntries A B).map (·.1)).Nodup ∧
    (∀ k, k ∈ (addedEntries A B).map (·.1) ↔ k ∈ B.Files ∧ k ∉ A.Files) ∧
    (∀ k, k ∈ (deletedEntries A B).map (·.1) ↔ k ∈ A.Files ∧ k ∉ B.Files) ∧
    (∀ k, k ∈ (modifiedEntries A B).map (·.1) ↔
      ∃ x y, A.Files.lookup k = some x ∧ B.Files.lookup k = some y ∧ Equals x y = false) ∧
    (∀ k, ¬ (k ∈ (addedEntries A B).map (·.1) ∧ k ∈ (modifiedEntries A B).map (·.1))) ∧
    (∀ k, ¬ (k ∈ (addedEntries A B).map (·.1) ∧ k ∈ (deletedEntries A B).map (·.1))) ∧
    (∀ k, ¬ (k ∈ (modifiedEntries A B).map (·.1) ∧ k ∈ (deletedEntries A B).map (·.1))) ∧
    (∀ k, (k ∈ A.Files ∧ k ∉ B.Files) ∨ (k ∈ B.Files ∧ k ∉ A.Files) →
      k ∈ (addedEntries A B).map (·.1) ∨ k ∈ (deletedEntries A B).map (·.1)) ∧
    (∀ k, k ∈ A.Files ∨ k ∈ B.Files →
      (k ∈ (addedEntries A B).map (·.1) ∧ k ∉ (modifiedEntries A B).map (·.1) ∧
        k ∉ (deletedEntries A B).map (·.1) ∧ ¬ Unchanged A B k) ∨
      (k ∉ (addedEntries A B).map (·.1) ∧ k ∈ (modifiedEntries A B).map (·.1) ∧
        k ∉ (deletedEntries A B).map (·.1) ∧ ¬ Unchanged A B k) ∨
      (k ∉ (addedEntries A B).map (·.1) ∧ k ∉ (modifiedEntries A B).map (·.1) ∧
        k ∈ (deletedEntries A B).map (·.1) ∧ ¬ Unchanged A B k) ∨
      (k ∉ (addedEntries A B).map (·.1) ∧ k ∉ (modifiedEntries A B).map (·.1) ∧
        k ∉ (deletedEntries A B).map (·.1) ∧ Unchanged A B k)) ∧
    (∀ k, k ∈ A.Files ∨ k ∈ B.Files → k ∉ (addedEntries A B).map (·.1) →
      k ∉ (modifiedEntries A B).map (·.1) → k ∉ (deletedEntries A B).map (·.1) →
      Unchanged A B k) := by
  have hfour : ∀ k, k ∈ A.Files ∨ k ∈ B.Files →
      (k ∈ (addedEntries A B).map (·.1) ∧ k ∉ (modifiedEntries A B).map (·.1) ∧
        k ∉ (deletedEntries A B).map (·.1) ∧ ¬ Unchanged A B k) ∨
      (k ∉ (addedEntries A B).map (·.1) ∧ k ∈ (modifiedEntries A B).map (·.1) ∧
        k ∉ (deletedEntries A B).map (·.1) ∧ ¬ Unchanged A B k) ∨
      (k ∉ (addedEntries A B).map (·.1) ∧ k ∉ (modifiedEntries A B).map (·.1) ∧
        k ∈ (deletedEntries A B).map (·.1) ∧ ¬ Unchanged A B k) ∨
      (k ∉ (addedEntries A B).map (·.1) ∧ k ∉ (modifiedEntries A B).map (·.1) ∧
        k ∉ (deletedEntries A B).map (·.1) ∧ Unchanged A B k) := by
    intro k hk
    simp only [mem_addedKeys, mem_deletedKeys, mem_modifiedKeys, Unchanged,
      not_mem_iff_lookup]
    simp only [mem_iff_lookup] at hk ⊢
    cases ha : A.Files.lookup k with
    | none =>
      cases hb : B.Files.lookup k with
      | none => simp [ha, hb] at hk
      | some y => simp
    | some x =>
      cases hb : B.Files.lookup k with
      | none => simp
      | some y => cases he : Equals x y <;> simp [he]
  refine ⟨Compare_eq A B, nodup_keys_filter _ _, nodup_keys_filter _ _, nodup_keys_filter _ _,
    mem_addedKeys A B, mem_deletedKeys A B, mem_modifiedKeys A B, ?_, ?_, ?_, ?_, hfour, ?_⟩
  · intro k h
    rcases hfour k (Or.inr ((mem_addedKeys A B k).1 h.1).1) with h' | h' | h' | h'
    · exact h'.2.1 h.2
    · exact h'.1 h.1
    · exact h'.1 h.1
    · exact h'.1 h.1
  · intro k h
    rcases hfour k (Or.inr ((mem_addedKeys A B k).1 h.1).1) with h' | h' | h' | h'
    · exact h'.2.2.1 h.2
    · exact h'.1 h.1
    · exact h'.1 h.1
    · exact h'.1 h.1
  · intro k h
    rcases hfour k (Or.inl ((mem_deletedKeys A B k).1 h.2).1) with h' | h' | h' | h'
    · exact h'.2.1 h.1
    · exact h'.2.2.1 h.2
    · exact h'.2.1 h.1
    · exact h'.2.1 h.1
  · intro k h
    rcases h with h | h
    · exact Or.inr ((mem_deletedKeys A B k).2 h)
    · exact Or.inl ((mem_addedKeys A B k).2 h)
  · intro k hk h1 h2 h3
    rcases hfour k hk with h' | h' | h' | h'
    · exact absurd h'.1 h1
    · exact absurd h'.2.1 h2
    · exact absurd h'.2.2.1 h3
    · exact h'.2.2.2

/-- C3. For records `f` and `g` (non-nil pointers), `f.Equals(g)` is true exactly when
Path, Size, Mode, ModTime, UID, GID, IsDir and IsSymlink agree and, for a regular file
(neither directory nor symlink), Hash agrees too; for a directory or symlink record the
Hash fields do not affect the result; with a nil receiver or a nil argument the result
is false. -/
theorem C3_equals_characterised :
    (∀ f g : FileInfo, Equals (some f) (some g) = true ↔
      (f.Path = g.Path ∧ f.Size = g.Size ∧ f.Mode = g.Mode ∧ f.ModTime = g.ModTime ∧
        f.UID = g.UID ∧ f.GID = g.GID ∧ f.IsDir = g.IsDir ∧ f.IsSymlink = g.IsSymlink ∧
        ((f.IsDir = false ∧ f.IsSymlink = false) → f.Hash = g.Hash))) ∧
    (∀ (f g : FileInfo) (h₁ h₂ : GoString), (f.IsDir = true ∨ f.IsSymlink = true) →
      Equals (some { f with Hash := h₁ }) (some { g with Hash := h₂ }) =
        Equals (some f) (some g)) ∧
    (∀ x : Option FileInfo, Equals none x = false) ∧
    (∀ x : Option FileInfo, Equals x none = false) := by
  refine ⟨?_, ?_, ?_, ?_⟩
  · intro f g
    unfold Equals
    by_cases h : f.Path ≠ g.Path ∨ f.Size ≠ g.Size ∨ f.Mode ≠ g.Mode ∨
        f.ModTime ≠ g.ModTime ∨ f.UID ≠ g.UID ∨ f.GID ≠ g.GID ∨
        f.IsDir ≠ g.IsDir ∨ f.IsSymlink ≠ g.IsSymlink
    · simp only [h, if_true]
      constructor
      · intro hc; cases hc
      · rintro ⟨h1, h2, h3, h4, h5, h6, h7, h8, -⟩
        rcases h with h | h | h | h | h | h | h | h
        · exact absurd h1 h
        · exact absurd h2 h
        · exact absurd h3 h
        · exact absurd h4 h
        · exact absurd h5 h
        · exact absurd h6 h
        · exact absurd h7 h
        · exact absurd h8 h
    · simp only [h, if_false]
      simp only [not_or, not_not] at h
      obtain ⟨h1, h2, h3, h4, h5, h6, h7, h8⟩ := h
      cases hd : f.IsDir <;> cases hs : f.IsSymlink <;>
        simp [h1, h2, h3, h4, h5, h6, ← h7, ← h8, hd, hs]
  · intro f g h₁ h₂ h
    unfold Equals
    rcases h with h | h <;> simp [h]
  · intro x; cases x <;> rfl
  · intro x; cases x <;> rfl

/-- C4. When both snapshots hold path `p` with regular-file records that differ only
in the Mode field, `Compare` lists the current record of `p` in Modified, `p` is
among the keys of the modified entries and of neither the added nor the deleted ones;
`CompareFiles` tells the pair apart as a permission change, but a `Changes` value
consists of the three sequences Added, Modified and Deleted and nothing else. -/
theorem C4_mode_change_is_modified (A B : Baseline) (p : GoString) (rA : FileInfo) (m : Nat)
    (hA : A.Files.lookup p = some (some rA))
    (hB : B.Files.lookup p = some (some { rA with Mode := m }))
    (hreg : rA.IsDir = false ∧ rA.IsSymlink = false) (hm : m ≠ rA.Mode) :
    some { rA with Mode := m } ∈ (Compare A B).Modified ∧
    (⟨p, some { rA with Mode := m }⟩ : Sigma fun _ : GoString => Option FileInfo) ∈
      modifiedEntries A B ∧
    p ∉ (addedEntries A B).map (·.1) ∧
    p ∉ (deletedEntries A B).map (·.1) ∧
    CompareFiles (some rA) (some { rA with Mode := m }) = ChangeType.PermissionChange ∧
    (∀ c : Changes, c = { Added := c.Added, Modified := c.Modified, Deleted := c.Deleted }) := by
  have hne : Equals (some rA) (some { rA with Mode := m }) = false := by
    unfold Equals
    simp [hreg.1, hreg.2, Ne.symm hm]
  have hmod : (⟨p, some { rA with Mode := m }⟩ : Sigma fun _ : GoString => Option FileInfo) ∈
      modifiedEntries A B :=
    (mem_modifiedEntries A B p _).2 ⟨hB, some rA, hA, hne⟩
  refine ⟨?_, hmod, ?_, ?_, ?_, fun c => rfl⟩
  · rw [Compare_eq]
    exact (mem_map_snd_iff _ _).2 ⟨p, hmod⟩
  · rw [mem_addedKeys, not_mem_iff_lookup]
    simp [hA]
  · rw [mem_deletedKeys, not_mem_iff_lookup]
    simp [hB]
  · unfold CompareFiles
    simp [Ne.symm hm]

/-- C4, at a concrete pair of snapshots: `/a` with mode 0644 in the baseline and mode
0600 in the current snapshot. -/
theorem C4_mode_change_is_modified_witness :
    some { regularRecord (str "/a") (str "H1") with Mode := 0o600 } ∈
      (Compare (snapshotOf [regularRecord (str "/a") (str "H1")])
        (snapshotOf [{ regularRecord (str "/a") (str "H1") with Mode := 0o600 }])).Modified :=
  (C4_mode_change_is_modified (snapshotOf [regularRecord (str "/a") (str "H1")])
    (snapshotOf [{ regularRecord (str "/a") (str "H1") with Mode := 0o600 }])
    (str "/a") (regularRecord (str "/a") (str "H1")) 0o600
    (by decide) (by decide) (by decide) (by decide)).1

/-! ### Snapshot operations -/

theorem GetFile_AddFile_same (b : Baseline) (r : FileInfo) (now : Time) :
    GetFile (AddFile b r now) r.Path = (some r, true) := by
  simp [GetFile, AddFile]

theorem GetFile_AddFile_other (b : Baseline) (r : FileInfo) (now : Time) (q : GoString)
    (hq : q ≠ r.Path) : GetFile (AddFile b r now) q = GetFile b q := by
  simp [GetFile, AddFile, AList.lookup_insert_ne hq]

theorem lookup_applyOps_absent (q : GoString) (ops : List Op) (b : Baseline)
    (hb : b.Files.lookup q = none)
    (hops : ∀ r now, Op.add r now ∈ ops → r.Path ≠ q) :
    (applyOps b ops).Files.lookup q = none := by
  induction ops generalizing b with
  | nil => simpa [applyOps] using hb
  | cons op ops ih =>
    have hrest : ∀ r now, Op.add r now ∈ ops → r.Path ≠ q := fun r now h =>
      hops r now (List.mem_cons_of_mem _ h)
    have hstep : (applyOp b op).Files.lookup q = none := by
      cases op with
      | add info now =>
        have hne : q ≠ info.Path := fun h => hops info now (List.mem_cons_self _ _) h.symm
        simp [applyOp, AddFile, AList.lookup_insert_ne hne, hb]
      | remove path now =>
        by_cases hp : q = path
        · subst hp; simp [applyOp, RemoveFile]
        · simp [applyOp, RemoveFile, AList.lookup_erase_ne hp, hb]
    simpa [applyOps] using ih (applyOp b op) hstep hrest

theorem allocated_applyOps (ops : List Op) : ∀ b : Baseline, b.allocated = true →
    (applyOps b ops).allocated = true := by
  induction ops with
  | nil => intro b hb; simpa [applyOps] using hb
  | cons op ops ih =>
    intro b hb
    have hstep : (applyOp b op).allocated = true := by
      cases op <;> simpa [applyOp, AddFile, RemoveFile] using hb
    simpa [applyOps] using ih (applyOp b op) hstep

/-- C10, amended.  For every snapshot `b` whose map `Files` is allocated and every
record `r` read at clock time `now`, the call `b.AddFile(r)` returns, and after it:
`GetFile(r.Path)` returns `(r, true)` whether or not the path was present before;
`GetFile(q)` for every other path `q` returns what it returned before; `CreatedAt` is
unchanged, `UpdatedAt` is `now` and the map is still allocated.  The map is allocated
in a fresh snapshot and in every snapshot built from a fresh one by calls of `AddFile`
and `RemoveFile`.  `GetFile` is a function of the snapshot that yields no new snapshot;
it reports absence on a fresh snapshot and on every snapshot built from a fresh one by
calls none of which inserted the path. -/
theorem C10_addfile_getfile (b : Baseline) (r : FileInfo) (now : Time)
    (hb : b.allocated = true) :
    (∃ b', AddFileCall b r now = some b' ∧
      GetFile b' r.Path = (some r, true) ∧
      (∀ q, q ≠ r.Path → GetFile b' q = GetFile b q) ∧
      b'.CreatedAt = b.CreatedAt ∧ b'.UpdatedAt = now ∧ b'.allocated = true) ∧
    (∀ t₁ t₂ (ops : List Op), (applyOps (NewBaseline t₁ t₂) ops).allocated = true) ∧
    (∀ t₁ t₂ q, GetFile (NewBaseline t₁ t₂) q = (none, false)) ∧
    (∀ t₁ t₂ q (ops : List Op), (∀ r' now', Op.add r' now' ∈ ops → r'.Path ≠ q) →
      GetFile (applyOps (NewBaseline t₁ t₂) ops) q = (none, false)) := by
  refine ⟨⟨AddFile b r now, ?_, GetFile_AddFile_same b r now,
    fun q hq => GetFile_AddFile_other b r now q hq, rfl, rfl, hb⟩, ?_, ?_, ?_⟩
  · simp [AddFileCall, AddFilePanics, hb]
  · intro t₁ t₂ ops
    exact allocated_applyOps ops (NewBaseline t₁ t₂) rfl
  · intro t₁ t₂ q
    simp [GetFile, NewBaseline]
  · intro t₁ t₂ q ops hops
    have h := lookup_applyOps_absent q ops (NewBaseline t₁ t₂) (by simp [NewBaseline]) hops
    simp [GetFile, h]

/-- C10 as amended, on the snapshot that holds `/a` with hash `H1`: the call that files
a record with hash `H2` under `/a` returns, and `GetFile` then returns the new record. -/
theorem C10_addfile_getfile_witness :
    ∃ b', AddFileCall (snapshotOf [regularRecord (str "/a") (str "H1")])
        (regularRecord (str "/a") (str "H2")) 7 = some b' ∧
      GetFile b' (regularRecord (str "/a") (str "H2")).Path =
        (some (regularRecord (str "/a") (str "H2")), true) ∧
      (∀ q, q ≠ (regularRecord (str "/a") (str "H2")).Path →
        GetFile b' q = GetFile (snapshotOf [regularRecord (str "/a") (str "H1")]) q) ∧
      b'.CreatedAt = (snapshotOf [regularRecord (str "/a") (str "H1")]).CreatedAt ∧
      b'.UpdatedAt = 7 ∧ b'.allocated = true :=
  (C10_addfile_getfile (snapshotOf [regularRecord (str "/a") (str "H1")])
    (regularRecord (str "/a") (str "H2")) 7 (by decide)).1

/-- C10 as stated fails on a snapshot whose map is nil.  The zero value of `Baseline`
has a nil map, and `Load` returns it for the empty object and for a document whose
`files` member is `null`; the call `AddFile` on it panics at the map assignment and
leaves no snapshot on which `GetFile` could return the record. -/
theorem C10_counterexample :
    Load rfc3339 (JSON.object []) = Except.ok zeroBaseline ∧
    Load rfc3339 (JSON.object [(str "files", JSON.null)]) = Except.ok zeroBaseline ∧
    zeroBaseline.allocated = false ∧
    AddFilePanics zeroBaseline = true ∧
    AddFileCall zeroBaseline (regularRecord (str "/a") (str "H1")) 7 = none :=
  ⟨rfl, rfl, rfl, rfl, rfl⟩

/-! ### File modes -/

theorem and_two_pow_bne_zero (m i : Nat) : (m &&& 2 ^ i != 0) = m.testBit i := by
  cases h : m.testBit i with
  | true =>
    have hne : m &&& 2 ^ i ≠ 0 := by
      intro h0
      have := congrArg (fun x => Nat.testBit x i) h0
      simp [Nat.testBit_and, Nat.testBit_two_pow_self, h] at this
    simpa using hne
  | false =>
    have h0 : m &&& 2 ^ i = 0 := by
      apply Nat.eq_of_testBit_eq
      intro j
      simp only [Nat.testBit_and, Nat.testBit_two_pow, Nat.zero_testBit]
      by_cases hij : i = j
      · subst hij; simp [h]
      · simp [hij]
    simp [h0]

theorem permBits_lt (a : Attrs) : a.permBits < 2 ^ 24 := by
  unfold Attrs.permBits ModeSetuid ModeSetgid ModeSticky
  have := Nat.mod_lt a.perm (show 0 < 512 by decide)
  split_ifs <;> omega

theorem Node.isDir_stat (n : Node) :
    n.stat.IsDir = (match n with | Node.dir _ _ _ => true | _ => false) := by
  unfold OSFileInfo.IsDir ModeDir
  rw [and_two_pow_bne_zero, Nat.testBit_to_div_mod]
  have hlt := permBits_lt n.attrs
  cases n with
  | file a typ sum =>
    cases typ <;>
      simp only [Node.stat, Node.typeBits, Node.attrs, FileType.bits, ModeNamedPipe, ModeSocket,
        ModeDevice, ModeCharDevice, ModeIrregular, decide_eq_false_iff_not] at hlt ⊢ <;> omega
  | symlink a target =>
    simp only [Node.stat, Node.typeBits, Node.attrs, ModeSymlink, decide_eq_false_iff_not] at hlt ⊢
    omega
  | dir a readable children =>
    simp only [Node.stat, Node.typeBits, Node.attrs, ModeDir, decide_eq_true_eq] at hlt ⊢
    omega

theorem Node.isSymlink_stat (n : Node) :
    (n.stat.Mode &&& ModeSymlink != 0) =
      (match n with | Node.symlink _ _ => true | _ => false) := by
  unfold ModeSymlink
  rw [and_two_pow_bne_zero, Nat.testBit_to_div_mod]
  have hlt := permBits_lt n.attrs
  cases n with
  | file a typ sum =>
    cases typ <;>
      simp only [Node.stat, Node.typeBits, Node.attrs, FileType.bits, ModeNamedPipe, ModeSocket,
        ModeDevice, ModeCharDevice, ModeIrregular, decide_eq_false_iff_not] at hlt ⊢ <;> omega
  | symlink a target =>
    simp only [Node.stat, Node.typeBits, Node.attrs, ModeSymlink, decide_eq_true_eq] at hlt ⊢
    omega
  | dir a readable children =>
    simp only [Node.stat, Node.typeBits, Node.attrs, ModeDir, decide_eq_false_iff_not] at hlt ⊢
    omega

/-! ### `GetFileInfo` on each kind of entry -/

theorem GetFileInfo_missing (fs : FS) (path : GoString) (h : fs.find path = none) :
    GetFileInfo fs path =
      Except.error (Error.wrap "failed to get file info" (Error.lstat path)) := by
  simp [GetFileInfo, FS.Lstat, h]

theorem GetFileInfo_symlink (fs : FS) (path : GoString) (a : Attrs) (target : Option GoString)
    (h : fs.find path = some (Node.symlink a target)) :
    GetFileInfo fs path = Except.ok
      { Path := (match target with
          | some t => path ++ str " -> " ++ t
          | none => path),
        Size := a.size, Mode := (ModeSymlink + a.permBits) % 2 ^ 32, ModTime := a.modTime,
        Hash := [], UID := ((a.owner.map fun o => (o.1 : Int)).getD (-1)),
        GID := ((a.owner.map fun o => (o.2 : Int)).getD (-1)),
        IsDir := false, IsSymlink := true } := by
  have hd := Node.isDir_stat (Node.symlink a target)
  have hs := Node.isSymlink_stat (Node.symlink a target)
  simp only at hd hs
  unfold GetFileInfo FS.Lstat FS.EvalSymlinks
  simp only [h, Option.map_some', hd, hs]
  cases ho : a.owner <;> cases target <;> simp [Node.stat, Node.attrs, Node.typeBits, ho]

theorem GetFileInfo_dir (fs : FS) (path : GoString) (a : Attrs) (readable : Bool)
    (children : List (GoString × Node))
    (h : fs.find path = some (Node.dir a readable children)) :
    GetFileInfo fs path = Except.ok
      { Path := path,
        Size := a.size, Mode := (ModeDir + a.permBits) % 2 ^ 32, ModTime := a.modTime,
        Hash := [], UID := ((a.owner.map fun o => (o.1 : Int)).getD (-1)),
        GID := ((a.owner.map fun o => (o.2 : Int)).getD (-1)),
        IsDir := true, IsSymlink := false } := by
  have hd := Node.isDir_stat (Node.dir a readable children)
  have hs := Node.isSymlink_stat (Node.dir a readable children)
  simp only at hd hs
  unfold GetFileInfo FS.Lstat
  simp only [h, Option.map_some', hd, hs]
  cases ho : a.owner <;> simp [Node.stat, Node.attrs, Node.typeBits, ho]

theorem GetFileInfo_file (fs : FS) (path : GoString) (a : Attrs) (typ : FileType)
    (sum : Digest) (h : fs.find path = some (Node.file a typ (some sum))) :
    GetFileInfo fs path = Except.ok
      { Path := path,
        Size := a.size, Mode := (typ.bits + a.permBits) % 2 ^ 32, ModTime := a.modTime,
        Hash := hexEncode sum.bytes, UID := ((a.owner.map fun o => (o.1 : Int)).getD (-1)),
        GID := ((a.owner.map fun o => (o.2 : Int)).getD (-1)),
        IsDir := false, IsSymlink := false } := by
  have hd := Node.isDir_stat (Node.file a typ (some sum))
  have hs := Node.isSymlink_stat (Node.file a typ (some sum))
  simp only at hd hs
  unfold GetFileInfo FS.Lstat calculateFileHash
  simp only [h, Option.map_some', hd, hs]
  cases ho : a.owner <;> simp [Node.stat, Node.attrs, Node.typeBits, ho]

theorem GetFileInfo_unreadable (fs : FS) (path : GoString) (a : Attrs) (typ : FileType)
    (h : fs.find path = some (Node.file a typ none)) :
    ∃ e, GetFileInfo fs path = Except.error e ∧ e ≠ Error.SkipDir := by
  have hd := Node.isDir_stat (Node.file a typ none)
  have hs := Node.isSymlink_stat (Node.file a typ none)
  simp only at hd hs
  unfold GetFileInfo FS.Lstat calculateFileHash
  simp only [h, Option.map_some', hd, hs]
  cases ho : a.owner <;> simp [Node.stat, Node.attrs, ho]

theorem hexEncode_ne_nil (sum : Digest) : hexEncode sum.bytes ≠ [] := by
  have h := sum.size_eq
  cases hb : sum.bytes with
  | nil => rw [hb] at h; simp at h
  | cons b bs => simp [hexEncode, hexByte]

/-- C7. For every symlink entry, `GetFileInfo` returns one record and no error; the
record has `IsSymlink = true`, `IsDir = false` and an empty `Hash`; when the link
resolves to `target` its `Path` is the input path followed by ` -> ` and `target`,
and when resolution fails its `Path` is the input path unchanged. -/
theorem C7_symlink_record (fs : FS) (path : GoString) (a : Attrs) (target : Option GoString)
    (h : fs.find path = some (Node.symlink a target)) :
    ∃ r, GetFileInfo fs path = Except.ok r ∧ r.IsSymlink = true ∧ r.IsDir = false ∧
      r.Hash = [] ∧
      (∀ t, fs.EvalSymlinks path = some t → r.Path = path ++ str " -> " ++ t) ∧
      (fs.EvalSymlinks path = none → r.Path = path) := by
  refine ⟨_, GetFileInfo_symlink fs path a target h, rfl, rfl, rfl, ?_, ?_⟩
  · intro t ht
    simp only [FS.EvalSymlinks, h] at ht
    subst ht
    rfl
  · intro ht
    simp only [FS.EvalSymlinks, h] at ht
    subst ht
    rfl

/-- C7, at the symlink `/a/l` of the example tree, which resolves to `/a/f`. -/
theorem C7_symlink_record_witness :
    ∃ r, GetFileInfo exampleFS (str "/a/l") = Except.ok r ∧ r.IsSymlink = true ∧
      r.IsDir = false ∧ r.Hash = [] ∧
      (∀ t, exampleFS.EvalSymlinks (str "/a/l") = some t →
        r.Path = str "/a/l" ++ str " -> " ++ t) ∧
      (exampleFS.EvalSymlinks (str "/a/l") = none → r.Path = str "/a/l") :=
  C7_symlink_record exampleFS (str "/a/l") exampleAttrs (some (str "/a/f")) rfl

/-- C8. For every record that `GetFileInfo` returns without error, `Hash` is non-empty
exactly when the record is a regular file (`IsDir = false` and `IsSymlink = false`), and
`IsDir` and `IsSymlink` are not both true. -/
theorem C8_hash_iff_regular (fs : FS) (path : GoString) (r : FileInfo)
    (h : GetFileInfo fs path = Except.ok r) :
    (r.Hash ≠ [] ↔ (r.IsDir = false ∧ r.IsSymlink = false)) ∧
    ¬ (r.IsDir = true ∧ r.IsSymlink = true) := by
  cases hf : fs.find path with
  | none => rw [GetFileInfo_missing fs path hf] at h; cases h
  | some n =>
    cases n with
    | file a typ sum =>
      cases sum with
      | none =>
        obtain ⟨e, he, -⟩ := GetFileInfo_unreadable fs path a typ hf
        rw [he] at h; cases h
      | some sum =>
        rw [GetFileInfo_file fs path a typ sum hf] at h
        injection h with h
        subst h
        simp [hexEncode_ne_nil]
    | symlink a target =>
      rw [GetFileInfo_symlink fs path a target hf] at h
      injection h with h
      subst h
      simp
    | dir a readable children =>
      rw [GetFileInfo_dir fs path a readable children hf] at h
      injection h with h
      subst h
      simp

/-- C8, at the regular file `/a/f` of the example tree. -/
theorem C8_hash_iff_regular_witness :
    (((regularRecord (str "/a/f") (hexEncode exampleSum.bytes)).Hash ≠ [] ↔
      ((regularRecord (str "/a/f") (hexEncode exampleSum.bytes)).IsDir = false ∧
        (regularRecord (str "/a/f") (hexEncode exampleSum.bytes)).IsSymlink = false)) ∧
    ¬ ((regularRecord (str "/a/f") (hexEncode exampleSum.bytes)).IsDir = true ∧
      (regularRecord (str "/a/f") (hexEncode exampleSum.bytes)).IsSymlink = true)) :=
  C8_hash_iff_regular exampleFS (str "/a/f")
    (regularRecord (str "/a/f") (hexEncode exampleSum.bytes)) rfl

/-! ### The text form of an instant reads back as the instant -/

theorem absDate_eq (n : Nat) : ∃ n400 d n100 d2 n4 d3 n1 d4,
    absDate n = (400 * n400 + 100 * n100 + 4 * n4 + n1 + 1 - 400, d4) ∧
    n400 = (n + 145731) / 146097 ∧ d = n + 145731 - 146097 * n400 ∧
    n100 = d / 36524 - d / 36524 / 4 ∧ d2 = d - 36524 * n100 ∧
    n4 = d2 / 1461 ∧ d3 = d2 - 1461 * n4 ∧ n1 = d3 / 365 - d3 / 365 / 4 ∧
    d4 = d3 - 365 * n1 :=
  ⟨_, _, _, _, _, _, _, _, rfl, rfl, rfl, rfl, rfl, rfl, rfl, rfl, rfl⟩

/-- The year and day of the year that `absDate` returns: the day lies in the year, and
counting the days of the years before it gives back the day. -/
theorem absDate_spec (n : Nat) :
    daysSinceEpoch (absDate n).1 + (absDate n).2 = n ∧
      (absDate n).2 < 365 + (if isLeap (absDate n).1 = true then 1 else 0) ∧
      (n < 3652425 → (absDate n).1 < 10000) := by
  obtain ⟨n400, d, n100, d2, n4, d3, n1, d4, he, hn400, hd, hn100, hd2, hn4, hd3, hn1, hd4⟩ :=
    absDate_eq n
  rw [he]
  have hD : n + 145731 = 146097 * n400 + d := by omega
  have hd1 : d < 146097 := by omega
  have h400 : 1 ≤ n400 ∨ 145731 ≤ d := by omega
  have h100 : n100 ≤ 3 := by omega
  have h100' : 36524 * n100 ≤ d := by omega
  have hd2' : d = 36524 * n100 + d2 := by omega
  have hd2b : d2 < 36524 ∨ (n100 = 3 ∧ d2 < 36525) := by omega
  have hd3' : d2 = 1461 * n4 + d3 := by omega
  have hd3b : d3 < 1461 := by omega
  have hn4b : n4 ≤ 24 := by omega
  have h1 : n1 ≤ 3 := by omega
  have hd4' : d3 = 365 * n1 + d4 := by omega
  have hd4b : d4 < 365 ∨ (n1 = 3 ∧ d4 = 365) := by omega
  clear hn400 hd hn100 hd2 hn4 hd3 hn1 hd4 he
  have hy : 400 ≤ 400 * n400 + 100 * n100 + 4 * n4 + n1 + 1 := by omega
  generalize hY : 400 * n400 + 100 * n100 + 4 * n4 + n1 + 1 - 400 = Y
  have hY' : Y + 400 = 400 * n400 + 100 * n100 + 4 * n4 + n1 + 1 := by omega
  clear hY
  have q4 : (Y + 3) / 4 + 100 = 100 * n400 + 25 * n100 + n4 + 1 := by omega
  have q100 : (Y + 99) / 100 + 3 = 4 * n400 + n100 := by omega
  have q400 : (Y + 399) / 400 = n400 := by omega
  refine ⟨?_, ?_, ?_⟩
  · show daysSinceEpoch Y + d4 = n
    unfold daysSinceEpoch
    omega
  · show d4 < 365 + (if isLeap Y = true then 1 else 0)
    unfold isLeap
    split_ifs with h
    · omega
    · simp at h
      omega
  · show n < 3652425 → Y < 10000
    intro hn
    have : daysSinceEpoch Y + d4 = n := by
      unfold daysSinceEpoch
      omega
    unfold daysSinceEpoch at this
    omega

set_option maxRecDepth 100000 in
theorem monthDay_table : ∀ leap : Bool, ∀ yday < 366, yday < 365 + (if leap = true then 1 else 0) →
    (let md : Nat × Nat :=
      if leap = true ∧ yday = 59 then (2, 29)
      else
        if daysBefore ((if leap = true ∧ 59 < yday then yday - 1 else yday) / 31 + 1) ≤
            (if leap = true ∧ 59 < yday then yday - 1 else yday) then
          ((if leap = true ∧ 59 < yday then yday - 1 else yday) / 31 + 2,
            (if leap = true ∧ 59 < yday then yday - 1 else yday) -
              daysBefore ((if leap = true ∧ 59 < yday then yday - 1 else yday) / 31 + 1) + 1)
        else
          ((if leap = true ∧ 59 < yday then yday - 1 else yday) / 31 + 1,
            (if leap = true ∧ 59 < yday then yday - 1 else yday) -
              daysBefore ((if leap = true ∧ 59 < yday then yday - 1 else yday) / 31) + 1)
     1 ≤ md.1 ∧ md.1 ≤ 12 ∧ 1 ≤ md.2 ∧
      md.2 ≤ (if md.1 = 2 ∧ leap = true then 29 else daysBefore md.1 - daysBefore (md.1 - 1)) ∧
      daysBefore (md.1 - 1) + (if leap = true ∧ 3 ≤ md.1 then 1 else 0) + (md.2 - 1) = yday) := by
  decide

/-- Month and day of `monthDay` are a valid date of the year and lead back to the day of
the year. -/
theorem monthDay_spec (year yday : Nat)
    (h : yday < 365 + (if isLeap year = true then 1 else 0)) :
    1 ≤ (monthDay year yday).1 ∧ (monthDay year yday).1 ≤ 12 ∧
      1 ≤ (monthDay year yday).2 ∧
      (monthDay year yday).2 ≤ daysIn (monthDay year yday).1 year ∧
      daysBefore ((monthDay year yday).1 - 1) +
        (if isLeap year = true ∧ 3 ≤ (monthDay year yday).1 then 1 else 0) +
        ((monthDay year yday).2 - 1) = yday := by
  have hlt : yday < 366 := by
    split_ifs at h <;> omega
  exact monthDay_table (isLeap year) yday hlt h

theorem parseUintFrom_appendInt (n : Nat) : ∀ (w x : Nat) (rest : GoString),
    parseUintFrom x (appendInt n w ++ rest) = parseUintFrom (x * 10 ^ w + n % 10 ^ w) rest
  | 0, x, rest => by simp [appendInt, Nat.mod_one]
  | w + 1, x, rest => by
    have hd : isDigit (48 + n / 10 ^ w % 10) = true := by
      have := Nat.mod_lt (n / 10 ^ w) (by decide : 0 < 10)
      simp only [isDigit, Bool.and_eq_true, decide_eq_true_eq]
      omega
    have hsub : x * 10 + (48 + n / 10 ^ w % 10) - 48 = x * 10 + n / 10 ^ w % 10 := by omega
    rw [appendInt, List.cons_append, parseUintFrom, if_pos hd, hsub,
      parseUintFrom_appendInt n w, Nat.mod_pow_succ]
    congr 1
    ring

theorem parseUint_appendInt (n w lo hi : Nat) (hn : n < 10 ^ w) (hlo : lo ≤ n) (hhi : n ≤ hi) :
    parseUint (appendInt n w) lo hi = some n := by
  have h := parseUintFrom_appendInt n w 0 []
  rw [List.append_nil] at h
  rw [parseUint, h]
  simp only [parseUintFrom, Nat.zero_mul, Nat.zero_add, Nat.mod_eq_of_lt hn]
  rw [if_neg (by omega)]

theorem parseUintFrom_append : ∀ (l r : GoString) (x : Nat),
    parseUintFrom x (l ++ r) = (parseUintFrom x l).bind fun y => parseUintFrom y r
  | [], r, x => by simp [parseUintFrom]
  | c :: l, r, x => by
    rw [List.cons_append, parseUintFrom, parseUintFrom]
    split_ifs
    · exact parseUintFrom_append l r _
    · rfl

theorem parseUintFrom_zeros : ∀ (k x : Nat),
    parseUintFrom x (List.replicate k 48) = some (x * 10 ^ k)
  | 0, x => by simp [parseUintFrom]
  | k + 1, x => by
    rw [List.replicate_succ, parseUintFrom, if_pos (by decide), parseUintFrom_zeros k]
    congr 1
    rw [Nat.add_sub_cancel, pow_succ]
    ring

theorem rdropWhile_zeros (l : GoString) :
    ∃ k, l = l.rdropWhile (fun c => c == 48) ++ List.replicate k 48 := by
  induction l using List.reverseRecOn with
  | nil => exact ⟨0, rfl⟩
  | append_singleton l a ih =>
    rw [List.rdropWhile_concat]
    by_cases ha : a = 48
    · obtain ⟨k, hk⟩ := ih
      refine ⟨k + 1, ?_⟩
      subst ha
      simp only [beq_self_eq_true, if_true]
      rw [List.replicate_succ', ← List.append_assoc, ← hk]
    · refine ⟨0, ?_⟩
      simp [ha]

theorem isDigit_appendInt (n : Nat) : ∀ w, ∀ c ∈ appendInt n w, isDigit c = true
  | 0 => by simp [appendInt]
  | w + 1 => by
    intro c hc
    rw [appendInt, List.mem_cons] at hc
    rcases hc with hc | hc
    · have := Nat.mod_lt (n / 10 ^ w) (by decide : 0 < 10)
      simp only [isDigit, Bool.and_eq_true, decide_eq_true_eq]
      omega
    · exact isDigit_appendInt n w c hc

theorem length_appendInt (n : Nat) : ∀ w, (appendInt n w).length = w
  | 0 => rfl
  | w + 1 => by rw [appendInt, List.length_cons, length_appendInt n w]

theorem takeWhile_digits : ∀ (l : GoString) (z : Nat) (r : GoString),
    (∀ c ∈ l, isDigit c = true) → isDigit z = false →
    (l ++ z :: r).takeWhile isDigit = l ∧ (l ++ z :: r).dropWhile isDigit = z :: r
  | [], z, r, _, hz => by simp [List.takeWhile, List.dropWhile, hz]
  | c :: l, z, r, hl, hz => by
    have hc := hl c (List.mem_cons_self _ _)
    have ih := takeWhile_digits l z r (fun c' hc' => hl c' (List.mem_cons_of_mem _ hc')) hz
    simp [List.takeWhile, List.dropWhile, hc, ih.1, ih.2]

/-- The fraction that `appendNano` writes is read back as the same nanoseconds, up
to the zone that follows it. -/
theorem parseFraction_appendNano (n : Nat) (hn : n < 10 ^ 9) (rest : GoString) :
    parseFraction (appendNano n ++ 90 :: rest) = (n, 90 :: rest) := by
  unfold appendNano
  by_cases h0 : n = 0
  · subst h0
    rfl
  · rw [if_neg h0]
    obtain ⟨k, hk⟩ := rdropWhile_zeros (appendInt n 9)
    generalize hT : (appendInt n 9).rdropWhile (fun c => c == 48) = T at hk
    have hdig : ∀ c ∈ T, isDigit c = true := fun c hc =>
      isDigit_appendInt n 9 c (by rw [hk]; exact List.mem_append_left _ hc)
    have hlen : T.length + k = 9 := by
      have := congrArg List.length hk
      rw [length_appendInt, List.length_append, List.length_replicate] at this
      exact this.symm
    have hval := parseUintFrom_appendInt n 9 0 []
    rw [List.append_nil, hk, parseUintFrom_append] at hval
    simp only [parseUintFrom, Nat.zero_mul, Nat.zero_add, Nat.mod_eq_of_lt hn] at hval
    cases hv : parseUintFrom 0 T with
    | none => rw [hv] at hval; simp at hval
    | some v =>
      rw [hv, Option.some_bind, parseUintFrom_zeros] at hval
      have hvk : v * 10 ^ k = n := Option.some.inj hval
      cases T with
      | nil =>
        simp only [parseUintFrom] at hv
        have : v = 0 := (Option.some.inj hv).symm
        subst this
        omega
      | cons c T' =>
        have hc := hdig c (List.mem_cons_self _ _)
        have htd := takeWhile_digits (c :: T') 90 rest hdig (by decide)
        rw [List.cons_append] at htd
        have htake : (c :: T').take 9 = c :: T' := List.take_of_length_le (by omega)
        have hk9 : 9 - (c :: T').length = k := by omega
        simp only [List.cons_append, parseFraction, hc, if_true, htd.1, htd.2, htake, hv,
          Option.getD_some, hk9, hvk]

/-- The reader on a text written field by field: the instant of the fields. -/
theorem parseRFC3339_fields (year month day hour min sec nsec : Nat)
    (hyear : year < 10000) (hmonth : 1 ≤ month ∧ month ≤ 12)
    (hday : 1 ≤ day ∧ day ≤ daysIn month year) (hhour : hour < 24) (hmin : min < 60)
    (hsec : sec < 60) (hnsec : nsec < 10 ^ 9) :
    parseRFC3339 (appendInt year 4 ++ 45 :: appendInt month 2 ++ 45 :: appendInt day 2 ++
        84 :: appendInt hour 2 ++ 58 :: appendInt min 2 ++
        58 :: appendInt sec 2 ++ appendNano nsec ++ [90]) =
      some (Date year month day hour min sec * 1000000000 + (nsec : Nat)) := by
  have hdim : daysIn month year ≤ 31 := by
    unfold daysIn
    obtain ⟨h1, h12⟩ := hmonth
    interval_cases month <;> simp [daysBefore]
    split_ifs <;> omega
  have pY := parseUint_appendInt year 4 0 9999 (by omega) (by omega) (by omega)
  have pM := parseUint_appendInt month 2 1 12 (by omega) hmonth.1 hmonth.2
  have pD := parseUint_appendInt day 2 1 (daysIn month year) (by omega) hday.1 hday.2
  have ph := parseUint_appendInt hour 2 0 23 (by omega) (by omega) (by omega)
  have pm := parseUint_appendInt min 2 0 59 (by omega) (by omega) (by omega)
  have ps := parseUint_appendInt sec 2 0 59 (by omega) (by omega) (by omega)
  obtain ⟨y1, y2, y3, y4, hY⟩ : ∃ a b c d, appendInt year 4 = [a, b, c, d] :=
    ⟨_, _, _, _, rfl⟩
  obtain ⟨m1, m2, hM⟩ : ∃ a b, appendInt month 2 = [a, b] := ⟨_, _, rfl⟩
  obtain ⟨d1, d2, hD⟩ : ∃ a b, appendInt day 2 = [a, b] := ⟨_, _, rfl⟩
  obtain ⟨h1, h2, hH⟩ : ∃ a b, appendInt hour 2 = [a, b] := ⟨_, _, rfl⟩
  obtain ⟨i1, i2, hI⟩ : ∃ a b, appendInt min 2 = [a, b] := ⟨_, _, rfl⟩
  obtain ⟨s1, s2, hS⟩ : ∃ a b, appendInt sec 2 = [a, b] := ⟨_, _, rfl⟩
  rw [hY] at pY
  rw [hM] at pM
  rw [hD] at pD
  rw [hH] at ph
  rw [hI] at pm
  rw [hS] at ps
  have hfrac := parseFraction_appendNano nsec hnsec []
  have hzone : parseZone [90] = some 0 := rfl
  rw [hY, hM, hD, hH, hI, hS]
  simp only [List.cons_append, List.nil_append, List.append_assoc]
  unfold parseRFC3339
  rw [if_neg (by simp)]
  simp only [List.take, List.drop, List.get?, pY, pM, pD, ph, pm, ps, hfrac, hzone, and_self,
    if_true, sub_zero]

/-- The text of an instant with a year within 0..9999 is produced, and it reads back
as the same instant, nanoseconds included. -/
theorem rfc3339_roundtrip (t : Int) (h : inYearRange t = true) :
    ∃ c, formatRFC3339 t = some c ∧ parseRFC3339 c = some t := by
  simp only [inYearRange, Bool.and_eq_true, decide_eq_true_eq] at h
  obtain ⟨hlo, hhi⟩ := h
  obtain ⟨n, hn⟩ : ∃ n : Nat, t / 1000000000 / 86400 + 719528 = (n : Int) :=
    ⟨(t / 1000000000 / 86400 + 719528).toNat, (Int.toNat_of_nonneg (by omega)).symm⟩
  obtain ⟨sod, hsod⟩ : ∃ sod : Nat, t / 1000000000 % 86400 = (sod : Int) :=
    ⟨(t / 1000000000 % 86400).toNat, (Int.toNat_of_nonneg (by omega)).symm⟩
  obtain ⟨nsec, hnsec⟩ : ∃ nsec : Nat, t % 1000000000 = (nsec : Int) :=
    ⟨(t % 1000000000).toNat, (Int.toNat_of_nonneg (by omega)).symm⟩
  have hn' : n < 3652425 := by omega
  have hsod' : sod < 86400 := by omega
  have hnsec' : nsec < 10 ^ 9 := by omega
  obtain ⟨habs, hyday, hyear⟩ := absDate_spec n
  have hyear' := hyear hn'
  obtain ⟨hm1, hm12, hd1, hdd, hmd⟩ := monthDay_spec _ _ hyday
  rcases hyd : absDate n with ⟨Y, yday⟩
  rw [hyd] at habs hyday hyear' hm1 hm12 hd1 hdd hmd
  rcases hmo : monthDay Y yday with ⟨mo, dd⟩
  simp only [hmo] at habs hyday hyear' hm1 hm12 hd1 hdd hmd
  have hf : formatRFC3339 t = some (appendInt Y 4 ++ 45 :: appendInt mo 2 ++
      45 :: appendInt dd 2 ++ 84 :: appendInt (sod / 3600) 2 ++
      58 :: appendInt (sod % 3600 / 60) 2 ++ 58 :: appendInt (sod % 60) 2 ++
      appendNano nsec ++ [90]) := by
    unfold formatRFC3339
    simp only [hn, hsod, hnsec, Int.toNat_ofNat, hyd, hmo]
    rw [if_neg (by omega), if_neg (by omega)]
  refine ⟨_, hf, ?_⟩
  rw [parseRFC3339_fields _ _ _ _ _ _ _ hyear' ⟨hm1, hm12⟩ ⟨hd1, hdd⟩ (by omega) (by omega)
    (by omega) hnsec']
  unfold Date
  simp only [hmd, habs]
  congr 1
  have e1 : sod / 3600 * 3600 + sod % 3600 / 60 * 60 + sod % 60 = sod := by omega
  rw [e1]
  omega

/-! ### The round trip through a document -/

theorem coerceFrom_of_valid :
    ∀ (s : GoString) (pending : Nat), validFrom pending s = true → coerceFrom pending s = s
  | [], _, _ => by cases ‹Nat› <;> rfl
  | b :: rest, pending + 1, h => by
    rw [validFrom] at h
    rw [coerceFrom, coerceFrom_of_valid rest pending h]
  | b :: rest, 0, h => by
    rw [validFrom] at h
    rw [coerceFrom]
    cases hn : utf8Size (b :: rest) with
    | zero => simp [hn] at h
    | succ n =>
      simp only [hn] at h ⊢
      rw [coerceFrom_of_valid rest n h]

theorem toValidUTF8_of_valid (s : GoString) (h : utf8Valid s = true) : toValidUTF8 s = s :=
  coerceFrom_of_valid s 0 h

theorem setFileInfoFields_marshal (f : FileInfo) (members : List (GoString × JSON))
    (h : marshalFileInfo f = JSON.object members) :
    setFileInfoFields zeroFileInfo members = Except.ok (coerceRecord f) := by
  unfold marshalFileInfo at h
  injection h with h
  subst h
  obtain ⟨path, size, mode, modTime, hash, uid, gid, isDir, isSymlink⟩ := f
  by_cases hh : hash = []
  · subst hh
    rfl
  · simp only [hh, if_false]
    rfl

theorem unmarshalFilePtr_marshal (v : Option FileInfo) :
    unmarshalFilePtr (marshalFilePtr v) = Except.ok (v.map coerceRecord) := by
  cases v with
  | none => rfl
  | some f =>
    simp only [marshalFilePtr, Option.map_some']
    cases hm : marshalFileInfo f with
    | object members =>
      simp only [unmarshalFilePtr, setFileInfoFields_marshal f members hm]
    | null => simp [marshalFileInfo] at hm
    | bool b => simp [marshalFileInfo] at hm
    | number n => simp [marshalFileInfo] at hm
    | string s => simp [marshalFileInfo] at hm

theorem unmarshalFiles_marshal :
    ∀ (l : List (Sigma fun _ : GoString => Option FileInfo)) (m : FileMap),
      unmarshalFiles m (l.map fun e => (toValidUTF8 e.1, marshalFilePtr e.2)) =
        Except.ok (l.foldl (fun m e => m.insert (toValidUTF8 e.1) (e.2.map coerceRecord)) m)
  | [], m => rfl
  | e :: rest, m => by
    simp only [List.map_cons, unmarshalFiles, unmarshalFilePtr_marshal, List.foldl_cons]
    exact unmarshalFiles_marshal rest _

theorem lookup_foldl_insert (k : GoString) :
    ∀ (l : List (Sigma fun _ : GoString => Option FileInfo)) (m : FileMap), l.NodupKeys →
      (l.foldl (fun m e => m.insert e.1 e.2) m).lookup k =
        (match l.dlookup k with
          | some v => some v
          | none => m.lookup k)
  | [], m, _ => by simp
  | ⟨k', v'⟩ :: rest, m, hnd => by
    rw [List.nodupKeys_cons] at hnd
    rw [List.foldl_cons, lookup_foldl_insert k rest _ hnd.2]
    by_cases hk : k = k'
    · subst hk
      have hnone : rest.dlookup k = none := List.dlookup_eq_none.2 hnd.1
      simp [hnone]
    · have hk' : k' ≠ k := fun h => hk h.symm
      simp [List.dlookup_cons_ne rest ⟨k', v'⟩ hk, AList.lookup_insert_ne hk]

theorem setBaselineField_files (tc : TimeCodec) (b : Baseline)
    (members : List (GoString × JSON)) :
    setBaselineField tc b (str "files") (JSON.object members) =
      (match unmarshalFiles b.Files members with
        | Except.error e => Except.error e
        | Except.ok m => Except.ok { b with Files := m, allocated := true }) := rfl

theorem setBaselineField_nil (tc : TimeCodec) (b : Baseline) :
    setBaselineField tc b (str "files") JSON.null =
      Except.ok { b with Files := ∅, allocated := false } := rfl

theorem setBaselineField_created (tc : TimeCodec) (b : Baseline) (c : GoString) :
    setBaselineField tc b (str "created_at") (JSON.string c) =
      (match tc.parse c with
        | some t => Except.ok { b with CreatedAt := t }
        | none => Except.error (Error.unmarshal "created_at")) := rfl

theorem setBaselineField_updated (tc : TimeCodec) (b : Baseline) (u : GoString) :
    setBaselineField tc b (str "updated_at") (JSON.string u) =
      (match tc.parse u with
        | some t => Except.ok { b with UpdatedAt := t }
        | none => Except.error (Error.unmarshal "updated_at")) := rfl

/-- The round trip of a snapshot through a document, given the texts of its two
instants and what they read back as. -/
theorem loadAfterSave_of_texts (tc : TimeCodec) (s : Baseline) (c u : GoString)
    (tc₁ tu₁ : Time)
    (hnil : s.allocated = false → s.Files = ∅)
    (hvalid : ∀ e ∈ s.Files.entries, utf8Valid e.1 = true ∧ validRecord e.2 = true)
    (hc : tc.format s.CreatedAt = some c) (hc' : tc.parse c = some tc₁)
    (hu : tc.format s.UpdatedAt = some u) (hu' : tc.parse u = some tu₁) :
    ∃ data s', Save tc s = Except.ok data ∧ Load tc data = Except.ok s' ∧
      (∀ k, s'.Files.lookup k = s.Files.lookup k) ∧
      s'.CreatedAt = tc₁ ∧ s'.UpdatedAt = tu₁ ∧ s'.allocated = s.allocated := by
  cases hal : s.allocated with
  | false =>
    have hempty := hnil hal
    refine ⟨JSON.object [(str "files", JSON.null), (str "created_at", JSON.string c),
        (str "updated_at", JSON.string u)],
      ⟨∅, tc₁, tu₁, false⟩, ?_, ?_, ?_, rfl, rfl, rfl⟩
    · simp [Save, Marshal, hc, hu, hal]
    · simp only [Load, Unmarshal, setBaselineFields, setBaselineField_nil,
        setBaselineField_created, setBaselineField_updated, hc', hu']
    · intro k
      rw [hempty]
  | true =>
    have hperm := List.perm_insertionSort
      (fun a b : Sigma fun _ : GoString => Option FileInfo => a.1 ≤ b.1) s.Files.entries
    have hnd : (s.Files.entries.insertionSort fun a b => a.1 ≤ b.1).NodupKeys :=
      (List.perm_nodupKeys hperm).2 s.Files.nodupKeys
    have hsame : ∀ e ∈ s.Files.entries.insertionSort (fun a b => a.1 ≤ b.1),
        toValidUTF8 e.1 = e.1 ∧ e.2.map coerceRecord = e.2 := by
      rintro ⟨k, v⟩ he
      obtain ⟨hk, hv⟩ := hvalid ⟨k, v⟩ (hperm.subset he)
      refine ⟨toValidUTF8_of_valid k hk, ?_⟩
      cases v with
      | none => rfl
      | some r =>
        simp only [validRecord, Bool.and_eq_true] at hv
        simp [coerceRecord, toValidUTF8_of_valid _ hv.1, toValidUTF8_of_valid _ hv.2]
    have hfold : ∀ (l : List (Sigma fun _ : GoString => Option FileInfo)) (m : FileMap),
        (∀ e ∈ l, toValidUTF8 e.1 = e.1 ∧ e.2.map coerceRecord = e.2) →
        l.foldl (fun m e => m.insert (toValidUTF8 e.1) (e.2.map coerceRecord)) m =
          l.foldl (fun m e => m.insert e.1 e.2) m := by
      intro l
      induction l with
      | nil => intro m _; rfl
      | cons e rest ih =>
        intro m hl
        obtain ⟨h1, h2⟩ := hl e (List.mem_cons_self _ _)
        rw [List.foldl_cons, List.foldl_cons, h1, h2]
        exact ih _ fun e' he' => hl e' (List.mem_cons_of_mem _ he')
    refine ⟨JSON.object [(str "files", marshalFiles s.Files),
        (str "created_at", JSON.string c), (str "updated_at", JSON.string u)],
      ⟨(s.Files.entries.insertionSort fun a b => a.1 ≤ b.1).foldl
        (fun m e => m.insert e.1 e.2) ∅, tc₁, tu₁, true⟩, ?_, ?_, ?_, rfl, rfl, rfl⟩
    · simp [Save, Marshal, hc, hu, hal]
    · simp only [Load, Unmarshal, setBaselineFields, marshalFiles, setBaselineField_files,
        setBaselineField_created, setBaselineField_updated, unmarshalFiles_marshal,
        hfold _ _ hsame, hc', hu', zeroBaseline]
    · intro k
      simp only
      rw [lookup_foldl_insert k _ ∅ hnd, List.perm_dlookup k hnd s.Files.nodupKeys hperm]
      have : s.Files.lookup k = s.Files.entries.dlookup k := rfl
      rw [this]
      cases s.Files.entries.dlookup k <;> simp

/-- C5, amended.  For every snapshot whose map keys, record paths and record hashes
are valid UTF-8 and whose two timestamps have a year within 0..9999, `Save` produces a
document and `Load` of that document succeeds with a snapshot whose `Files` agrees with
the original at every key (nil records and records with an empty `Hash` included),
whose map is nil exactly when the original map is, and whose `CreatedAt` and
`UpdatedAt` are the original instants to the nanosecond.  The text of an instant is
the one of `Time.MarshalJSON`, read by `Time.UnmarshalJSON`.  A snapshot with a nil map
holds no entries (`hnil`). -/
theorem C5_roundtrip_valid_utf8 (s : Baseline)
    (hnil : s.allocated = false → s.Files = ∅)
    (hvalid : ∀ e ∈ s.Files.entries, utf8Valid e.1 = true ∧ validRecord e.2 = true)
    (hcreated : inYearRange s.CreatedAt = true)
    (hupdated : inYearRange s.UpdatedAt = true) :
    ∃ data s', Save rfc3339 s = Except.ok data ∧ Load rfc3339 data = Except.ok s' ∧
      (∀ k, s'.Files.lookup k = s.Files.lookup k) ∧
      s'.CreatedAt = s.CreatedAt ∧ s'.UpdatedAt = s.UpdatedAt ∧
      s'.allocated = s.allocated := by
  obtain ⟨c, hc, hc'⟩ := rfc3339_roundtrip s.CreatedAt hcreated
  obtain ⟨u, hu, hu'⟩ := rfc3339_roundtrip s.UpdatedAt hupdated
  exact loadAfterSave_of_texts rfc3339 s c u s.CreatedAt s.UpdatedAt hnil hvalid hc hc' hu hu'

/-- C5 as amended, on a snapshot with the ASCII paths `/a` and `/b`, the second record
having an empty `Hash`, created at 22:13:20.123456789 UTC on November 14 of 2023 and
updated one nanosecond later. -/
theorem C5_roundtrip_valid_utf8_witness :
    ∃ data s',
      Save rfc3339 (stampedSnapshot 1700000000123456789 1700000000123456790) =
        Except.ok data ∧
      Load rfc3339 data = Except.ok s' ∧
      (∀ k, s'.Files.lookup k =
        (stampedSnapshot 1700000000123456789 1700000000123456790).Files.lookup k) ∧
      s'.CreatedAt = 1700000000123456789 ∧ s'.UpdatedAt = 1700000000123456790 ∧
      s'.allocated = true :=
  C5_roundtrip_valid_utf8 (stampedSnapshot 1700000000123456789 1700000000123456790)
    (by decide) (by decide) (by decide) (by decide)

/-- C5 as stated fails for a path that is not valid UTF-8 and for a timestamp whose
year is outside 0..9999.  The first snapshot holds one regular-file record under the
path `/a/` followed by the byte `0xFF`; `Save` succeeds and `Load` of the document
succeeds, both timestamps come back unchanged, but the loaded snapshot has no entry
under the original path: the entry is filed under `/a/` followed by the three bytes of
U+FFFD, and the `Path` of its record is changed too.  The other snapshots are created
at the first instant of year 10000 and at the last instant before year 0: `Save`
returns the error of `Time.MarshalJSON` and writes no document. -/
theorem C5_counterexample :
    utf8Valid latin1Path = false ∧
    (snapshotOf [regularRecord latin1Path (str "H1")]).Files.lookup latin1Path =
      some (some (regularRecord latin1Path (str "H1"))) ∧
    (∃ s', loadAfterSave rfc3339 (snapshotOf [regularRecord latin1Path (str "H1")]) =
        Except.ok s' ∧
      s'.CreatedAt = (snapshotOf [regularRecord latin1Path (str "H1")]).CreatedAt ∧
      s'.UpdatedAt = (snapshotOf [regularRecord latin1Path (str "H1")]).UpdatedAt ∧
      s'.Files.lookup latin1Path = none ∧
      s'.Files.lookup (str "/a/" ++ [0xEF, 0xBF, 0xBD]) =
        some (some (regularRecord (str "/a/" ++ [0xEF, 0xBF, 0xBD]) (str "H1")))) ∧
    inYearRange 253402300800000000000 = false ∧
    loadAfterSave rfc3339 (NewBaseline 253402300800000000000 253402300800000000000) =
      Except.error (Error.marshal "Time.MarshalJSON") ∧
    inYearRange (-62167219200000000001) = false ∧
    loadAfterSave rfc3339 (NewBaseline (-62167219200000000001) (-62167219200000000001)) =
      Except.error (Error.marshal "Time.MarshalJSON") :=
  ⟨by decide, by decide, ⟨_, rfl, by decide, by decide, by decide, by decide⟩,
    by decide, rfl, by decide, rfl⟩

/-! ### Entries of a tree -/

theorem mem_of_lookupEntry (p : GoString) (n : Node) :
    ∀ l : List (GoString × Node), lookupEntry p l = some n → (p, n) ∈ l
  | [], h => by simp [lookupEntry] at h
  | (q, m) :: rest, h => by
    rw [lookupEntry] at h
    split_ifs at h with hq
    · cases h
      subst hq
      exact List.mem_cons_self _ _
    · exact List.mem_cons_of_mem _ (mem_of_lookupEntry p n rest h)

theorem lookupEntry_of_mem (p : GoString) (n : Node) :
    ∀ l : List (GoString × Node), (l.map (·.1)).Nodup → (p, n) ∈ l → lookupEntry p l = some n
  | [], _, h => by simp at h
  | (q, m) :: rest, hnd, h => by
    rw [List.map_cons, List.nodup_cons] at hnd
    rw [lookupEntry]
    rcases List.mem_cons.1 h with h | h
    · cases h
      simp
    · have hq : q ≠ p := by
        intro hqp
        subst hqp
        exact hnd.1 (List.mem_map.2 ⟨(q, n), h, rfl⟩)
      simp only [hq, if_false]
      exact lookupEntry_of_mem p n rest hnd.2 h

theorem self_mem_entries (path : GoString) (n : Node) : (path, n) ∈ n.entries path := by
  cases n <;> simp [Node.entries]

mutual
theorem entries_sublist_of_mem (r : GoString) (m : Node) (path : GoString) :
    ∀ n : Node, (r, m) ∈ n.entries path → (m.entries r).Sublist (n.entries path)
  | Node.dir a readable children, h => by
    rw [Node.entries] at h
    rcases List.mem_cons.1 h with h | h
    · cases h
      exact List.Sublist.refl _
    · rw [Node.entries]
      exact List.Sublist.cons _ (entriesOfChildren_sublist_of_mem r m path children h)
  | Node.file a typ sum, h => by
    rw [Node.entries] at h
    rw [List.mem_singleton] at h
    cases h
    exact List.Sublist.refl _
  | Node.symlink a target, h => by
    rw [Node.entries] at h
    rw [List.mem_singleton] at h
    cases h
    exact List.Sublist.refl _
theorem entriesOfChildren_sublist_of_mem (r : GoString) (m : Node) (path : GoString) :
    ∀ l : List (GoString × Node), (r, m) ∈ entriesOfChildren path l →
      (m.entries r).Sublist (entriesOfChildren path l)
  | [], h => by simp [entriesOfChildren] at h
  | (name, child) :: rest, h => by
    rw [entriesOfChildren] at h ⊢
    rcases List.mem_append.1 h with h | h
    · exact (entries_sublist_of_mem r m (Join path name) child h).trans
        (List.sublist_append_left _ _)
    · exact (entriesOfChildren_sublist_of_mem r m path rest h).trans
        (List.sublist_append_right _ _)
end

mutual
theorem kept_pruned_perm (Match : GoString → GoString → Bool) (cfg : Config)
    (path : GoString) :
    ∀ n : Node, (keptEntries Match cfg path n ++ prunedEntries Match cfg path n).Perm
      (n.entries path)
  | Node.dir a readable children => by
    rw [keptEntries, prunedEntries]
    split_ifs
    · simp
    · rw [Node.entries, List.cons_append]
      exact List.Perm.cons _ (keptChildren_pruned_perm Match cfg path children)
  | Node.file a typ sum => by
    rw [keptEntries, prunedEntries, Node.entries]
    split_ifs <;> simp
  | Node.symlink a target => by
    rw [keptEntries, prunedEntries, Node.entries]
    split_ifs <;> simp
theorem keptChildren_pruned_perm (Match : GoString → GoString → Bool) (cfg : Config)
    (path : GoString) :
    ∀ l : List (GoString × Node),
      (keptChildren Match cfg path l ++ prunedChildren Match cfg path l).Perm
        (entriesOfChildren path l)
  | [] => by simp [keptChildren, prunedChildren, entriesOfChildren]
  | (name, child) :: rest => by
    rw [keptChildren, prunedChildren, entriesOfChildren]
    have h1 := kept_pruned_perm Match cfg (Join path name) child
    have h2 := keptChildren_pruned_perm Match cfg path rest
    calc (keptEntries Match cfg (Join path name) child ++ keptChildren Match cfg path rest ++
            (prunedEntries Match cfg (Join path name) child ++
              prunedChildren Match cfg path rest)).Perm
          ((keptEntries Match cfg (Join path name) child ++
              prunedEntries Match cfg (Join path name) child) ++
            (keptChildren Match cfg path rest ++ prunedChildren Match cfg path rest)) := by
            simp only [List.append_assoc]
            exact List.Perm.append_left _ (List.perm_append_comm_assoc _ _ _)
      _ |>.Perm (child.entries (Join path name) ++ entriesOfChildren path rest) :=
            List.Perm.append h1 h2
end

theorem kept_subset_entries (Match : GoString → GoString → Bool) (cfg : Config)
    (path : GoString) (n : Node) : keptEntries Match cfg path n ⊆ n.entries path :=
  fun _ he => (kept_pruned_perm Match cfg path n).subset (List.mem_append_left _ he)

theorem pruned_subset_entries (Match : GoString → GoString → Bool) (cfg : Config)
    (path : GoString) (n : Node) : prunedEntries Match cfg path n ⊆ n.entries path :=
  fun _ he => (kept_pruned_perm Match cfg path n).subset (List.mem_append_right _ he)

theorem keptChildren_subset_of_mem (Match : GoString → GoString → Bool) (cfg : Config)
    (path name : GoString) (node : Node) :
    ∀ l : List (GoString × Node), (name, node) ∈ l →
      keptEntries Match cfg (Join path name) node ⊆ keptChildren Match cfg path l
  | [], h => by simp at h
  | (name', child) :: rest, h => by
    rw [keptChildren]
    rcases List.mem_cons.1 h with h | h
    · cases h
      exact List.subset_append_left _ _
    · exact (keptChildren_subset_of_mem Match cfg path name node rest h).trans
        (List.subset_append_right _ _)

theorem prunedChildren_subset_of_mem (Match : GoString → GoString → Bool) (cfg : Config)
    (path name : GoString) (node : Node) :
    ∀ l : List (GoString × Node), (name, node) ∈ l →
      prunedEntries Match cfg (Join path name) node ⊆ prunedChildren Match cfg path l
  | [], h => by simp at h
  | (name', child) :: rest, h => by
    rw [prunedChildren]
    rcases List.mem_cons.1 h with h | h
    · cases h
      exact List.subset_append_left _ _
    · exact (prunedChildren_subset_of_mem Match cfg path name node rest h).trans
        (List.subset_append_right _ _)

theorem entriesOfChildren_subset_of_mem (path name : GoString) (node : Node) :
    ∀ l : List (GoString × Node), (name, node) ∈ l →
      node.entries (Join path name) ⊆ entriesOfChildren path l
  | [], h => by simp at h
  | (name', child) :: rest, h => by
    rw [entriesOfChildren]
    rcases List.mem_cons.1 h with h | h
    · cases h
      exact List.subset_append_left _ _
    · exact (entriesOfChildren_subset_of_mem path name node rest h).trans
        (List.subset_append_right _ _)

/-- What a walk reaches lies in the tree of its root, the kept entries below a reached
entry that is not excluded are kept by the walk, and so for the pruned ones. -/
theorem Reached.subsets {Match : GoString → GoString → Bool} {cfg : Config} {root : GoString}
    {rootNode : Node} {path : GoString} {node : Node}
    (h : Reached Match cfg root rootNode path node) :
    node.entries path ⊆ rootNode.entries root ∧
    keptEntries Match cfg path node ⊆ keptEntries Match cfg root rootNode ∧
    prunedEntries Match cfg path node ⊆ prunedEntries Match cfg root rootNode := by
  induction h with
  | root => exact ⟨List.Subset.refl _, List.Subset.refl _, List.Subset.refl _⟩
  | child path a readable children name node _ hex hmem ih =>
    obtain ⟨h1, h2, h3⟩ := ih
    refine ⟨?_, ?_, ?_⟩
    · refine List.Subset.trans ?_ h1
      rw [Node.entries]
      exact (entriesOfChildren_subset_of_mem path name node children hmem).trans
        (List.subset_cons_self _ _)
    · refine List.Subset.trans ?_ h2
      rw [keptEntries]
      simp only [hex, Bool.false_eq_true, if_false]
      exact (keptChildren_subset_of_mem Match cfg path name node children hmem).trans
        (List.subset_cons_self _ _)
    · refine List.Subset.trans ?_ h3
      rw [prunedEntries]
      simp only [hex, Bool.false_eq_true, if_false]
      exact prunedChildren_subset_of_mem Match cfg path name node children hmem

theorem self_mem_kept (Match : GoString → GoString → Bool) (cfg : Config) (path : GoString)
    (n : Node) (hex : IsExcluded Match cfg path = false) :
    (path, n) ∈ keptEntries Match cfg path n := by
  cases n <;> simp [keptEntries, hex]

theorem pruned_of_excluded (Match : GoString → GoString → Bool) (cfg : Config)
    (path : GoString) (n : Node) (hex : IsExcluded Match cfg path = true) :
    prunedEntries Match cfg path n = n.entries path := by
  cases n <;> simp [prunedEntries, Node.entries, hex]

/-! ### The walk of `ScanPaths` adds the records of the kept entries -/

theorem GetFileInfo_error_ne_SkipDir (fs : FS) (path : GoString) (e : Error)
    (h : GetFileInfo fs path = Except.error e) : e ≠ Error.SkipDir := by
  cases hf : fs.find path with
  | none =>
    rw [GetFileInfo_missing fs path hf] at h
    cases h
    simp
  | some n =>
    cases n with
    | file a typ sum =>
      cases sum with
      | none =>
        obtain ⟨e', he, hne⟩ := GetFileInfo_unreadable fs path a typ hf
        rw [he] at h
        cases h
        exact hne
      | some sum => rw [GetFileInfo_file fs path a typ sum hf] at h; cases h
    | symlink a target => rw [GetFileInfo_symlink fs path a target hf] at h; cases h
    | dir a readable children => rw [GetFileInfo_dir fs path a readable children hf] at h; cases h

theorem addRecords_append (clock : Nat → Time) (s : ScanState) (rs₁ rs₂ : List FileInfo) :
    addRecords clock s (rs₁ ++ rs₂) = addRecords clock (addRecords clock s rs₁) rs₂ := by
  simp [addRecords, List.foldl_append]

/-- One call of the callback of `ScanPaths` without an incoming error. -/
theorem scanWalkFunc_call (Match : GoString → GoString → Bool) (cfg : Config) (fs : FS)
    (clock : Nat → Time) (s : ScanState) (path : GoString) (info : OSFileInfo) :
    ((scanWalkFunc Match cfg fs clock s path (some info) none).2 = none →
      ∃ rs, (scanWalkFunc Match cfg fs clock s path (some info) none).1 = addRecords clock s rs ∧
        (if IsExcluded Match cfg path then [] else [GetFileInfo fs path]) =
          rs.map Except.ok) ∧
    ((scanWalkFunc Match cfg fs clock s path (some info) none).2 = some Error.SkipDir →
      info.IsDir = true ∧ (scanWalkFunc Match cfg fs clock s path (some info) none).1 = s ∧
        IsExcluded Match cfg path = true) ∧
    ((scanWalkFunc Match cfg fs clock s path (some info) none).2 = none →
      info.IsDir = true → IsExcluded Match cfg path = false) := by
  unfold scanWalkFunc
  cases hex : IsExcluded Match cfg path with
  | true =>
    cases hd : info.IsDir with
    | true => simp [hd]
    | false =>
      refine ⟨fun _ => ⟨[], ?_, ?_⟩, ?_, ?_⟩ <;> simp [hd, addRecords]
  | false =>
    cases hg : GetFileInfo fs path with
    | error e =>
      have hne := GetFileInfo_error_ne_SkipDir fs path e hg
      simp [hne]
    | ok r =>
      simp only [Bool.false_eq_true, if_false, true_and, and_true, implies_true,
        reduceCtorEq, false_implies, and_self, forall_const]
      exact ⟨[r], rfl, rfl⟩

mutual
theorem walk_scan (Match : GoString → GoString → Bool) (cfg : Config) (fs : FS)
    (clock : Nat → Time) (path : GoString) :
    ∀ (n : Node) (s : ScanState),
      ((walk (scanWalkFunc Match cfg fs clock) path n s).2 = none →
        ∃ rs, (walk (scanWalkFunc Match cfg fs clock) path n s).1 = addRecords clock s rs ∧
          (keptEntries Match cfg path n).map (fun e => GetFileInfo fs e.1) =
            rs.map Except.ok) ∧
      ((walk (scanWalkFunc Match cfg fs clock) path n s).2 = some Error.SkipDir →
        n.stat.IsDir = true ∧ (walk (scanWalkFunc Match cfg fs clock) path n s).1 = s ∧
          keptEntries Match cfg path n = [])
  | Node.dir a readable children, s => by
    have hcall := scanWalkFunc_call Match cfg fs clock s path
      (Node.dir a readable children).stat
    have hdir : (Node.dir a readable children).stat.IsDir = true :=
      Node.isDir_stat (Node.dir a readable children)
    rw [walk]
    cases readable with
    | false => simp [scanWalkFunc]
    | true =>
      simp only [if_true, Option.isSome_none, Bool.false_or]
      generalize hr : scanWalkFunc Match cfg fs clock s path
        (some (Node.dir a true children).stat) none = r at hcall ⊢
      obtain ⟨s₁, e₁⟩ := r
      cases e₁ with
      | some e =>
        simp only [Option.isSome_some, if_true, reduceCtorEq, false_implies, true_and]
        intro he
        obtain ⟨h1, h2, h3⟩ := hcall.2.1 he
        refine ⟨h1, h2, ?_⟩
        rw [keptEntries]
        simp [h3]
      | none =>
        simp only [Option.isSome_none, Bool.false_eq_true, if_false]
        obtain ⟨rs₀, h1, h2⟩ := hcall.1 rfl
        have hex := hcall.2.2 rfl hdir
        have hch := walkChildren_scan Match cfg fs clock path children s₁
        simp only [hex, Bool.false_eq_true, if_false] at h2
        refine ⟨?_, ?_⟩
        · intro hn
          obtain ⟨rs₁, h3, h4⟩ := hch.2 hn
          refine ⟨rs₀ ++ rs₁, ?_, ?_⟩
          · rw [addRecords_append, h3]
            simp only at h1
            rw [h1]
          · rw [keptEntries]
            simp only [hex, Bool.false_eq_true, if_false, List.map_cons, List.map_append]
            rw [h4, ← h2]
            rfl
        · intro hs
          exact absurd hs hch.1
  | Node.file a typ sum, s => by
    have hcall := scanWalkFunc_call Match cfg fs clock s path (Node.file a typ sum).stat
    rw [walk, keptEntries]
    refine ⟨?_, ?_⟩
    · intro hn
      obtain ⟨rs, h1, h2⟩ := hcall.1 hn
      refine ⟨rs, h1, ?_⟩
      rw [← h2]
      split_ifs <;> rfl
    · intro hs
      obtain ⟨h1, h2, h3⟩ := hcall.2.1 hs
      exact ⟨h1, h2, by simp [h3]⟩
  | Node.symlink a target, s => by
    have hcall := scanWalkFunc_call Match cfg fs clock s path (Node.symlink a target).stat
    rw [walk, keptEntries]
    refine ⟨?_, ?_⟩
    · intro hn
      obtain ⟨rs, h1, h2⟩ := hcall.1 hn
      refine ⟨rs, h1, ?_⟩
      rw [← h2]
      split_ifs <;> rfl
    · intro hs
      obtain ⟨h1, h2, h3⟩ := hcall.2.1 hs
      exact ⟨h1, h2, by simp [h3]⟩
theorem walkChildren_scan (Match : GoString → GoString → Bool) (cfg : Config) (fs : FS)
    (clock : Nat → Time) (path : GoString) :
    ∀ (l : List (GoString × Node)) (s : ScanState),
      (walkChildren (scanWalkFunc Match cfg fs clock) path l s).2 ≠ some Error.SkipDir ∧
      ((walkChildren (scanWalkFunc Match cfg fs clock) path l s).2 = none →
        ∃ rs, (walkChildren (scanWalkFunc Match cfg fs clock) path l s).1 =
            addRecords clock s rs ∧
          (keptChildren Match cfg path l).map (fun e => GetFileInfo fs e.1) =
            rs.map Except.ok)
  | [], s => by
    rw [walkChildren, keptChildren]
    exact ⟨by simp, fun _ => ⟨[], rfl, rfl⟩⟩
  | (name, child) :: rest, s => by
    have hw := walk_scan Match cfg fs clock (Join path name) child s
    rw [walkChildren, keptChildren]
    generalize hr : walk (scanWalkFunc Match cfg fs clock) (Join path name) child s = r
      at hw ⊢
    obtain ⟨s₁, e₁⟩ := r
    have hrest := walkChildren_scan Match cfg fs clock path rest s₁
    cases e₁ with
    | none =>
      simp only
      obtain ⟨rs₀, h1, h2⟩ := hw.1 rfl
      refine ⟨hrest.1, ?_⟩
      intro hn
      obtain ⟨rs₁, h3, h4⟩ := hrest.2 hn
      refine ⟨rs₀ ++ rs₁, ?_, ?_⟩
      · rw [addRecords_append, h3]
        simp only at h1
        rw [h1]
      · rw [List.map_append, List.map_append, h2, h4]
    | some e =>
      simp only
      by_cases hsk : e = Error.SkipDir
      · subst hsk
        obtain ⟨h1, h2, h3⟩ := hw.2 rfl
        simp only at h2
        subst h2
        simp only [h1, Bool.not_true, ne_eq, not_true_eq_false, decide_False, Bool.or_self,
          Bool.false_eq_true, if_false, h3, List.nil_append]
        exact hrest
      · simp [hsk]
end

theorem Walk_scan (Match : GoString → GoString → Bool) (cfg : Config) (fs : FS)
    (clock : Nat → Time) (root : GoString) (s s' : ScanState)
    (h : Walk fs root (scanWalkFunc Match cfg fs clock) s = (s', none)) :
    ∃ node rs, fs.find root = some node ∧ s' = addRecords clock s rs ∧
      (keptEntries Match cfg root node).map (fun e => GetFileInfo fs e.1) =
        rs.map Except.ok := by
  unfold Walk at h
  cases hf : fs.find root with
  | none => simp [hf, scanWalkFunc] at h
  | some node =>
    simp only [hf] at h
    have hw := walk_scan Match cfg fs clock root node s
    generalize hr : walk (scanWalkFunc Match cfg fs clock) root node s = r at hw h
    obtain ⟨s₁, e₁⟩ := r
    cases e₁ with
    | none =>
      simp only [reduceCtorEq, if_false, Prod.mk.injEq, and_true] at h
      subst h
      obtain ⟨rs, h1, h2⟩ := hw.1 rfl
      exact ⟨node, rs, rfl, h1, h2⟩
    | some e =>
      by_cases hsk : e = Error.SkipDir
      · subst hsk
        simp only [if_true, Prod.mk.injEq, and_true] at h
        subst h
        obtain ⟨-, h2, h3⟩ := hw.2 rfl
        refine ⟨node, [], rfl, ?_, ?_⟩
        · simpa [addRecords] using h2
        · simp [h3]
      · simp [hsk] at h

theorem scanRoots_scan (Match : GoString → GoString → Bool) (cfg : Config) (fs : FS)
    (clock : Nat → Time) :
    ∀ (paths : List GoString) (s s' : ScanState),
      scanRoots Match cfg fs clock paths s = Except.ok s' →
      (∃ rs, s' = addRecords clock s rs ∧
        (keptByRoots Match cfg fs (resolvedRoots fs paths)).map (fun e => GetFileInfo fs e.1) =
          rs.map Except.ok) ∧
      (∀ path ∈ paths, ∃ root rootNode, resolveRoot fs path = Except.ok root ∧
        fs.find root = some rootNode)
  | [], s, s', h => by
    simp only [scanRoots] at h
    cases h
    exact ⟨⟨[], rfl, rfl⟩, by simp⟩
  | path :: rest, s, s', h => by
    rw [scanRoots] at h
    cases hr : resolveRoot fs path with
    | error e => simp [hr] at h
    | ok realPath =>
      simp only [hr] at h
      cases hW : Walk fs realPath (scanWalkFunc Match cfg fs clock) s with
      | mk s₁ err =>
        rw [hW] at h
        cases err with
        | some e => simp at h
        | none =>
          simp only at h
          obtain ⟨node, rs₀, hf, h1, h2⟩ := Walk_scan Match cfg fs clock realPath s s₁ hW
          obtain ⟨⟨rs₁, h3, h4⟩, h5⟩ := scanRoots_scan Match cfg fs clock rest s₁ s' h
          refine ⟨⟨rs₀ ++ rs₁, ?_, ?_⟩, ?_⟩
          · rw [addRecords_append, ← h1, h3]
          · simp only [resolvedRoots, List.filterMap_cons, hr, keptByRoots, hf,
              List.map_append]
            rw [h2]
            simp only [resolvedRoots] at h4
            rw [h4]
          · intro p hp
            rcases List.mem_cons.1 hp with hp | hp
            · subst hp
              exact ⟨realPath, node, hr, hf⟩
            · exact h5 p hp

theorem mem_keptByRoots (Match : GoString → GoString → Bool) (cfg : Config) (fs : FS)
    (e : GoString × Node) :
    ∀ roots : List GoString, e ∈ keptByRoots Match cfg fs roots ↔
      ∃ root ∈ roots, ∃ node, fs.find root = some node ∧ e ∈ keptEntries Match cfg root node
  | [] => by simp [keptByRoots]
  | root :: rest => by
    rw [keptByRoots, List.mem_append, mem_keptByRoots Match cfg fs e rest]
    constructor
    · rintro (h | ⟨r, hr, node, hf, he⟩)
      · cases hf : fs.find root with
        | none => simp [hf] at h
        | some node =>
          simp only [hf] at h
          exact ⟨root, List.mem_cons_self _ _, node, hf, h⟩
      · exact ⟨r, List.mem_cons_of_mem _ hr, node, hf, he⟩
    · rintro ⟨r, hr, node, hf, he⟩
      rcases List.mem_cons.1 hr with hr | hr
      · subst hr
        left
        simpa [hf] using he
      · exact Or.inr ⟨r, hr, node, hf, he⟩

theorem mem_resolvedRoots (fs : FS) (paths : List GoString) (root : GoString) :
    root ∈ resolvedRoots fs paths ↔ ∃ path ∈ paths, resolveRoot fs path = Except.ok root := by
  simp only [resolvedRoots, List.mem_filterMap]
  constructor
  · rintro ⟨path, hp, h⟩
    cases hr : resolveRoot fs path with
    | error e => simp [hr] at h
    | ok realPath =>
      simp only [hr, Option.some.injEq] at h
      subst h
      exact ⟨path, hp, hr⟩
  · rintro ⟨path, hp, h⟩
    exact ⟨path, hp, by simp [h]⟩

/-! ### Lookups after a run of additions -/

theorem lookup_addRecords_absent (clock : Nat → Time) (k : GoString) :
    ∀ (rs : List FileInfo) (s : ScanState), (∀ r ∈ rs, r.Path ≠ k) →
      (addRecords clock s rs).1.Files.lookup k = s.1.Files.lookup k
  | [], s, _ => rfl
  | r :: rest, s, h => by
    have hr : k ≠ r.Path := fun hk => h r (List.mem_cons_self _ _) hk.symm
    have hrest := lookup_addRecords_absent clock k rest
      (AddFile s.1 r (clock s.2), s.2 + 1) (fun r' hr' => h r' (List.mem_cons_of_mem _ hr'))
    simp only [addRecords, List.foldl_cons] at hrest ⊢
    rw [hrest]
    simp [AddFile, AList.lookup_insert_ne hr]

theorem lookup_addRecords_present (clock : Nat → Time) (r : FileInfo) :
    ∀ (rs : List FileInfo) (s : ScanState), r ∈ rs →
      (∀ r' ∈ rs, r'.Path = r.Path → r' = r) →
      (addRecords clock s rs).1.Files.lookup r.Path = some (some r)
  | [], _, h, _ => by simp at h
  | r₀ :: rest, s, h, huniq => by
    by_cases hmem : r ∈ rest
    · have := lookup_addRecords_present clock r rest (AddFile s.1 r₀ (clock s.2), s.2 + 1) hmem
        (fun r' hr' => huniq r' (List.mem_cons_of_mem _ hr'))
      simpa only [addRecords, List.foldl_cons] using this
    · have h0 : r = r₀ := by
        rcases List.mem_cons.1 h with h | h
        · exact h
        · exact absurd h hmem
      subst h0
      have habs := lookup_addRecords_absent clock r.Path rest
        (AddFile s.1 r (clock s.2), s.2 + 1)
        (fun r' hr' hp => hmem (huniq r' (List.mem_cons_of_mem _ hr') hp ▸ hr'))
      simp only [addRecords, List.foldl_cons] at habs ⊢
      rw [habs]
      simp [AddFile]

theorem GetFileInfo_path (fs : FS) (p : GoString) (n : Node) (r : FileInfo)
    (hf : fs.find p = some n) (h : GetFileInfo fs p = Except.ok r) :
    r.Path = recordKey (p, n) := by
  cases n with
  | file a typ sum =>
    cases sum with
    | none =>
      obtain ⟨e, he, -⟩ := GetFileInfo_unreadable fs p a typ hf
      rw [he] at h; cases h
    | some sum =>
      rw [GetFileInfo_file fs p a typ sum hf] at h
      injection h with h
      subst h
      rfl
  | symlink a target =>
    rw [GetFileInfo_symlink fs p a target hf] at h
    injection h with h
    subst h
    cases target <;> rfl
  | dir a readable children =>
    rw [GetFileInfo_dir fs p a readable children hf] at h
    injection h with h
    subst h
    rfl

mutual
theorem reached_of_mem_kept (Match : GoString → GoString → Bool) (cfg : Config)
    (root : GoString) (rootNode : Node) (e : GoString × Node) :
    ∀ (n : Node) (path : GoString), Reached Match cfg root rootNode path n →
      e ∈ keptEntries Match cfg path n →
      Reached Match cfg root rootNode e.1 e.2 ∧ IsExcluded Match cfg e.1 = false
  | Node.dir a readable children, path, hr, he => by
    rw [keptEntries] at he
    cases hex : IsExcluded Match cfg path with
    | true => simp [hex] at he
    | false =>
      simp only [hex, Bool.false_eq_true, if_false] at he
      rcases List.mem_cons.1 he with he | he
      · subst he
        exact ⟨hr, hex⟩
      · exact reached_of_mem_keptChildren Match cfg root rootNode e children path
          (fun name node hmem => Reached.child path a readable children name node hr hex hmem)
          he
  | Node.file a typ sum, path, hr, he => by
    rw [keptEntries] at he
    cases hex : IsExcluded Match cfg path with
    | true => simp [hex] at he
    | false =>
      simp only [hex, Bool.false_eq_true, if_false, List.mem_singleton] at he
      subst he
      exact ⟨hr, hex⟩
  | Node.symlink a target, path, hr, he => by
    rw [keptEntries] at he
    cases hex : IsExcluded Match cfg path with
    | true => simp [hex] at he
    | false =>
      simp only [hex, Bool.false_eq_true, if_false, List.mem_singleton] at he
      subst he
      exact ⟨hr, hex⟩
theorem reached_of_mem_keptChildren (Match : GoString → GoString → Bool) (cfg : Config)
    (root : GoString) (rootNode : Node) (e : GoString × Node) :
    ∀ (l : List (GoString × Node)) (path : GoString),
      (∀ name node, (name, node) ∈ l → Reached Match cfg root rootNode (Join path name) node) →
      e ∈ keptChildren Match cfg path l →
      Reached Match cfg root rootNode e.1 e.2 ∧ IsExcluded Match cfg e.1 = false
  | [], path, _, he => by simp [keptChildren] at he
  | (name, child) :: rest, path, hr, he => by
    rw [keptChildren] at he
    rcases List.mem_append.1 he with he | he
    · exact reached_of_mem_kept Match cfg root rootNode e child (Join path name)
        (hr name child (List.mem_cons_self _ _)) he
    · exact reached_of_mem_keptChildren Match cfg root rootNode e rest path
        (fun name node hmem => hr name node (List.mem_cons_of_mem _ hmem)) he
end

/-- The entries kept by a walk are those it reaches that are not excluded. -/
theorem mem_kept_iff (Match : GoString → GoString → Bool) (cfg : Config)
    (root : GoString) (rootNode : Node) (e : GoString × Node) :
    e ∈ keptEntries Match cfg root rootNode ↔
      Reached Match cfg root rootNode e.1 e.2 ∧ IsExcluded Match cfg e.1 = false := by
  constructor
  · exact reached_of_mem_kept Match cfg root rootNode e rootNode root Reached.root
  · rintro ⟨hr, hex⟩
    exact hr.subsets.2.1 (self_mem_kept Match cfg e.1 e.2 hex)

/-- In a tree whose entries have distinct paths, no entry is both kept and pruned by
the walk of a root. -/
theorem kept_pruned_disjoint (Match : GoString → GoString → Bool) (cfg : Config) (fs : FS)
    (hnd : (fs.entries.map (·.1)).Nodup) (root : GoString) (rootNode : Node)
    (hf : fs.find root = some rootNode) (e : GoString × Node)
    (hk : e ∈ keptEntries Match cfg root rootNode)
    (hp : e ∈ prunedEntries Match cfg root rootNode) : False := by
  have hmem : (root, rootNode) ∈ fs.entries := mem_of_lookupEntry root rootNode _ hf
  have hsub : (rootNode.entries root).Sublist fs.entries :=
    entries_sublist_of_mem root rootNode fs.top fs.tree hmem
  have hnd' : (rootNode.entries root).Nodup := (List.Nodup.of_map _ hnd).sublist hsub
  have hnd'' := (kept_pruned_perm Match cfg root rootNode).nodup_iff.2 hnd'
  exact (List.disjoint_of_nodup_append hnd'') hk hp

/-- The records of a successful scan, in terms of kept entries. -/
theorem ScanPaths_records (Match : GoString → GoString → Bool) (cfg : Config) (fs : FS)
    (clock : Nat → Time) (b : Baseline) (hwf : fs.WellFormed)
    (hscan : ScanPaths Match cfg fs clock = Except.ok b) :
    (∀ e ∈ keptByRoots Match cfg fs (resolvedRoots fs cfg.Monitor.Paths),
      ∃ r, GetFileInfo fs e.1 = Except.ok r ∧ r.Path = recordKey e ∧
        b.Files.lookup (recordKey e) = some (some r)) ∧
    (∀ e ∈ fs.entries, e ∉ keptByRoots Match cfg fs (resolvedRoots fs cfg.Monitor.Paths) →
      b.Files.lookup (recordKey e) = none) ∧
    (∀ path ∈ cfg.Monitor.Paths, ∃ root rootNode, resolveRoot fs path = Except.ok root ∧
      fs.find root = some rootNode) := by
  unfold ScanPaths at hscan
  cases hs : scanRoots Match cfg fs clock cfg.Monitor.Paths
      (NewBaseline (clock 0) (clock 1), 2) with
  | error e => simp [hs] at hscan
  | ok s =>
    simp only [hs] at hscan
    cases hscan
    obtain ⟨⟨rs, h1, h2⟩, h3⟩ := scanRoots_scan Match cfg fs clock _ _ s hs
    have hkept : ∀ e ∈ keptByRoots Match cfg fs (resolvedRoots fs cfg.Monitor.Paths),
        e ∈ fs.entries := by
      intro e he
      obtain ⟨root, -, node, hf, hk⟩ := (mem_keptByRoots Match cfg fs e _).1 he
      have hmem : (root, node) ∈ fs.entries := mem_of_lookupEntry root node _ hf
      exact (entries_sublist_of_mem root node fs.top fs.tree hmem).subset
        (kept_subset_entries Match cfg root node hk)
    have hfind : ∀ e ∈ fs.entries, fs.find e.1 = some e.2 := fun e he =>
      lookupEntry_of_mem e.1 e.2 _ hwf.1 he
    have hrs : ∀ r ∈ rs, ∃ e ∈ keptByRoots Match cfg fs (resolvedRoots fs cfg.Monitor.Paths),
        GetFileInfo fs e.1 = Except.ok r ∧ r.Path = recordKey e := by
      intro r hr
      have : (Except.ok r : Except Error FileInfo) ∈ rs.map Except.ok :=
        List.mem_map.2 ⟨r, hr, rfl⟩
      rw [← h2] at this
      obtain ⟨e, he, hg⟩ := List.mem_map.1 this
      exact ⟨e, he, hg, GetFileInfo_path fs e.1 e.2 r (hfind e (hkept e he)) hg⟩
    refine ⟨?_, ?_, h3⟩
    · intro e he
      have : GetFileInfo fs e.1 ∈ rs.map (Except.ok : FileInfo → Except Error FileInfo) := by
        rw [← h2]
        exact List.mem_map.2 ⟨e, he, rfl⟩
      obtain ⟨r, hr, hg⟩ := List.mem_map.1 this
      have hpath := GetFileInfo_path fs e.1 e.2 r (hfind e (hkept e he)) hg.symm
      refine ⟨r, hg.symm, hpath, ?_⟩
      rw [h1, ← hpath]
      apply lookup_addRecords_present clock r rs _ hr
      intro r' hr' hp
      obtain ⟨e', he', hg', hpath'⟩ := hrs r' hr'
      have hee : e' = e :=
        List.inj_on_of_nodup_map hwf.2 (hkept e' he') (hkept e he)
          (by rw [← hpath', ← hpath, hp])
      subst hee
      rw [hg'] at hg
      injection hg with hg
      exact hg.symm
    · intro e he hne
      rw [h1, lookup_addRecords_absent clock (recordKey e) rs _ ?_]
      · simp [NewBaseline]
      · intro r hr hp
        obtain ⟨e', he', -, hpath'⟩ := hrs r hr
        have hee : e' = e :=
          List.inj_on_of_nodup_map hwf.2 (hkept e' he') he (by rw [← hpath', hp])
        subst hee
        exact hne he'

/-- C6, amended.  In a tree whose entries have distinct paths and distinct record keys,
for every list of roots and every exclusion list, when `ScanPaths` returns a snapshot:
every configured path resolves to a walk root; every entry that the walk of some root
reaches and that is not excluded (each non-excluded sibling of an excluded entry among
them) has its record, the one `GetFileInfo` returns for it, under its record key; an
entry of the tree that no walk reaches unexcluded has no record; and when a single root
is configured, an excluded entry reached by the walk has no record and, if it is a
directory, neither has any entry under it. -/
theorem C6_exclusion_pruning (Match : GoString → GoString → Bool) (cfg : Config) (fs : FS)
    (clock : Nat → Time) (b : Baseline) (hwf : fs.WellFormed)
    (hscan : ScanPaths Match cfg fs clock = Except.ok b) :
    (∀ path ∈ cfg.Monitor.Paths, ∃ root rootNode, resolveRoot fs path = Except.ok root ∧
      fs.find root = some rootNode) ∧
    (∀ path root rootNode p n, path ∈ cfg.Monitor.Paths →
      resolveRoot fs path = Except.ok root → fs.find root = some rootNode →
      Reached Match cfg root rootNode p n → IsExcluded Match cfg p = false →
      ∃ r, GetFileInfo fs p = Except.ok r ∧ r.Path = recordKey (p, n) ∧
        b.Files.lookup (recordKey (p, n)) = some (some r)) ∧
    (∀ e ∈ fs.entries,
      (∀ path root rootNode, path ∈ cfg.Monitor.Paths →
        resolveRoot fs path = Except.ok root → fs.find root = some rootNode →
        Reached Match cfg root rootNode e.1 e.2 → IsExcluded Match cfg e.1 = true) →
      b.Files.lookup (recordKey e) = none) ∧
    (∀ path root rootNode d dn e, cfg.Monitor.Paths = [path] →
      resolveRoot fs path = Except.ok root → fs.find root = some rootNode →
      Reached Match cfg root rootNode d dn → IsExcluded Match cfg d = true →
      e ∈ dn.entries d → b.Files.lookup (recordKey e) = none) := by
  obtain ⟨h1, h2, h3⟩ := ScanPaths_records Match cfg fs clock b hwf hscan
  have hnotkept : ∀ e,
      (∀ path root rootNode, path ∈ cfg.Monitor.Paths →
        resolveRoot fs path = Except.ok root → fs.find root = some rootNode →
        Reached Match cfg root rootNode e.1 e.2 → IsExcluded Match cfg e.1 = true) →
      e ∉ keptByRoots Match cfg fs (resolvedRoots fs cfg.Monitor.Paths) := by
    intro e hall he
    obtain ⟨root, hroot, node, hf, hk⟩ := (mem_keptByRoots Match cfg fs e _).1 he
    obtain ⟨path, hp, hr⟩ := (mem_resolvedRoots fs _ root).1 hroot
    obtain ⟨hre, hex⟩ := (mem_kept_iff Match cfg root node e).1 hk
    have := hall path root node hp hr hf hre
    rw [hex] at this
    cases this
  refine ⟨h3, ?_, ?_, ?_⟩
  · intro path root rootNode p n hp hr hf hre hex
    apply h1 (p, n)
    rw [mem_keptByRoots]
    exact ⟨root, (mem_resolvedRoots fs _ root).2 ⟨path, hp, hr⟩, rootNode, hf,
      (mem_kept_iff Match cfg root rootNode (p, n)).2 ⟨hre, hex⟩⟩
  · intro e he hall
    exact h2 e he (hnotkept e hall)
  · intro path root rootNode d dn e hpaths hr hf hre hex he
    have hpr : e ∈ prunedEntries Match cfg root rootNode := by
      apply hre.subsets.2.2
      rw [pruned_of_excluded Match cfg d dn hex]
      exact he
    have hmem : (root, rootNode) ∈ fs.entries := mem_of_lookupEntry root rootNode _ hf
    have hin : e ∈ fs.entries :=
      (entries_sublist_of_mem root rootNode fs.top fs.tree hmem).subset
        (pruned_subset_entries Match cfg root rootNode hpr)
    apply h2 e hin
    intro hk
    obtain ⟨root', hroot', node', hf', hk'⟩ := (mem_keptByRoots Match cfg fs e _).1 hk
    obtain ⟨path', hp', hr'⟩ := (mem_resolvedRoots fs _ root').1 hroot'
    rw [hpaths, List.mem_singleton] at hp'
    subst hp'
    rw [hr] at hr'
    injection hr' with hr'
    subst hr'
    rw [hf] at hf'
    injection hf' with hf'
    subst hf'
    exact kept_pruned_disjoint Match cfg fs hwf.1 root rootNode hf e hk' hpr

/-- C6 as amended, on the example tree scanned from the single root `/a` with `/a/x`
excluded: the sibling `/a/f` of the excluded directory has its record and the file
`/a/x/y` under it has none. -/
theorem C6_exclusion_pruning_witness :
    (∃ r, GetFileInfo exampleFS (str "/a/f") = Except.ok r ∧
      r.Path = recordKey (str "/a/f", exampleFile) ∧
      (scanResult (ScanPaths literalMatch (exampleConfig [str "/a"] [str "/a/x"]) exampleFS
        (fun n => (n : Int)))).Files.lookup (recordKey (str "/a/f", exampleFile)) =
          some (some r)) ∧
    (scanResult (ScanPaths literalMatch (exampleConfig [str "/a"] [str "/a/x"]) exampleFS
      (fun n => (n : Int)))).Files.lookup (recordKey (str "/a/x/y", exampleFile)) = none :=
  have h := C6_exclusion_pruning literalMatch (exampleConfig [str "/a"] [str "/a/x"]) exampleFS
    (fun n => (n : Int))
    (scanResult (ScanPaths literalMatch (exampleConfig [str "/a"] [str "/a/x"]) exampleFS
      (fun n => (n : Int))))
    ⟨by decide, by decide⟩ rfl
  ⟨h.2.1 (str "/a") (str "/a") exampleFS.tree (str "/a/f") exampleFile
      (List.mem_cons_self _ _) rfl rfl
      (Reached.child (str "/a") exampleAttrs true _ (str "f") exampleFile Reached.root
        (by decide) (List.mem_cons_self _ _))
      (by decide),
    h.2.2.2 (str "/a") (str "/a") exampleFS.tree (str "/a/x") exampleDirX
      (str "/a/x/y", exampleFile) rfl rfl rfl
      (Reached.child (str "/a") exampleAttrs true _ (str "x") exampleDirX Reached.root
        (by decide)
        (List.mem_cons_of_mem _ (List.mem_cons_of_mem _ (List.mem_cons_of_mem _
          (List.mem_cons_self _ _)))))
      (by decide)
      (List.mem_cons_of_mem _ (List.mem_cons_self _ _))⟩

/-- C6 as stated fails when a configured root lies inside an excluded directory: with
the roots `/a` and `/a/x/y` and the exclusion `/a/x` on the (well-formed) example tree,
the scan succeeds, the walk of `/a` reaches the directory `/a/x`, which is excluded, the
file `/a/x/y` is located under it, and the returned snapshot holds the record of
`/a/x/y`. -/
theorem C6_counterexample :
    exampleFS.WellFormed ∧
    Reached literalMatch (exampleConfig [str "/a", str "/a/x/y"] [str "/a/x"]) (str "/a")
      exampleFS.tree (str "/a/x") exampleDirX ∧
    IsExcluded literalMatch (exampleConfig [str "/a", str "/a/x/y"] [str "/a/x"])
      (str "/a/x") = true ∧
    exampleDirX.stat.IsDir = true ∧
    (str "/a/x/y", exampleFile) ∈ exampleDirX.entries (str "/a/x") ∧
    ∃ b, ScanPaths literalMatch (exampleConfig [str "/a", str "/a/x/y"] [str "/a/x"])
        exampleFS (fun n => (n : Int)) = Except.ok b ∧
      b.Files.lookup (str "/a/x/y") =
        some (some (regularRecord (str "/a/x/y") (hexEncode exampleSum.bytes))) :=
  ⟨⟨by decide, by decide⟩,
    Reached.child (str "/a") exampleAttrs true _ (str "x") exampleDirX Reached.root
      (by decide)
      (List.mem_cons_of_mem _ (List.mem_cons_of_mem _ (List.mem_cons_of_mem _
        (List.mem_cons_self _ _)))),
    by decide, by decide, List.mem_cons_of_mem _ (List.mem_cons_self _ _),
    _, rfl, by decide⟩

/-! ### The invariant of snapshots -/

theorem KeyIsPath_NewBaseline (t₁ t₂ : Time) : KeyIsPath (NewBaseline t₁ t₂) := by
  intro k v h
  simp [NewBaseline] at h

theorem KeyIsPath_AddFile (b : Baseline) (info : FileInfo) (now : Time) (hb : KeyIsPath b) :
    KeyIsPath (AddFile b info now) := by
  intro k v h
  by_cases hk : k = info.Path
  · subst hk
    simp only [AddFile, AList.lookup_insert] at h
    exact ⟨info, (Option.some.inj h).symm, rfl⟩
  · simp only [AddFile, AList.lookup_insert_ne hk] at h
    exact hb k v h

theorem KeyIsPath_RemoveFile (b : Baseline) (path : GoString) (now : Time) (hb : KeyIsPath b) :
    KeyIsPath (RemoveFile b path now) := by
  intro k v h
  by_cases hk : k = path
  · subst hk
    simp [RemoveFile] at h
  · simp only [RemoveFile, AList.lookup_erase_ne hk] at h
    exact hb k v h

theorem KeyIsPath_applyOps (ops : List Op) (b : Baseline) (hb : KeyIsPath b) :
    KeyIsPath (applyOps b ops) := by
  induction ops generalizing b with
  | nil => simpa [applyOps] using hb
  | cons op ops ih =>
    have hstep : KeyIsPath (applyOp b op) := by
      cases op with
      | add info now => exact KeyIsPath_AddFile b info now hb
      | remove path now => exact KeyIsPath_RemoveFile b path now hb
    simpa [applyOps] using ih (applyOp b op) hstep

/-! ### Invariants along a walk -/

mutual
theorem walk_preserves {σ : Type} (P : σ → Prop) (fn : WalkFunc σ)
    (hfn : ∀ s p i e, P s → P (fn s p i e).1) (path : GoString) :
    ∀ (n : Node) (s : σ), P s → P (walk fn path n s).1
  | Node.dir a readable children, s, hs => by
    rw [walk]
    split_ifs <;>
      first
      | exact hfn _ _ _ _ hs
      | exact walkChildren_preserves P fn hfn path children _ (hfn _ _ _ _ hs)
  | Node.file a typ sum, s, hs => by
    rw [walk]
    exact hfn _ _ _ _ hs
  | Node.symlink a target, s, hs => by
    rw [walk]
    exact hfn _ _ _ _ hs
theorem walkChildren_preserves {σ : Type} (P : σ → Prop) (fn : WalkFunc σ)
    (hfn : ∀ s p i e, P s → P (fn s p i e).1) (path : GoString) :
    ∀ (l : List (GoString × Node)) (s : σ), P s → P (walkChildren fn path l s).1
  | [], s, hs => by
    rw [walkChildren]
    exact hs
  | (name, child) :: rest, s, hs => by
    rw [walkChildren]
    have hc := walk_preserves P fn hfn (Join path name) child s hs
    split
    · split
      · exact hc
      · exact walkChildren_preserves P fn hfn path rest _ hc
    · exact walkChildren_preserves P fn hfn path rest _ hc
end

theorem Walk_preserves {σ : Type} (P : σ → Prop) (fn : WalkFunc σ)
    (hfn : ∀ s p i e, P s → P (fn s p i e).1) (fs : FS) (root : GoString) (s : σ) (hs : P s) :
    P (Walk fs root fn s).1 := by
  unfold Walk
  cases hf : fs.find root with
  | none =>
    simp only
    split
    · exact hfn _ _ _ _ hs
    · exact hfn _ _ _ _ hs
  | some node =>
    simp only
    split
    · exact walk_preserves P fn hfn root node s hs
    · exact walk_preserves P fn hfn root node s hs

theorem scanWalkFunc_preserves (Match : GoString → GoString → Bool) (cfg : Config) (fs : FS)
    (clock : Nat → Time) (s : ScanState) (p : GoString) (i : Option OSFileInfo)
    (e : Option Error) (hs : KeyIsPath s.1) :
    KeyIsPath (scanWalkFunc Match cfg fs clock s p i e).1.1 := by
  unfold scanWalkFunc
  cases e with
  | some e => exact hs
  | none =>
    simp only
    split
    · split <;> exact hs
    · split
      · exact hs
      · exact KeyIsPath_AddFile _ _ _ hs

theorem scanRoots_preserves (Match : GoString → GoString → Bool) (cfg : Config) (fs : FS)
    (clock : Nat → Time) (paths : List GoString) (s s' : ScanState) (hs : KeyIsPath s.1)
    (h : scanRoots Match cfg fs clock paths s = Except.ok s') : KeyIsPath s'.1 := by
  induction paths generalizing s with
  | nil =>
    simp only [scanRoots] at h
    cases h
    exact hs
  | cons path rest ih =>
    rw [scanRoots] at h
    cases hr : resolveRoot fs path with
    | error e => simp [hr] at h
    | ok realPath =>
      simp only [hr] at h
      have hw := Walk_preserves (fun s : ScanState => KeyIsPath s.1)
        (scanWalkFunc Match cfg fs clock)
        (fun s p i e hs => scanWalkFunc_preserves Match cfg fs clock s p i e hs)
        fs realPath s hs
      cases hW : Walk fs realPath (scanWalkFunc Match cfg fs clock) s with
      | mk s₁ err =>
        rw [hW] at h hw
        cases err with
        | some e => simp at h
        | none => exact ih s₁ hw h

/-- C9. In every snapshot built from `NewBaseline` by a sequence of `AddFile` and
`RemoveFile` calls, and in every snapshot that `ScanPaths` returns, each key of `Files`
holds a record (not nil) whose `Path` field is that key. -/
theorem C9_key_is_path :
    (∀ (t₁ t₂ : Time) (ops : List Op), KeyIsPath (applyOps (NewBaseline t₁ t₂) ops)) ∧
    (∀ (t₁ t₂ : Time) (ops : List Op) (k : GoString) (v : Option FileInfo),
      (applyOps (NewBaseline t₁ t₂) ops).Files.lookup k = some v →
        ∃ r, v = some r ∧ r.Path = k) ∧
    (∀ (Match : GoString → GoString → Bool) (cfg : Config) (fs : FS) (clock : Nat → Time)
      (b : Baseline), ScanPaths Match cfg fs clock = Except.ok b →
        ∀ k v, b.Files.lookup k = some v → ∃ r, v = some r ∧ r.Path = k) := by
  refine ⟨fun t₁ t₂ ops => KeyIsPath_applyOps ops _ (KeyIsPath_NewBaseline t₁ t₂),
    fun t₁ t₂ ops => KeyIsPath_applyOps ops _ (KeyIsPath_NewBaseline t₁ t₂), ?_⟩
  intro Match cfg fs clock b h
  unfold ScanPaths at h
  cases hs : scanRoots Match cfg fs clock cfg.Monitor.Paths
      (NewBaseline (clock 0) (clock 1), 2) with
  | error e => simp [hs] at h
  | ok s =>
    simp only [hs] at h
    cases h
    exact scanRoots_preserves Match cfg fs clock _ _ s (KeyIsPath_NewBaseline _ _) hs

/-! ### The map of a scan is allocated

`ScanPaths` calls `AddFile` on the snapshot that it made by `NewBaseline` and on what
earlier calls left of it: the map is allocated at every call, so that none panics. -/

theorem scanWalkFunc_allocated (Match : GoString → GoString → Bool) (cfg : Config) (fs : FS)
    (clock : Nat → Time) (s : ScanState) (p : GoString) (i : Option OSFileInfo)
    (e : Option Error) (hs : s.1.allocated = true) :
    (scanWalkFunc Match cfg fs clock s p i e).1.1.allocated = true := by
  unfold scanWalkFunc
  cases e with
  | some e => exact hs
  | none =>
    simp only
    split
    · split <;> exact hs
    · split
      · exact hs
      · exact hs

theorem scanRoots_allocated (Match : GoString → GoString → Bool) (cfg : Config) (fs : FS)
    (clock : Nat → Time) (paths : List GoString) (s s' : ScanState)
    (hs : s.1.allocated = true)
    (h : scanRoots Match cfg fs clock paths s = Except.ok s') : s'.1.allocated = true := by
  induction paths generalizing s with
  | nil =>
    simp only [scanRoots] at h
    cases h
    exact hs
  | cons path rest ih =>
    rw [scanRoots] at h
    cases hr : resolveRoot fs path with
    | error e => simp [hr] at h
    | ok realPath =>
      simp only [hr] at h
      have hw := Walk_preserves (fun s : ScanState => s.1.allocated = true)
        (scanWalkFunc Match cfg fs clock)
        (fun s p i e hs => scanWalkFunc_allocated Match cfg fs clock s p i e hs)
        fs realPath s hs
      cases hW : Walk fs realPath (scanWalkFunc Match cfg fs clock) s with
      | mk s₁ err =>
        rw [hW] at h hw
        cases err with
        | some e => simp at h
        | none => exact ih s₁ hw h

/-- The snapshot that `ScanPaths` returns has an allocated map, as has every snapshot
on which the scan called `AddFile`. -/
theorem ScanPaths_allocated (Match : GoString → GoString → Bool) (cfg : Config) (fs : FS)
    (clock : Nat → Time) (b : Baseline) (h : ScanPaths Match cfg fs clock = Except.ok b) :
    b.allocated = true := by
  unfold ScanPaths at h
  cases hs : scanRoots Match cfg fs clock cfg.Monitor.Paths
      (NewBaseline (clock 0) (clock 1), 2) with
  | error e => simp [hs] at h
  | ok s =>
    simp only [hs] at h
    cases h
    exact scanRoots_allocated Match cfg fs clock _ _ s rfl hs

/-! ### The walks of `ScanPaths` and of `scan` side by side -/

theorem scanWalkFunc_eq_visitFunc (Match : GoString → GoString → Bool) (cfg : Config) (fs : FS)
    (clock : Nat → Time) :
    scanWalkFunc Match cfg fs clock =
      visitFunc Match cfg fs (fun s _ fileInfo => (AddFile s.1 fileInfo (clock s.2), s.2 + 1)) :=
  rfl

theorem daemonWalkFunc_eq_visitFunc (Match : GoString → GoString → Bool) (cfg : Config)
    (fs : FS) (baseline : Baseline) :
    daemonWalkFunc Match cfg fs baseline = visitFunc Match cfg fs (logStep baseline) := by
  funext log path info err
  unfold daemonWalkFunc visitFunc
  cases err with
  | some e => rfl
  | none =>
    simp only
    split
    · rfl
    · cases hg : GetFileInfo fs path with
      | error e => rfl
      | ok currentInfo =>
        simp only [GetFile, logStep]
        cases hl : baseline.Files.lookup path with
        | none => rfl
        | some baselineInfo =>
          simp only
          split <;> rfl

/-- One call of two callbacks of the shared shape on related states: the same error,
and related states again. -/
theorem visitFunc_sim {σ τ : Type} (Match : GoString → GoString → Bool) (cfg : Config)
    (fs : FS) (step₁ : σ → GoString → FileInfo → σ) (step₂ : τ → GoString → FileInfo → τ)
    (R : σ → τ → Prop)
    (hR : ∀ s t p fi, GetFileInfo fs p = Except.ok fi → R s t → R (step₁ s p fi) (step₂ t p fi))
    (s : σ) (t : τ) (path : GoString) (info : Option OSFileInfo) (err : Option Error)
    (hst : R s t) :
    (visitFunc Match cfg fs step₁ s path info err).2 =
        (visitFunc Match cfg fs step₂ t path info err).2 ∧
      R (visitFunc Match cfg fs step₁ s path info err).1
        (visitFunc Match cfg fs step₂ t path info err).1 := by
  unfold visitFunc
  cases err with
  | some e => exact ⟨rfl, hst⟩
  | none =>
    simp only
    split
    · split
      · exact ⟨rfl, hst⟩
      · exact ⟨rfl, hst⟩
    · cases hg : GetFileInfo fs path with
      | error e => exact ⟨rfl, hst⟩
      | ok fi => exact ⟨rfl, hR s t path fi hg hst⟩

mutual
theorem walk_sim {σ τ : Type} (Match : GoString → GoString → Bool) (cfg : Config)
    (fs : FS) (step₁ : σ → GoString → FileInfo → σ) (step₂ : τ → GoString → FileInfo → τ)
    (R : σ → τ → Prop)
    (hR : ∀ s t p fi, GetFileInfo fs p = Except.ok fi → R s t → R (step₁ s p fi) (step₂ t p fi))
    (path : GoString) :
    ∀ (n : Node) (s : σ) (t : τ), R s t →
      (walk (visitFunc Match cfg fs step₁) path n s).2 =
          (walk (visitFunc Match cfg fs step₂) path n t).2 ∧
        R (walk (visitFunc Match cfg fs step₁) path n s).1
          (walk (visitFunc Match cfg fs step₂) path n t).1
  | Node.dir a readable children, s, t, hst => by
    rw [walk, walk]
    have hcall := visitFunc_sim Match cfg fs step₁ step₂ R hR s t path
      (some (Node.dir a readable children).stat)
      (if readable then none else some (Error.readDir path)) hst
    generalize visitFunc Match cfg fs step₁ s path (some (Node.dir a readable children).stat)
      (if readable = true then none else some (Error.readDir path)) = r₁ at hcall ⊢
    generalize visitFunc Match cfg fs step₂ t path (some (Node.dir a readable children).stat)
      (if readable = true then none else some (Error.readDir path)) = r₂ at hcall ⊢
    obtain ⟨h2, hr⟩ := hcall
    rw [h2]
    split_ifs <;>
      first
      | exact ⟨h2, hr⟩
      | exact walkChildren_sim Match cfg fs step₁ step₂ R hR path children r₁.1 r₂.1 hr
  | Node.file a typ sum, s, t, hst => by
    rw [walk, walk]
    exact visitFunc_sim Match cfg fs step₁ step₂ R hR s t path _ none hst
  | Node.symlink a target, s, t, hst => by
    rw [walk, walk]
    exact visitFunc_sim Match cfg fs step₁ step₂ R hR s t path _ none hst
theorem walkChildren_sim {σ τ : Type} (Match : GoString → GoString → Bool) (cfg : Config)
    (fs : FS) (step₁ : σ → GoString → FileInfo → σ) (step₂ : τ → GoString → FileInfo → τ)
    (R : σ → τ → Prop)
    (hR : ∀ s t p fi, GetFileInfo fs p = Except.ok fi → R s t → R (step₁ s p fi) (step₂ t p fi))
    (path : GoString) :
    ∀ (l : List (GoString × Node)) (s : σ) (t : τ), R s t →
      (walkChildren (visitFunc Match cfg fs step₁) path l s).2 =
          (walkChildren (visitFunc Match cfg fs step₂) path l t).2 ∧
        R (walkChildren (visitFunc Match cfg fs step₁) path l s).1
          (walkChildren (visitFunc Match cfg fs step₂) path l t).1
  | [], s, t, hst => by
    rw [walkChildren, walkChildren]
    exact ⟨rfl, hst⟩
  | (name, child) :: rest, s, t, hst => by
    rw [walkChildren, walkChildren]
    have hw := walk_sim Match cfg fs step₁ step₂ R hR (Join path name) child s t hst
    generalize walk (visitFunc Match cfg fs step₁) (Join path name) child s = r₁ at hw ⊢
    generalize walk (visitFunc Match cfg fs step₂) (Join path name) child t = r₂ at hw ⊢
    obtain ⟨s₁, e₁⟩ := r₁
    obtain ⟨t₁, e₂⟩ := r₂
    obtain ⟨h2, hr⟩ := hw
    simp only at h2 hr
    subst h2
    cases e₁ with
    | none => exact walkChildren_sim Match cfg fs step₁ step₂ R hR path rest s₁ t₁ hr
    | some e =>
      simp only
      split
      · exact ⟨rfl, hr⟩
      · exact walkChildren_sim Match cfg fs step₁ step₂ R hR path rest s₁ t₁ hr
end

theorem Walk_sim {σ τ : Type} (Match : GoString → GoString → Bool) (cfg : Config)
    (fs : FS) (step₁ : σ → GoString → FileInfo → σ) (step₂ : τ → GoString → FileInfo → τ)
    (R : σ → τ → Prop)
    (hR : ∀ s t p fi, GetFileInfo fs p = Except.ok fi → R s t → R (step₁ s p fi) (step₂ t p fi))
    (root : GoString) (s : σ) (t : τ) (hst : R s t) :
    (Walk fs root (visitFunc Match cfg fs step₁) s).2 =
        (Walk fs root (visitFunc Match cfg fs step₂) t).2 ∧
      R (Walk fs root (visitFunc Match cfg fs step₁) s).1
        (Walk fs root (visitFunc Match cfg fs step₂) t).1 := by
  unfold Walk
  cases hf : fs.find root with
  | none =>
    have hcall := visitFunc_sim Match cfg fs step₁ step₂ R hR s t root none
      (some (Error.lstat root)) hst
    simp only
    rw [hcall.1]
    split
    · exact ⟨rfl, hcall.2⟩
    · exact hcall
  | some node =>
    have hw := walk_sim Match cfg fs step₁ step₂ R hR root node s t hst
    simp only
    rw [hw.1]
    split
    · exact ⟨rfl, hw.2⟩
    · exact hw


/-! ### Trees without symlinks -/

theorem not_symlink_of_plain (fs : FS) (hplain : fs.plain = true) (p : GoString) (n : Node)
    (hf : fs.find p = some n) : ∀ a target, n ≠ Node.symlink a target := by
  intro a target hn
  subst hn
  have hmem : (p, Node.symlink a target) ∈ fs.entries := mem_of_lookupEntry p _ _ hf
  have := List.all_eq_true.1 hplain _ hmem
  simp at this

theorem GetFileInfo_plain (fs : FS) (hplain : fs.plain = true) (p : GoString) (fi : FileInfo)
    (h : GetFileInfo fs p = Except.ok fi) :
    fi.Path = p ∧ ∃ n, fs.find p = some n := by
  cases hf : fs.find p with
  | none => rw [GetFileInfo_missing fs p hf] at h; cases h
  | some n =>
    refine ⟨?_, n, rfl⟩
    rw [GetFileInfo_path fs p n fi hf h]
    cases n with
    | symlink a target => exact absurd rfl (not_symlink_of_plain fs hplain p _ hf a target)
    | file a typ sum => rfl
    | dir a readable children => rfl

theorem resolveRoot_plain (fs : FS) (hplain : fs.plain = true) (path : GoString) :
    resolveRoot fs path = Except.ok path := by
  unfold resolveRoot FS.Lstat
  cases hf : fs.find path with
  | none => rfl
  | some n =>
    simp only [Option.map_some', Node.isSymlink_stat]
    cases n with
    | symlink a target => exact absurd rfl (not_symlink_of_plain fs hplain path _ hf a target)
    | file a typ sum => rfl
    | dir a readable children => rfl

theorem Join_ne_nil (path name : GoString) : Join path name ≠ [] := by
  unfold Join
  intro h
  have := congrArg List.length h
  simp [str] at this

mutual
theorem entries_path_ne_nil (path : GoString) (hp : path ≠ []) :
    ∀ (n : Node) (e : GoString × Node), e ∈ n.entries path → e.1 ≠ []
  | Node.dir a readable children, e, he => by
    rw [Node.entries] at he
    rcases List.mem_cons.1 he with he | he
    · subst he; exact hp
    · exact entriesOfChildren_path_ne_nil path children e he
  | Node.file a typ sum, e, he => by
    rw [Node.entries, List.mem_singleton] at he
    subst he; exact hp
  | Node.symlink a target, e, he => by
    rw [Node.entries, List.mem_singleton] at he
    subst he; exact hp
theorem entriesOfChildren_path_ne_nil (path : GoString) :
    ∀ (l : List (GoString × Node)) (e : GoString × Node),
      e ∈ entriesOfChildren path l → e.1 ≠ []
  | [], e, he => by simp [entriesOfChildren] at he
  | (name, child) :: rest, e, he => by
    rw [entriesOfChildren] at he
    rcases List.mem_append.1 he with he | he
    · exact entries_path_ne_nil (Join path name) (Join_ne_nil path name) child e he
    · exact entriesOfChildren_path_ne_nil path rest e he
end

/-- In a tree without symlinks located at a non-empty path, `os.Stat` succeeds on the
path of every entry. -/
theorem Stat_of_find_plain (fs : FS) (hplain : fs.plain = true) (htop : fs.top ≠ [])
    (p : GoString) (n : Node) (hf : fs.find p = some n) : fs.Stat p = none := by
  have hmem : (p, n) ∈ fs.entries := mem_of_lookupEntry p n _ hf
  have hp : p ≠ [] := entries_path_ne_nil fs.top htop fs.tree (p, n) hmem
  unfold FS.Stat
  simp only [hp, if_false, hf]
  by_cases hroot : p = str "/" ∨ p = str "."
  · simp only [hroot, if_true]
  · simp only [hroot, if_false]
    cases n with
    | symlink a target => exact absurd rfl (not_symlink_of_plain fs hplain p _ hf a target)
    | file a typ sum => rfl
    | dir a readable children => rfl

/-! ### The relation between the two scans is kept by every visit -/

theorem ScanSim_step (fs : FS) (hplain : fs.plain = true) (baseline : Baseline)
    (clock : Nat → Time) (s : ScanState) (log : List LogLine) (p : GoString) (fi : FileInfo)
    (hg : GetFileInfo fs p = Except.ok fi) (h : ScanSim fs baseline s log) :
    ScanSim fs baseline (AddFile s.1 fi (clock s.2), s.2 + 1) (logStep baseline log p fi) := by
  obtain ⟨hinv, hnew, hmod, hdel⟩ := h
  have hpath : fi.Path = p := (GetFileInfo_plain fs hplain p fi hg).1
  have hlook : ∀ q, (AddFile s.1 fi (clock s.2)).Files.lookup q =
      if q = p then some (some fi) else s.1.Files.lookup q := by
    intro q
    by_cases hq : q = p
    · subst hq
      simp [AddFile, hpath]
    · have hq' : q ≠ fi.Path := by rw [hpath]; exact hq
      simp [AddFile, AList.lookup_insert_ne hq', hq]
  have hmemF : ∀ q, q ∈ (AddFile s.1 fi (clock s.2)).Files ↔ q = p ∨ q ∈ s.1.Files := by
    intro q
    simp [AddFile, AList.mem_insert, hpath]
  refine ⟨?_, ?_, ?_, ?_⟩
  · intro q y hy
    simp only at hy
    rw [hlook] at hy
    by_cases hq : q = p
    · subst hq
      simp only [if_true, Option.some.injEq] at hy
      exact ⟨fi, hy.symm, hg⟩
    · simp only [hq, if_false] at hy
      exact hinv q y hy
  · intro q
    simp only
    rw [hmemF]
    unfold logStep
    cases hb : baseline.Files.lookup p with
    | none =>
      simp only [List.mem_append, List.mem_singleton, LogLine.newFile.injEq]
      rw [hnew q]
      by_cases hq : q = p
      · subst hq; simp [hb]
      · simp [hq]
    | some x =>
      have hl : LogLine.newFile q ∈
          (if (!Equals x (some fi)) = true then log ++ [LogLine.modifiedFile p] else log) ↔
          LogLine.newFile q ∈ log := by
        split_ifs <;> simp
      simp only
      rw [hl, hnew q]
      by_cases hq : q = p
      · subst hq; simp [hb]
      · simp [hq]
  · intro q
    simp only
    unfold logStep
    by_cases hq : q = p
    · subst hq
      rw [hlook]
      simp only [if_true, Option.some.injEq]
      cases hb : baseline.Files.lookup q with
      | none =>
        simp only [List.mem_append, List.mem_singleton, reduceCtorEq, or_false]
        rw [hmod q]
        simp [hb]
      | some x =>
        simp only [Option.some.injEq]
        cases he : Equals x (some fi) with
        | true =>
          simp only [Bool.not_true, Bool.false_eq_true, if_false]
          rw [hmod q]
          constructor
          · rintro ⟨x', y, hx, hy, hxy⟩
            rw [hb] at hx
            cases hx
            obtain ⟨fi', hfi', hg'⟩ := hinv q y hy
            rw [hg] at hg'
            cases hg'
            subst hfi'
            rw [he] at hxy
            cases hxy
          · rintro ⟨x', y, hx, hy, hxy⟩
            subst hx hy
            rw [he] at hxy
            cases hxy
        | false =>
          simp only [Bool.not_false, if_true, List.mem_append, List.mem_singleton, or_true,
            true_iff]
          exact ⟨x, some fi, rfl, rfl, he⟩
    · rw [hlook]
      simp only [hq, if_false]
      have hl : LogLine.modifiedFile q ∈
          (match baseline.Files.lookup p with
            | none => log ++ [LogLine.newFile p]
            | some baselineInfo =>
              if (!Equals baselineInfo (some fi)) = true then
                log ++ [LogLine.modifiedFile p]
              else log) ↔ LogLine.modifiedFile q ∈ log := by
        cases baseline.Files.lookup p with
        | none => simp
        | some x =>
          simp only
          split_ifs
          · simp [hq]
          · rfl
      rw [hl, hmod q]
  · intro q
    unfold logStep
    cases baseline.Files.lookup p with
    | none => simpa using hdel q
    | some x =>
      simp only
      split_ifs
      · simpa using hdel q
      · exact hdel q

theorem scanRoots_sim (Match : GoString → GoString → Bool) (cfg : Config) (fs : FS)
    (clock : Nat → Time) (baseline : Baseline) (hplain : fs.plain = true) :
    ∀ (paths : List GoString) (s s' : ScanState) (log : List LogLine),
      ScanSim fs baseline s log →
      scanRoots Match cfg fs clock paths s = Except.ok s' →
      ∃ log', daemonScanRoots Match cfg fs baseline paths log = (log', none) ∧
        ScanSim fs baseline s' log'
  | [], s, s', log, hsim, h => by
    simp only [scanRoots] at h
    cases h
    exact ⟨log, rfl, hsim⟩
  | path :: rest, s, s', log, hsim, h => by
    rw [scanRoots, resolveRoot_plain fs hplain path] at h
    simp only at h
    rw [daemonScanRoots]
    have hw := Walk_sim Match cfg fs
      (fun (s : ScanState) _ fileInfo => (AddFile s.1 fileInfo (clock s.2), s.2 + 1))
      (logStep baseline) (ScanSim fs baseline)
      (fun s t p fi hg hst => ScanSim_step fs hplain baseline clock s t p fi hg hst)
      path s log hsim
    rw [← scanWalkFunc_eq_visitFunc, ← daemonWalkFunc_eq_visitFunc] at hw
    cases hW₁ : Walk fs path (scanWalkFunc Match cfg fs clock) s with
    | mk s₁ e₁ =>
      cases hW₂ : Walk fs path (daemonWalkFunc Match cfg fs baseline) log with
      | mk log₁ e₂ =>
        rw [hW₁] at h hw
        rw [hW₂] at hw
        obtain ⟨h2, hr⟩ := hw
        simp only at h2 hr
        subst h2
        cases e₁ with
        | some e => simp at h
        | none =>
          simp only at h ⊢
          exact scanRoots_sim Match cfg fs clock baseline hplain rest s₁ s' log₁ hr h

theorem mem_daemonDeletedLoop (fs : FS) (line : LogLine) :
    ∀ (l : List (Sigma fun _ : GoString => Option FileInfo)) (log : List LogLine),
      line ∈ l.foldl
          (fun log e =>
            if IsNotExist (fs.Stat e.1) then log ++ [LogLine.deletedFile e.1] else log) log ↔
        line ∈ log ∨ ∃ e ∈ l, IsNotExist (fs.Stat e.1) = true ∧ line = LogLine.deletedFile e.1
  | [], log => by simp
  | e :: rest, log => by
    rw [List.foldl_cons, mem_daemonDeletedLoop fs line rest]
    by_cases hs : IsNotExist (fs.Stat e.1) = true
    · simp only [hs, if_true, List.mem_append, List.mem_singleton, List.mem_cons,
        exists_eq_or_imp, true_and]
      tauto
    · simp only [hs, Bool.false_eq_true, if_false, List.mem_cons, exists_eq_or_imp,
        false_and, false_or]

/-- C11, amended.  For every baseline and every file tree without symlinks, located
at a non-empty path, on which `ScanPaths` returns the snapshot `fresh`: one daemon scan
returns no error; the paths it logs as new are exactly the keys behind the Added
sequence of `baseline.Compare(fresh)` and the paths it logs as modified exactly the
keys behind its Modified sequence; the paths it logs as deleted are exactly the keys of
the baseline that `os.Stat` reports as not existing, each of them is a key behind the
Deleted sequence, and a key behind the Deleted sequence is logged as deleted whenever
`os.Stat` reports it as not existing. -/
theorem C11_daemon_scan (Match : GoString → GoString → Bool) (cfg : Config) (fs : FS)
    (clock : Nat → Time) (baseline fresh : Baseline) (hplain : fs.plain = true)
    (htop : fs.top ≠ []) (hfresh : ScanPaths Match cfg fs clock = Except.ok fresh) :
    (scan Match cfg fs baseline).2 = none ∧
    (∀ p, LogLine.newFile p ∈ (scan Match cfg fs baseline).1 ↔
      p ∈ (addedEntries baseline fresh).map (·.1)) ∧
    (∀ p, LogLine.modifiedFile p ∈ (scan Match cfg fs baseline).1 ↔
      p ∈ (modifiedEntries baseline fresh).map (·.1)) ∧
    (∀ p, LogLine.deletedFile p ∈ (scan Match cfg fs baseline).1 ↔
      p ∈ baseline.Files ∧ IsNotExist (fs.Stat p) = true) ∧
    (∀ p, LogLine.deletedFile p ∈ (scan Match cfg fs baseline).1 →
      p ∈ (deletedEntries baseline fresh).map (·.1)) ∧
    (∀ p, p ∈ (deletedEntries baseline fresh).map (·.1) → IsNotExist (fs.Stat p) = true →
      LogLine.deletedFile p ∈ (scan Match cfg fs baseline).1) := by
  unfold ScanPaths at hfresh
  cases hs : scanRoots Match cfg fs clock cfg.Monitor.Paths
      (NewBaseline (clock 0) (clock 1), 2) with
  | error e => simp [hs] at hfresh
  | ok s =>
    simp only [hs] at hfresh
    cases hfresh
    have hinit : ScanSim fs baseline (NewBaseline (clock 0) (clock 1), 2) [] := by
      refine ⟨?_, ?_, ?_, ?_⟩
      · intro p y hy
        simp [NewBaseline] at hy
      · intro p
        simp [NewBaseline]
      · intro p
        simp [NewBaseline]
      · intro p
        simp
    obtain ⟨log, hlog, hinv, hnew, hmod, hdel⟩ :=
      scanRoots_sim Match cfg fs clock baseline hplain _ _ s [] hinit hs
    have hscan : scan Match cfg fs baseline = (daemonDeletedLoop fs baseline log, none) := by
      unfold scan
      rw [hlog]
    have hmemDel : ∀ p, LogLine.deletedFile p ∈ daemonDeletedLoop fs baseline log ↔
        p ∈ baseline.Files ∧ IsNotExist (fs.Stat p) = true := by
      intro p
      unfold daemonDeletedLoop
      rw [mem_daemonDeletedLoop]
      constructor
      · rintro (h | ⟨⟨k, v⟩, he, hst, hline⟩)
        · exact absurd h (hdel p)
        · cases hline
          exact ⟨(mem_iff_lookup _ _).2 ⟨v, (mem_entries_iff_lookup _ _ _).1 he⟩, hst⟩
      · rintro ⟨hp, hst⟩
        obtain ⟨v, hv⟩ := (mem_iff_lookup _ _).1 hp
        exact Or.inr ⟨⟨p, v⟩, (mem_entries_iff_lookup _ _ _).2 hv, hst, rfl⟩
    have hother : ∀ line, (∀ p, line ≠ LogLine.deletedFile p) →
        (line ∈ daemonDeletedLoop fs baseline log ↔ line ∈ log) := by
      intro line hline
      unfold daemonDeletedLoop
      rw [mem_daemonDeletedLoop]
      constructor
      · rintro (h | ⟨e, -, -, he⟩)
        · exact h
        · exact absurd he (hline e.1)
      · exact Or.inl
    have hfreshStat : ∀ p, p ∈ s.1.Files → fs.Stat p = none := by
      intro p hp
      obtain ⟨y, hy⟩ := (mem_iff_lookup _ _).1 hp
      obtain ⟨fi, -, hg⟩ := hinv p y hy
      obtain ⟨-, n, hn⟩ := GetFileInfo_plain fs hplain p fi hg
      exact Stat_of_find_plain fs hplain htop p n hn
    rw [hscan]
    refine ⟨rfl, ?_, ?_, hmemDel, ?_, ?_⟩
    · intro p
      simp only
      rw [hother _ (fun q => by simp), hnew p, mem_addedKeys, not_mem_iff_lookup]
    · intro p
      simp only
      rw [hother _ (fun q => by simp), hmod p, mem_modifiedKeys]
    · intro p hp
      simp only at hp
      obtain ⟨hb, hst⟩ := (hmemDel p).1 hp
      rw [mem_deletedKeys]
      refine ⟨hb, fun hf => ?_⟩
      rw [hfreshStat p hf] at hst
      simp [IsNotExist] at hst
    · intro p hp hst
      simp only
      rw [mem_deletedKeys] at hp
      exact (hmemDel p).2 ⟨hp.1, hst⟩

/-- C11 as amended, on the tree without symlinks seen from a baseline in which `/a/f`
had another content and `/a/gone` existed: the daemon scan returns no error and logs
as new, as modified and as deleted what `Compare` reports. -/
theorem C11_daemon_scan_witness :
    (scan literalMatch (exampleConfig [str "/a"] []) plainFS staleBaseline).2 = none ∧
    (∀ p, LogLine.newFile p ∈
        (scan literalMatch (exampleConfig [str "/a"] []) plainFS staleBaseline).1 ↔
      p ∈ (addedEntries staleBaseline plainBaseline).map (·.1)) ∧
    (∀ p, LogLine.modifiedFile p ∈
        (scan literalMatch (exampleConfig [str "/a"] []) plainFS staleBaseline).1 ↔
      p ∈ (modifiedEntries staleBaseline plainBaseline).map (·.1)) ∧
    (∀ p, LogLine.deletedFile p ∈
        (scan literalMatch (exampleConfig [str "/a"] []) plainFS staleBaseline).1 →
      p ∈ (deletedEntries staleBaseline plainBaseline).map (·.1)) :=
  have h := C11_daemon_scan literalMatch (exampleConfig [str "/a"] []) plainFS exampleClock
    staleBaseline plainBaseline (by decide) (by decide) rfl
  ⟨h.1, h.2.1, h.2.2.1, h.2.2.2.2.1⟩

/-- C11 as stated fails.  On the example tree with its symlinks, scanned and left
unchanged, `Compare` of the baseline with the fresh snapshot reports nothing, while the
daemon scan logs the symlink `/a/l` as new and the baseline keys `/a/m` (a dangling
symlink) and `/a/l -> /a/f` as deleted.  On the tree without symlinks, with the
exclusion `/a/x` added after the baseline was taken, `Compare` reports `/a/x/y` and
`/a/x` as deleted while the daemon scan, for which both still exist, logs nothing.  With
the symlink `/a/l` as the monitored root, `ScanPaths` records its target `/a/f`, and on
the unchanged tree `Compare` reports nothing while the daemon scan, which walks the
link itself, logs `/a/l` as new. -/
theorem C11_counterexample :
    (ScanPaths literalMatch (exampleConfig [str "/a"] []) exampleFS exampleClock =
        Except.ok symlinkBaseline ∧
      Compare symlinkBaseline symlinkBaseline = { Added := [], Modified := [], Deleted := [] } ∧
      scan literalMatch (exampleConfig [str "/a"] []) exampleFS symlinkBaseline =
        ([LogLine.newFile (str "/a/l"), LogLine.deletedFile (str "/a/m"),
          LogLine.deletedFile (str "/a/l -> /a/f")], none)) ∧
    (ScanPaths literalMatch (exampleConfig [str "/a"] [str "/a/x"]) plainFS exampleClock =
        Except.ok plainFreshExcluding ∧
      (Compare plainBaseline plainFreshExcluding).Deleted.map (Option.map FileInfo.Path) =
        [some (str "/a/x/y"), some (str "/a/x")] ∧
      plainFS.Stat (str "/a/x/y") = none ∧ plainFS.Stat (str "/a/x") = none ∧
      scan literalMatch (exampleConfig [str "/a"] [str "/a/x"]) plainFS plainBaseline =
        ([], none)) ∧
    (ScanPaths literalMatch (exampleConfig [str "/a/l"] []) exampleFS exampleClock =
        Except.ok rootLinkBaseline ∧
      rootLinkBaseline.Files.keys = [str "/a/f"] ∧
      Compare rootLinkBaseline rootLinkBaseline =
        { Added := [], Modified := [], Deleted := [] } ∧
      scan literalMatch (exampleConfig [str "/a/l"] []) exampleFS rootLinkBaseline =
        ([LogLine.newFile (str "/a/l")], none)) :=
  ⟨⟨rfl, by decide, by decide⟩, ⟨rfl, by decide, by decide, by decide, by decide⟩,
    rfl, by decide, by decide, by decide⟩

/-! ### `ValidateConfig` -/

theorem validatePaths_error (fs : FS) :
    ∀ l : List GoString, (validatePaths fs l).2.isSome = true ↔
      ∃ p ∈ l, IsNotExist (fs.Stat (TrimRight p (str "/"))) = true
  | [] => by simp [validatePaths]
  | path :: rest => by
    rw [validatePaths]
    by_cases h : IsNotExist (fs.Stat (TrimRight path (str "/"))) = true
    · simp only [h, if_true, Option.isSome_some, true_iff]
      exact ⟨path, List.mem_cons_self _ _, h⟩
    · simp only [h, Bool.false_eq_true, if_false]
      rw [validatePaths_error fs rest]
      constructor
      · rintro ⟨p, hp, hs⟩
        exact ⟨p, List.mem_cons_of_mem _ hp, hs⟩
      · rintro ⟨p, hp, hs⟩
        rcases List.mem_cons.1 hp with hp | hp
        · subst hp
          exact absurd hs h
        · exact ⟨p, hp, hs⟩

theorem ValidateConfig_error (fs : FS) (c : Config) :
    (ValidateConfig fs c).2.isSome = true ↔
      (c.Monitor.Paths = [] ∨
        (∃ p ∈ c.Monitor.Paths, IsNotExist (fs.Stat (TrimRight p (str "/"))) = true) ∨
        (c.Logging.LogFile ≠ [] ∧ IsNotExist (fs.Stat (Dir c.Logging.LogFile)) = true)) := by
  unfold ValidateConfig
  by_cases h0 : c.Monitor.Paths = []
  · simp [h0]
  · have hlen : ¬ c.Monitor.Paths.length = 0 := fun h => h0 (List.length_eq_zero.1 h)
    simp only [hlen, if_false, h0, false_or]
    have hp := validatePaths_error fs c.Monitor.Paths
    cases hr : (validatePaths fs c.Monitor.Paths).2 with
    | some e =>
      rw [hr] at hp
      simp only [Option.isSome_some, true_iff] at hp ⊢
      exact Or.inl hp
    | none =>
      rw [hr] at hp
      have hnone : ¬ ∃ p ∈ c.Monitor.Paths,
          IsNotExist (fs.Stat (TrimRight p (str "/"))) = true := by
        intro hex
        have := hp.2 hex
        simp at this
      simp only [hnone, false_or]
      by_cases hl : c.Logging.LogFile = []
      · simp [hl]
      · by_cases hs : IsNotExist (fs.Stat (Dir c.Logging.LogFile)) = true
        · simp [hl, hs]
        · simp [hl, hs]

/-- C12.  What the code does: `ValidateConfig` returns an error exactly when the list
of monitored paths is empty, or `os.Stat` reports some monitored path, with its trailing
slashes trimmed, as not existing, or the log file is set and `os.Stat` reports its
directory as not existing.  On every file system the root `/` exists, yet the
configuration that monitors `/` is rejected, because trimming turns `/` into the empty
path; a path written with a trailing slash, `/a/` on the example tree, is accepted. -/
theorem C12_validate_config :
    (∀ (fs : FS) (c : Config), (ValidateConfig fs c).2.isSome = true ↔
      (c.Monitor.Paths = [] ∨
        (∃ p ∈ c.Monitor.Paths, IsNotExist (fs.Stat (TrimRight p (str "/"))) = true) ∨
        (c.Logging.LogFile ≠ [] ∧ IsNotExist (fs.Stat (Dir c.Logging.LogFile)) = true))) ∧
    (∀ fs : FS, fs.Stat (str "/") = none ∧
      TrimRight (str "/") (str "/") = [] ∧
      (ValidateConfig fs (exampleConfig [str "/"] [])).2 =
        some (Error.errorf "monitor path does not exist" (str "/"))) ∧
    (exampleFS.Stat (str "/a") = none ∧
      (ValidateConfig exampleFS (exampleConfig [str "/a/"] [])).2 = none ∧
      (ValidateConfig exampleFS (exampleConfig [str "/a/"] [])).1.Monitor.Paths = [str "/a"]) :=
  ⟨ValidateConfig_error, fun _ => ⟨rfl, rfl, rfl⟩, by decide, by decide, by decide⟩

/-! ### `Daemon.Start` -/

/-- C13, amended.  `Start` fails whenever the running flag is set or the PID file
exists, and then changes neither the daemon nor the disk.  If `Start` returns nil, the
running flag was clear and the PID file absent before the call, the write of the PID
file succeeded, and after the call the PID file holds the process id in decimal, the
working baseline is the snapshot loaded from the baseline file and the running flag is
set.  If `Start` returns an error, the daemon is as before the call (running flag and
baseline unchanged), and the disk is as before when the failure is the running flag,
an existing PID file or a failure to open the PID file for writing. -/
theorem C13_start (tc : TimeCodec) (d : Daemon) (w : World) :
    ((d.running = true ∨ (w.disk d.pidFile).isSome = true) →
      (Start tc d w).err.isSome = true ∧ (Start tc d w).daemon = d ∧
        (Start tc d w).world = w) ∧
    ((Start tc d w).err = none →
      d.running = false ∧ w.disk d.pidFile = none ∧
      w.writes d.pidFile = WriteOutcome.succeeds ∧
      holdsText ((Start tc d w).world.disk d.pidFile) (decimal w.pid) = true ∧
      (Start tc d w).daemon.running = true ∧
      ∃ homeDir baseline, w.homeDir = some homeDir ∧
        LoadFile tc (Start tc d w).world (baselinePathOf homeDir) = Except.ok baseline ∧
        (Start tc d w).daemon.baseline = some baseline) ∧
    ((Start tc d w).err.isSome = true → (Start tc d w).daemon = d) ∧
    ((Start tc d w).err.isSome = true →
      (d.running = true ∨ (w.disk d.pidFile).isSome = true ∨
        w.writes d.pidFile = WriteOutcome.openFails) →
      (Start tc d w).world = w) := by
  unfold Start
  cases hr : d.running with
  | true => simp
  | false =>
    cases hp : w.disk d.pidFile with
    | some c => simp
    | none =>
      cases hw : w.writes d.pidFile with
      | openFails => simp [WriteFile, hw]
      | writeFails written => simp [WriteFile, hw]
      | succeeds =>
        have hwf : WriteFile w d.pidFile (decimal w.pid) =
            (writeFile w d.pidFile (decimal w.pid), false) := by
          simp [WriteFile, hw]
        have hhome : (writeFile w d.pidFile (decimal w.pid)).homeDir = w.homeDir := rfl
        have hpid : holdsText ((writeFile w d.pidFile (decimal w.pid)).disk d.pidFile)
            (decimal w.pid) = true := by
          simp [writeFile, holdsText]
        simp only [Bool.false_eq_true, if_false, Option.isSome_none, hwf, hhome]
        cases hh : w.homeDir with
        | none => simp
        | some homeDir =>
          simp only
          cases hl : LoadFile tc (writeFile w d.pidFile (decimal w.pid))
              (baselinePathOf homeDir) with
          | error e => simp
          | ok baseline =>
            simp only [Option.isSome_none, Bool.false_eq_true, false_or, false_implies,
              true_and, and_true, Option.some.injEq, implies_true, reduceCtorEq, or_self]
            exact fun _ => ⟨hpid, homeDir, baseline, rfl, hl, rfl⟩

/-- C13 as stated fails in three ways.  A daemon whose running flag is set makes `Start`
return an error while the flag stays set.  A daemon that is not running, with no PID
file and no baseline file on disk, makes `Start` return an error after it has written
the PID file: the file was absent before the call and holds the process id after it,
while the running flag and the baseline of the daemon are unchanged.  On a disk where
the write of the PID file fails after two bytes, `Start` returns an error and the PID
file, absent before the call, holds those two bytes. -/
theorem C13_counterexample :
    ((Start rfc3339 (exampleDaemon true) (exampleWorld none)).err.isSome = true ∧
      (Start rfc3339 (exampleDaemon true) (exampleWorld none)).daemon.running = true) ∧
    ((exampleDaemon false).running = false ∧
      ((exampleWorld none).disk examplePidFile).isSome = false ∧
      (Start rfc3339 (exampleDaemon false) (exampleWorld none)).err.isSome = true ∧
      (Start rfc3339 (exampleDaemon false) (exampleWorld none)).daemon.running = false ∧
      holdsText
        ((Start rfc3339 (exampleDaemon false) (exampleWorld none)).world.disk
          examplePidFile)
        (str "4242") = true) ∧
    (((fullDiskWorld (some (Content.document exampleDocument))).disk examplePidFile).isSome =
        false ∧
      (Start rfc3339 (exampleDaemon false)
        (fullDiskWorld (some (Content.document exampleDocument)))).err.isSome = true ∧
      (Start rfc3339 (exampleDaemon false)
        (fullDiskWorld (some (Content.document exampleDocument)))).daemon.running = false ∧
      holdsText
        ((Start rfc3339 (exampleDaemon false)
          (fullDiskWorld (some (Content.document exampleDocument)))).world.disk
            examplePidFile)
        (str "42") = true) := by
  refine ⟨⟨by decide, by decide⟩, ⟨by decide, by decide, by decide, by decide, by decide⟩,
    by decide, by decide, by decide, by decide⟩

/-- C13 as amended, on a daemon that is not running, with no PID file and a saved
baseline on disk: `Start` returns nil, the PID file holds the process id 4242, the
running flag is set and the working baseline is the loaded snapshot. -/
theorem C13_start_witness :
    (exampleDaemon false).running = false ∧
    (exampleWorld (some (Content.document exampleDocument))).disk
      (exampleDaemon false).pidFile = none ∧
    (exampleWorld (some (Content.document exampleDocument))).writes
      (exampleDaemon false).pidFile = WriteOutcome.succeeds ∧
    holdsText
      ((Start rfc3339 (exampleDaemon false)
        (exampleWorld (some (Content.document exampleDocument)))).world.disk
          (exampleDaemon false).pidFile)
      (decimal 4242) = true ∧
    (Start rfc3339 (exampleDaemon false)
      (exampleWorld (some (Content.document exampleDocument)))).daemon.running = true ∧
    ∃ homeDir baseline,
      (exampleWorld (some (Content.document exampleDocument))).homeDir = some homeDir ∧
      LoadFile rfc3339
        (Start rfc3339 (exampleDaemon false)
          (exampleWorld (some (Content.document exampleDocument)))).world
        (baselinePathOf homeDir) = Except.ok baseline ∧
      (Start rfc3339 (exampleDaemon false)
        (exampleWorld (some (Content.document exampleDocument)))).daemon.baseline =
          some baseline :=
  (C13_start rfc3339 (exampleDaemon false)
    (exampleWorld (some (Content.document exampleDocument)))).2.1 (by decide)

/-! ### Lock traces -/

/-- C14.  The lock traces of `AddFile`, `GetFile`, `RemoveFile` and `Save` are guarded:
each accesses `Files` between taking and releasing the lock of its snapshot.  The trace
of `Compare` is not: for all snapshots it reads the map of both, contains no lock
operation and is unguarded; the same holds for the loop of `scan` that ranges over the
map of the working baseline. -/
theorem C14_lock_traces :
    guarded addFileTrace = true ∧ guarded getFileTrace = true ∧
    guarded removeFileTrace = true ∧ guarded saveTrace = true ∧
    (∀ A B : Baseline,
      LockEvent.readFiles 0 ∈ compareTrace A B ∧ LockEvent.readFiles 1 ∈ compareTrace A B ∧
      (∀ e ∈ compareTrace A B, e.isLockOp = false) ∧
      guarded (compareTrace A B) = false) ∧
    (∀ baseline : Baseline,
      (∀ e ∈ scanDeletedLoopTrace baseline, e.isLockOp = false) ∧
      guarded (scanDeletedLoopTrace baseline) = false) := by
  refine ⟨by decide, by decide, by decide, by decide, ?_, ?_⟩
  · intro A B
    refine ⟨?_, ?_, ?_, ?_⟩
    · simp [compareTrace]
    · simp [compareTrace]
    · intro e he
      simp only [compareTrace, List.mem_append, List.mem_cons, List.mem_flatMap,
        List.mem_singleton, List.not_mem_nil, or_false] at he
      rcases he with (he | ⟨_, _, he | he⟩) | (he | ⟨_, _, he | he⟩) <;> subst he <;> rfl
    · simp [guarded, compareTrace, guardedFrom]
  · intro baseline
    refine ⟨?_, ?_⟩
    · intro e he
      simp only [scanDeletedLoopTrace, List.mem_cons, List.mem_flatMap, List.mem_singleton,
        List.not_mem_nil, or_false] at he
      rcases he with he | ⟨_, _, he⟩ <;> subst he <;> rfl
    · simp [guarded, scanDeletedLoopTrace, guardedFrom]

/-! ### Symmetry of `Equals` and duality of `Compare` -/

theorem Equals_symm (x y : Option FileInfo) : Equals x y = Equals y x := by
  cases x with
  | none => cases y <;> rfl
  | some f =>
    cases y with
    | none => rfl
    | some g =>
      unfold Equals
      by_cases h : f.Path ≠ g.Path ∨ f.Size ≠ g.Size ∨ f.Mode ≠ g.Mode ∨
          f.ModTime ≠ g.ModTime ∨ f.UID ≠ g.UID ∨ f.GID ≠ g.GID ∨
          f.IsDir ≠ g.IsDir ∨ f.IsSymlink ≠ g.IsSymlink
      · have h' : g.Path ≠ f.Path ∨ g.Size ≠ f.Size ∨ g.Mode ≠ f.Mode ∨
            g.ModTime ≠ f.ModTime ∨ g.UID ≠ f.UID ∨ g.GID ≠ f.GID ∨
            g.IsDir ≠ f.IsDir ∨ g.IsSymlink ≠ f.IsSymlink := by
          rcases h with h | h | h | h | h | h | h | h
          · exact Or.inl (Ne.symm h)
          · exact Or.inr (Or.inl (Ne.symm h))
          · exact Or.inr (Or.inr (Or.inl (Ne.symm h)))
          · exact Or.inr (Or.inr (Or.inr (Or.inl (Ne.symm h))))
          · exact Or.inr (Or.inr (Or.inr (Or.inr (Or.inl (Ne.symm h)))))
          · exact Or.inr (Or.inr (Or.inr (Or.inr (Or.inr (Or.inl (Ne.symm h))))))
          · exact Or.inr (Or.inr (Or.inr (Or.inr (Or.inr (Or.inr (Or.inl (Ne.symm h)))))))
          · exact Or.inr (Or.inr (Or.inr (Or.inr (Or.inr (Or.inr (Or.inr (Ne.symm h)))))))
        simp only [h, h', if_true]
      · have h' : ¬ (g.Path ≠ f.Path ∨ g.Size ≠ f.Size ∨ g.Mode ≠ f.Mode ∨
            g.ModTime ≠ f.ModTime ∨ g.UID ≠ f.UID ∨ g.GID ≠ f.GID ∨
            g.IsDir ≠ f.IsDir ∨ g.IsSymlink ≠ f.IsSymlink) := by
          intro hg
          apply h
          rcases hg with hg | hg | hg | hg | hg | hg | hg | hg
          · exact Or.inl (Ne.symm hg)
          · exact Or.inr (Or.inl (Ne.symm hg))
          · exact Or.inr (Or.inr (Or.inl (Ne.symm hg)))
          · exact Or.inr (Or.inr (Or.inr (Or.inl (Ne.symm hg))))
          · exact Or.inr (Or.inr (Or.inr (Or.inr (Or.inl (Ne.symm hg)))))
          · exact Or.inr (Or.inr (Or.inr (Or.inr (Or.inr (Or.inl (Ne.symm hg))))))
          · exact Or.inr (Or.inr (Or.inr (Or.inr (Or.inr (Or.inr (Or.inl (Ne.symm hg)))))))
          · exact Or.inr (Or.inr (Or.inr (Or.inr (Or.inr (Or.inr (Or.inr (Ne.symm hg)))))))
        simp only [h, h', if_false]
        simp only [not_or, not_not] at h
        obtain ⟨-, -, -, -, -, -, h7, h8⟩ := h
        rw [← h7, ← h8]
        cases f.IsDir <;> cases f.IsSymlink <;> simp [eq_comm]

theorem Equals_self (f : FileInfo) : Equals (some f) (some f) = true := by
  unfold Equals
  simp

/-- C15. `Compare` is dual under swapping its arguments: a key is behind
`A.Compare(B).Added` exactly when it is behind `B.Compare(A).Deleted`, and the other
way round, and it is behind `A.Compare(B).Modified` exactly when it is behind
`B.Compare(A).Modified`; `Equals` is symmetric for all pointers, nil included; and
`A.Compare(A)` has empty Added and Deleted, and empty Modified when `A` holds no nil
record. -/
theorem C15_compare_dual :
    (∀ x y : Option FileInfo, Equals x y = Equals y x) ∧
    (∀ (A B : Baseline) (k : GoString),
      k ∈ (addedEntries A B).map (·.1) ↔ k ∈ (deletedEntries B A).map (·.1)) ∧
    (∀ (A B : Baseline) (k : GoString),
      k ∈ (deletedEntries A B).map (·.1) ↔ k ∈ (addedEntries B A).map (·.1)) ∧
    (∀ (A B : Baseline) (k : GoString),
      k ∈ (modifiedEntries A B).map (·.1) ↔ k ∈ (modifiedEntries B A).map (·.1)) ∧
    (∀ A B : Baseline, Compare A B =
      { Added := (addedEntries A B).map (·.2),
        Modified := (modifiedEntries A B).map (·.2),
        Deleted := (deletedEntries A B).map (·.2) }) ∧
    (∀ A : Baseline, (Compare A A).Added = [] ∧ (Compare A A).Deleted = []) ∧
    (∀ A : Baseline, (∀ k, A.Files.lookup k ≠ some none) → (Compare A A).Modified = []) := by
  refine ⟨Equals_symm, ?_, ?_, ?_, Compare_eq, ?_, ?_⟩
  · intro A B k
    rw [mem_addedKeys, mem_deletedKeys]
  · intro A B k
    rw [mem_addedKeys, mem_deletedKeys]
  · intro A B k
    rw [mem_modifiedKeys, mem_modifiedKeys]
    constructor
    · rintro ⟨x, y, h1, h2, h3⟩
      exact ⟨y, x, h2, h1, by rw [Equals_symm]; exact h3⟩
    · rintro ⟨x, y, h1, h2, h3⟩
      exact ⟨y, x, h2, h1, by rw [Equals_symm]; exact h3⟩
  · intro A
    rw [Compare_eq]
    refine ⟨?_, ?_⟩
    · simp only [List.map_eq_nil_iff]
      apply List.eq_nil_iff_forall_not_mem.2
      rintro ⟨k, r⟩ h
      have := (mem_addedEntries A A k r).1 h
      rw [this.2] at this
      cases this.1
    · simp only [List.map_eq_nil_iff]
      apply List.eq_nil_iff_forall_not_mem.2
      rintro ⟨k, r⟩ h
      have := (mem_deletedEntries A A k r).1 h
      rw [this.2] at this
      cases this.1
  · intro A hnil
    rw [Compare_eq]
    simp only [List.map_eq_nil_iff]
    apply List.eq_nil_iff_forall_not_mem.2
    rintro ⟨k, r⟩ h
    obtain ⟨h1, x, h2, h3⟩ := (mem_modifiedEntries A A k r).1 h
    rw [h1] at h2
    cases h2
    cases r with
    | none => exact hnil k h1
    | some f => rw [Equals_self] at h3; cases h3

end IntegrityWatchdog
